import Mathlib

/-!
# hclib work-stealing runtime: finish scopes, spawn operations, helper mode

A shallow embedding of `src/hcpp-runtime.c`.  The runtime is a machine over an
explicit state: the heap of finish scopes, the promises, the suspended fiber
contexts and, per worker, its deque, its current finish and the control stack
of the fiber it is running.  Every C function of the runtime is a state
transformer; a call that has to come back later (a task body, the rest of
`hclib_end_finish` after `help_finish`) leaves a `Frame` on the control stack
of the calling worker.  `step` runs the top frame of one worker, `run` follows a
schedule (a list of worker ids), so interleavings of several workers are lists.

Conventions.
* Pointers are indices: a `finish_t *` is an index into `State.finishes`, a
  promise handle an index into `State.ddfs`, a `LiteCtx *` an index into
  `State.ctxs`.  `none` in a slot is freed memory; `malloc` appends a slot.
* Undefined behaviour of the C code (dereferencing a null, freed or never
  initialised pointer) is the result `Fault.undefined`.
* The two preprocessor strategies of the source are selected by
  `Config.litectx` (`HCLIB_LITECTX_STRATEGY`); `Config.comm_worker` is
  `HCPP_COMM_WORKER`, `Config.stats` is `HC_COMM_WORKER_STATS`.
* The scope counter is a C `int`; it is an `Int` here (no program considered
  comes near `2^31` tasks in flight).

The two test programs the specification refers to are embedded in namespaces
of their own, over the contract of the task interface they call: `Uts` for
`uts_hclib.cpp` (node and leaf counters of the tree search) and `Fib` for
`fib-ddt.cpp` (Fibonacci numbers through promises).
-/

namespace Hclib

/-! ## Data model -/

/-- A statement of a user function (a task body or the main program): the
calls into the runtime it performs, and `work n` for a visible side effect of
its own (it appends `n` to the global log).  `ddf_create` allocates the next
promise handle (handles are handed out in order, so a program names them by
number), `ddf_get p` reads promise `p`, `finalize` is `hclib_finalize()`. -/
inductive Cmd where
  | start_finish
  | end_finish
  | async (f : Nat)
  | async_await (f : Nat) (deps : List Nat)
  | async_escaping (f : Nat) (deps : List Nat)
  | async_at (pl : Nat) (f : Nat)
  | async_comm (f : Nat)
  | ddf_put (p : Nat) (v : Nat)
  | work (n : Nat)
  | ddf_create
  | ddf_get (p : Nat)
  | finalize
deriving DecidableEq, Repr

/-- The function pointer `_fp` of a task: a user function (an index into the
program table) or the runtime's `_finish_ctx_resume`. -/
inductive Fp where
  | user (f : Nat)
  | finish_ctx_resume
deriving DecidableEq, Repr

/-- A task (`task_t` with its embedded trigger): function pointer, argument,
the finish scope it is bound to, its promise list (`none` is `NULL`) and the
index of the trigger into that list. -/
structure task_t where
  fp : Fp
  args : Nat
  current_finish : Option Nat
  ddf_list : Option (List Nat)
  ddt_index : Nat
deriving DecidableEq, Repr

/-- A finish scope (`finish_t`): the counter, the parent pointer and the
pointer `finish_deps` to the completion promise (`none`: never written). -/
structure finish_t where
  counter : Int
  parent : Option Nat
  finish_deps : Option Nat
deriving DecidableEq, Repr

/-- Modelled from the spec: the promise record `hclib_ddf_t`, whose code is not
part of the sources.  A single-assignment cell (`datum = none` until put) with
the wait-list of the triggers registered on it (each trigger owns its task). -/
structure ddf_t where
  datum : Option Nat
  waiters : List task_t
deriving DecidableEq, Repr

/-- A return point on the control stack of a fiber, with the C locals that are
still live there. -/
inductive Frame where
  /-- inside a user function: the statements still to run -/
  | user (cmds : List Cmd)
  /-- inside `_finish_ctx_resume(arg)` -/
  | finish_ctx_resume (arg : Nat)
  /-- `execute_task` after the body returned: `check_out_finish(current_finish)` -/
  | execute_task_ret (current_finish : Option Nat)
  /-- `hclib_end_finish` after the `if`: the `HASSERT` and the parent check-out -/
  | end_finish_ret (ws : Nat) (current_finish : Nat)
  /-- `hclib_end_finish`, last two statements: pop to the parent, free the scope -/
  | end_finish_tail (ws : Nat) (current_finish : Nat)
  /-- `help_finish` after the strategy block: free the promise, `assert` -/
  | help_finish_ret (finish : Nat) (dep : Option Nat)
  /-- entry of `_help_finish_ctx` on the new fiber -/
  | help_finish_ctx (finish : Nat) (prev : Nat)
  /-- `_help_finish_ctx` after `spawn_escaping`: check out, enter the work loop -/
  | help_finish_ctx_out (finish : Nat)
  /-- `crt_work_loop`, top of the `do` body -/
  | crt_work_loop
  /-- `crt_work_loop`, the `while` test on the cached `wid` -/
  | crt_work_loop_cond (wid : Nat)
  /-- `find_and_run_task`, the steal loop -/
  | find_steal (ws : Nat)
  /-- `worker_routine` of the default strategy, its `while` loop -/
  | worker_routine_loop (wid : Nat)
  /-- `slave_worker_finishHelper_routine`, outer loop -/
  | slave_loop (ws : Nat) (finish : Nat)
  /-- `slave_worker_finishHelper_routine`, inner steal loop -/
  | slave_steal (ws : Nat) (finish : Nat)
  /-- `master_worker_routine` loop -/
  | master_loop (finish : Nat)
  /-- inside a promise put: the triggers of the wait-list still to advance -/
  | ddf_put_wake (waiters : List task_t)
  /-- entry of `_hclib_finalize_ctx` on the new fiber -/
  | hclib_finalize_ctx
  /-- `_hclib_finalize_ctx` after `hclib_end_finish`: signal shutdown, swap back -/
  | finalize_ctx_ret
  /-- `hclib_finalize` of the default strategy after `hclib_end_finish` -/
  | finalize_signal
  /-- `hclib_finalize` after the strategy block: free the root scope, join -/
  | finalize_tail
  /-- `hcpp_join`: wait for the other worker threads -/
  | hcpp_join
deriving DecidableEq, Repr

/-- Worker state (`hc_workerState`) together with what the runtime keeps per
worker in global arrays: the deque of its place, the shutdown flag
`done_flags[id].flag` and the two statistics counters.  The `id` of a worker is
its index in `State.workers`.  `stack` is the control stack of the fiber the
worker thread is running, `orig_ctx` the continuation of the proxy context of
its OS thread. -/
structure hc_workerState where
  current_finish : Option Nat
  deque : List task_t
  stack : List Frame
  orig_ctx : List Frame
  done_flag : Nat
  total_push_ind : Nat
  total_steals : Nat
deriving DecidableEq, Repr

/-- The build and run configuration: the preprocessor switches, the deque
capacity and the table of user functions (a function pointer is an index). -/
structure Config where
  litectx : Bool
  comm_worker : Bool
  stats : Bool
  cap : Nat
  prog : List (List Cmd)
deriving DecidableEq, Repr

/-- The global state of the runtime. -/
structure State where
  finishes : List (Option finish_t)
  ddfs : List (Option ddf_t)
  ctxs : List (Option (List Frame))
  workers : List hc_workerState
  comm_worker_out_deque : List task_t
  total_push_outd : Nat
  log : List Nat
deriving DecidableEq, Repr

/-- The ways a run of the C code stops abnormally. -/
inductive Fault where
  /-- undefined behaviour: null, freed or uninitialised pointer dereferenced -/
  | undefined
  /-- `assert(finish->counter == 0)` at the end of `help_finish` -/
  | assert_help_finish
  /-- `HASSERT(current_finish->counter == 0)` in `hclib_end_finish` -/
  | assert_end_finish
  /-- `assert(0)` in `spawn_commTask` -/
  | assert_comm
  /-- a promise is put twice -/
  | double_put
  /-- a promise is read before it is fulfilled (undefined by its contract) -/
  | get_unfulfilled
deriving DecidableEq, Repr

/-- Result of a runtime operation. -/
inductive Res (α : Type) where
  | ok (a : α)
  | fault (e : Fault)
deriving DecidableEq, Repr

/-- Sequencing of runtime operations: a fault ends the run. -/
def Res.bind {α β : Type} (r : Res α) (k : α → Res β) : Res β :=
  match r with
  | .ok a => k a
  | .fault e => .fault e

/-! ## Memory access -/

/-- Dereference a `finish_t *`. -/
def State.getFinish (s : State) (f : Nat) : Res finish_t :=
  match s.finishes[f]? with
  | some (some fin) => .ok fin
  | _ => .fault .undefined

/-- Store into the scope at `f`. -/
def State.setFinish (s : State) (f : Nat) (fin : finish_t) : State :=
  { s with finishes := s.finishes.set f (some fin) }

/-- The counter of the scope at `f`, when that memory is live. -/
def State.counter (s : State) (f : Nat) : Option Int :=
  match s.finishes[f]? with
  | some (some fin) => some fin.counter
  | _ => none

/-- Dereference a promise handle. -/
def State.getDdf (s : State) (p : Nat) : Res ddf_t :=
  match s.ddfs[p]? with
  | some (some d) => .ok d
  | _ => .fault .undefined

/-- Store into the promise at `p`. -/
def State.setDdf (s : State) (p : Nat) (d : ddf_t) : State :=
  { s with ddfs := s.ddfs.set p (some d) }

/-- The worker record of thread `w` (`CURRENT_WS_INTERNAL`). -/
def State.getWorker (s : State) (w : Nat) : Res hc_workerState :=
  match s.workers[w]? with
  | some ws => .ok ws
  | none => .fault .undefined

/-- Store the worker record `w`. -/
def State.setWorker (s : State) (w : Nat) (ws : hc_workerState) : State :=
  { s with workers := s.workers.set w ws }

/-- Leave a return point on the control stack of worker `w`. -/
def State.push (s : State) (w : Nat) (fr : Frame) : State :=
  match s.workers[w]? with
  | some ws => s.setWorker w { ws with stack := fr :: ws.stack }
  | none => s

/-- The current finish of worker `w`. -/
def State.current_finish (s : State) (w : Nat) : Option Nat :=
  match s.workers[w]? with
  | some ws => ws.current_finish
  | none => none

/-- The deque of worker `w`. -/
def State.deque (s : State) (w : Nat) : List task_t :=
  match s.workers[w]? with
  | some ws => ws.deque
  | none => []

/-- The control stack of worker `w`. -/
def State.stack (s : State) (w : Nat) : List Frame :=
  match s.workers[w]? with
  | some ws => ws.stack
  | none => []

/-! ## Deques, atomics, promises (collaborators of `hcpp-runtime.c`) -/

/-- Modelled from the spec: `dequePush`, whose code is not part of the sources.
The owner pushes at the tail of a bounded buffer; a full push fails. -/
def dequePush (cap : Nat) (dq : List task_t) (t : task_t) : Option (List task_t) :=
  if dq.length < cap then some (dq ++ [t]) else none

/-- Modelled from the spec: `hpt_pop_task`, whose code is not part of the
sources.  The owner pops at the tail of its deque (LIFO). -/
def hpt_pop_task (s : State) (ws : Nat) : Option (task_t × State) :=
  match s.workers[ws]? with
  | none => none
  | some wr =>
    match wr.deque.getLast? with
    | none => none
    | some t => some (t, s.setWorker ws { wr with deque := wr.deque.dropLast })

/-- One pass over the victims `vs`: the first non-empty deque of another
worker gives up the task at its head. -/
def steal_scan (s : State) (ws : Nat) : List Nat → Option (task_t × State)
  | [] => none
  | v :: vs =>
    if v = ws then steal_scan s ws vs
    else
      match s.workers[v]? with
      | none => steal_scan s ws vs
      | some vr =>
        match vr.deque with
        | [] => steal_scan s ws vs
        | t :: rest => some (t, s.setWorker v { vr with deque := rest })

/-- Modelled from the spec: `hpt_steal_task`, whose code is not part of the
sources.  A foreign worker takes from the head of a deque (FIFO); the victims
are visited in the order of their ids and the first success is returned. -/
def hpt_steal_task (s : State) (ws : Nat) : Option (task_t × State) :=
  steal_scan s ws (List.range s.workers.length)

/-- Modelled from the spec: `deque_push_place`, whose code is not part of the
sources.  The task lands on the deque of the named place (one place per
worker); the result tells whether the push succeeded. -/
def deque_push_place (cfg : Config) (s : State) (pl : Nat) (t : task_t) : State × Bool :=
  match s.workers[pl]? with
  | none => (s, false)
  | some pr =>
    match dequePush cfg.cap pr.deque t with
    | some dq => (s.setWorker pl { pr with deque := dq }, true)
    | none => (s, false)

/-- Modelled from the spec: `hc_atomic_inc`, whose code is not part of the
sources.  The atomic increment of a counter. -/
def hc_atomic_inc (c : Int) : Int := c + 1

/-- Modelled from the spec: `hc_atomic_dec`, whose code is not part of the
sources.  The atomic decrement of a counter; the result tells whether the
counter reached zero. -/
def hc_atomic_dec (c : Int) : Int × Bool := (c - 1, decide (c - 1 = 0))

/-- Modelled from the spec: `hclib_ddf_create`, whose code is not part of the
sources.  A new empty promise. -/
def hclib_ddf_create (s : State) : State × Nat :=
  ({ s with ddfs := s.ddfs ++ [some { datum := none, waiters := [] }] }, s.ddfs.length)

/-- Modelled from the spec: `hclib_ddf_free`, whose code is not part of the
sources. -/
def hclib_ddf_free (s : State) (p : Nat) : State :=
  { s with ddfs := s.ddfs.set p none }

/-- Modelled from the spec: `hclib_ddf_put`, whose code is not part of the
sources.  The promise becomes fulfilled with `v` (putting twice is fatal) and
every trigger of its wait-list is advanced, one per step of the worker that
puts (frame `ddf_put_wake`). -/
def hclib_ddf_put (w : Nat) (s : State) (p : Nat) (v : Nat) : Res State :=
  match s.getDdf p with
  | .fault e => .fault e
  | .ok d =>
    match d.datum with
    | some _ => .fault .double_put
    | none =>
      .ok ((s.setDdf p { datum := some v, waiters := [] }).push w (.ddf_put_wake d.waiters))

/-- The walk of `iterate_ddt_frontier` over the promises `ps` that start at
index `i` of the list of `t`. -/
def iterate_ddt_frontier_from (s : State) (t : task_t) :
    List Nat → Nat → Res (State × task_t × Bool)
  | [], i => .ok (s, { t with ddt_index := i }, true)
  | p :: ps, i =>
    match s.getDdf p with
    | .fault e => .fault e
    | .ok d =>
      match d.datum with
      | some _ => iterate_ddt_frontier_from s t ps (i + 1)
      | none =>
        .ok (s.setDdf p { d with waiters := d.waiters ++ [{ t with ddt_index := i }] },
             { t with ddt_index := i }, false)

/-- Modelled from the spec: `iterate_ddt_frontier`, whose code is not part of
the sources.  From the current index of the trigger, skip the fulfilled
promises; register the trigger on the first promise that is not fulfilled and
answer 0, or answer 1 when the index walks off the end of the list. -/
def iterate_ddt_frontier (s : State) (t : task_t) : Res (State × task_t × Bool) :=
  iterate_ddt_frontier_from s t ((t.ddf_list.getD []).drop t.ddt_index) t.ddt_index

/-- Modelled from the spec: `ddt_init`, whose code is not part of the sources.
The trigger starts at the first promise of the list. -/
def ddt_init (t : task_t) : task_t := { t with ddt_index := 0 }

/-! ## `hcpp-runtime.c` -/

/-- Counterpart of `increment_async_counter(wid)`, compiled in under
`HC_COMM_WORKER_STATS`. -/
def increment_async_counter (cfg : Config) (s : State) (wid : Nat) : State :=
  if cfg.stats then
    match s.workers[wid]? with
    | some wr => s.setWorker wid { wr with total_push_ind := wr.total_push_ind + 1 }
    | none => s
  else s

/-- Counterpart of `increment_steals_counter(wid)`, compiled in under
`HC_COMM_WORKER_STATS`. -/
def increment_steals_counter (cfg : Config) (s : State) (wid : Nat) : State :=
  if cfg.stats then
    match s.workers[wid]? with
    | some wr => s.setWorker wid { wr with total_steals := wr.total_steals + 1 }
    | none => s
  else s

/-- Counterpart of `increment_asyncComm_counter()`, compiled in under
`HC_COMM_WORKER_STATS`. -/
def increment_asyncComm_counter (cfg : Config) (s : State) : State :=
  if cfg.stats then { s with total_push_outd := s.total_push_outd + 1 } else s

/-- Counterpart of `check_in_finish`: `if (finish) hc_atomic_inc(&finish->counter)`. -/
def check_in_finish (s : State) (finish : Option Nat) : Res State :=
  match finish with
  | none => .ok s
  | some f =>
    match s.getFinish f with
    | .fault e => .fault e
    | .ok fin => .ok (s.setFinish f { fin with counter := hc_atomic_inc fin.counter })

/-- Counterpart of `check_out_finish`: on a non-null scope the counter is
decremented; when `hc_atomic_dec` reports zero and the fiber strategy is
compiled in, `hclib_ddf_put(finish->finish_deps[0], finish)` follows. -/
def check_out_finish (cfg : Config) (w : Nat) (s : State) (finish : Option Nat) : Res State :=
  match finish with
  | none => .ok s
  | some f =>
    match s.getFinish f with
    | .fault e => .fault e
    | .ok fin =>
      let s1 := s.setFinish f { fin with counter := (hc_atomic_dec fin.counter).1 }
      if (hc_atomic_dec fin.counter).2 then
        if cfg.litectx then
          match fin.finish_deps with
          | none => .fault .undefined
          | some p => hclib_ddf_put w s1 p f
        else .ok s1
      else .ok s1

/-- The frame that runs `(task->_fp)(task->args)`. -/
def call_fp (cfg : Config) (task : task_t) : Frame :=
  match task.fp with
  | .user f => .user (cfg.prog.getD f [])
  | .finish_ctx_resume => .finish_ctx_resume task.args

/-- Counterpart of `execute_task`: the current finish of the worker becomes
the finish of the task, then the body is called; `check_out_finish` on the
local `current_finish` is what the body returns to. -/
def execute_task (cfg : Config) (w : Nat) (s : State) (task : task_t) : Res State :=
  match s.getWorker w with
  | .fault e => .fault e
  | .ok wr =>
    let current_finish := task.current_finish
    let s1 := s.setWorker w { wr with current_finish := current_finish }
    .ok ((s1.push w (.execute_task_ret current_finish)).push w (call_fp cfg task))

/-- Counterpart of `rt_schedule_async`: a communication task goes to the
communication deque (when compiled in), any other task to the deque of the
current worker; when that deque is full the task is executed in place. -/
def rt_schedule_async (cfg : Config) (w : Nat) (s : State) (async_task : task_t)
    (comm_task : Bool) : Res State :=
  if comm_task then
    if cfg.comm_worker then
      .ok { s with comm_worker_out_deque := s.comm_worker_out_deque ++ [async_task] }
    else .ok s
  else
    match s.getWorker w with
    | .fault e => .fault e
    | .ok wr =>
      match dequePush cfg.cap wr.deque async_task with
      | some dq => .ok (s.setWorker w { wr with deque := dq })
      | none => execute_task cfg w s async_task

/-- Counterpart of `is_eligible_to_schedule`. -/
def is_eligible_to_schedule (s : State) (async_task : task_t) : Res (State × task_t × Bool) :=
  match async_task.ddf_list with
  | some _ => iterate_ddt_frontier s async_task
  | none => .ok (s, async_task, true)

/-- Counterpart of `try_schedule_async`. -/
def try_schedule_async (cfg : Config) (w : Nat) (s : State) (async_task : task_t)
    (comm_task : Bool) : Res State :=
  match is_eligible_to_schedule s async_task with
  | .fault e => .fault e
  | .ok (s1, t1, true) => rt_schedule_async cfg w s1 t1 comm_task
  | .ok (s1, _, false) => .ok s1

/-- Counterpart of `set_current_finish(task, finish)`. -/
def set_current_finish (task : task_t) (finish : Option Nat) : task_t :=
  { task with current_finish := finish }

/-- Counterpart of `set_ddf_list(task, ddf_list)`. -/
def set_ddf_list (task : task_t) (ddf_list : Option (List Nat)) : task_t :=
  { task with ddf_list := ddf_list }

/-- Counterpart of `spawn_at_hpt`. -/
def spawn_at_hpt (cfg : Config) (w : Nat) (s : State) (pl : Nat) (task : task_t) : Res State :=
  match check_in_finish s (s.current_finish w) with
  | .fault e => .fault e
  | .ok s1 =>
    let task1 := set_current_finish task (s.current_finish w)
    .ok (increment_async_counter cfg (deque_push_place cfg s1 pl task1).1 w)

/-- Counterpart of `spawn`. -/
def spawn (cfg : Config) (w : Nat) (s : State) (task : task_t) : Res State :=
  match check_in_finish s (s.current_finish w) with
  | .fault e => .fault e
  | .ok s1 =>
    let task1 := set_current_finish task (s.current_finish w)
    match try_schedule_async cfg w s1 task1 false with
    | .fault e => .fault e
    | .ok s2 => .ok (increment_async_counter cfg s2 w)

/-- Counterpart of `spawn_escaping`. -/
def spawn_escaping (cfg : Config) (w : Nat) (s : State) (task : task_t)
    (ddf_list : Option (List Nat)) : Res State :=
  let task1 := set_current_finish task none
  let task2 := ddt_init (set_ddf_list task1 ddf_list)
  match try_schedule_async cfg w s task2 false with
  | .fault e => .fault e
  | .ok s2 => .ok (increment_async_counter cfg s2 w)

/-- Counterpart of `spawn_await`. -/
def spawn_await (cfg : Config) (w : Nat) (s : State) (task : task_t)
    (ddf_list : Option (List Nat)) : Res State :=
  match check_in_finish s (s.current_finish w) with
  | .fault e => .fault e
  | .ok s1 =>
    let task1 := set_current_finish task (s.current_finish w)
    let task2 := ddt_init (set_ddf_list task1 ddf_list)
    match try_schedule_async cfg w s1 task2 false with
    | .fault e => .fault e
    | .ok s2 => .ok (increment_async_counter cfg s2 w)

/-- Counterpart of `spawn_commTask`. -/
def spawn_commTask (cfg : Config) (w : Nat) (s : State) (task : task_t) : Res State :=
  if cfg.comm_worker then
    match check_in_finish s (s.current_finish w) with
    | .fault e => .fault e
    | .ok s1 => try_schedule_async cfg w s1 (set_current_finish task (s.current_finish w)) true
  else .fault .assert_comm

/-- Counterpart of `find_and_run_task`: the local pop; when it comes back
empty the steal loop is entered (frame `find_steal`), otherwise the task is
executed. -/
def find_and_run_task (cfg : Config) (w : Nat) (s : State) (ws : Nat) : Res State :=
  match hpt_pop_task s ws with
  | some (task, s1) => execute_task cfg w s1 task
  | none => .ok (s.push w (.find_steal ws))

/-- One turn of the steal loop of `find_and_run_task`:
`while (done_flags[ws->id].flag)` with one steal attempt; a stolen task leaves
the loop and is executed, a cleared flag leaves the loop with no task. -/
def find_steal (cfg : Config) (w : Nat) (s : State) (ws : Nat) : Res State :=
  match s.getWorker ws with
  | .fault e => .fault e
  | .ok wr =>
    if wr.done_flag ≠ 0 then
      match hpt_steal_task s ws with
      | some (task, s1) => execute_task cfg w (increment_steals_counter cfg s1 ws) task
      | none => .ok (s.push w (.find_steal ws))
    else .ok s

/-- One turn of the outer loop of `slave_worker_finishHelper_routine`. -/
def slave_loop (cfg : Config) (w : Nat) (s : State) (ws finish : Nat) : Res State :=
  match s.getFinish finish with
  | .fault e => .fault e
  | .ok fin =>
    if fin.counter > 0 then
      let s1 := s.push w (.slave_loop ws finish)
      match hpt_pop_task s1 ws with
      | some (task, s2) => execute_task cfg w s2 task
      | none => .ok (s1.push w (.slave_steal ws finish))
    else .ok s

/-- One turn of the inner loop of `slave_worker_finishHelper_routine`. -/
def slave_steal (cfg : Config) (w : Nat) (s : State) (ws finish : Nat) : Res State :=
  match s.getFinish finish with
  | .fault e => .fault e
  | .ok fin =>
    if fin.counter > 0 then
      match hpt_steal_task s ws with
      | some (task, s1) => execute_task cfg w (increment_steals_counter cfg s1 ws) task
      | none => .ok (s.push w (.slave_steal ws finish))
    else .ok s

/-- One turn of the loop of `master_worker_routine` (communication worker). -/
def master_loop (cfg : Config) (w : Nat) (s : State) (finish : Nat) : Res State :=
  match s.getFinish finish with
  | .fault e => .fault e
  | .ok fin =>
    if fin.counter > 0 then
      let s1 := s.push w (.master_loop finish)
      match s1.comm_worker_out_deque with
      | [] => .ok s1
      | task :: rest =>
        execute_task cfg w
          (increment_asyncComm_counter cfg { s1 with comm_worker_out_deque := rest }) task
    else .ok s

/-- Counterpart of `crt_work_loop`, the `do` body: `wid` is read, then
`find_and_run_task(ws)`; the `while` test comes after it. -/
def crt_work_loop (cfg : Config) (w : Nat) (s : State) : Res State :=
  find_and_run_task cfg w (s.push w (.crt_work_loop_cond w)) w

/-- Counterpart of the end of `crt_work_loop`: the `while` test on
`done_flags[wid]`, and after the loop the swap to the original context of the
thread. -/
def crt_work_loop_cond (w : Nat) (s : State) (wid : Nat) : Res State :=
  match s.getWorker wid with
  | .fault e => .fault e
  | .ok fr =>
    if fr.done_flag ≠ 0 then .ok (s.push w .crt_work_loop)
    else
      match s.getWorker w with
      | .fault e => .fault e
      | .ok wr => .ok (s.setWorker w { wr with stack := wr.orig_ctx })

/-- Counterpart of `worker_routine` of the default strategy:
`while (done_flags[wid].flag) find_and_run_task(ws)`. -/
def worker_routine_loop (cfg : Config) (w : Nat) (s : State) (wid : Nat) : Res State :=
  match s.getWorker wid with
  | .fault e => .fault e
  | .ok fr =>
    if fr.done_flag ≠ 0 then find_and_run_task cfg w (s.push w (.worker_routine_loop wid)) wid
    else .ok s

/-- Counterpart of `_finish_ctx_resume`: `LiteCtx_swap(currentCtx, finishCtx)`.
The thread continues on the saved stack of `finishCtx`; the fiber that was
running is left behind (the resumed side destroys it). -/
def _finish_ctx_resume (w : Nat) (s : State) (arg : Nat) : Res State :=
  match s.ctxs[arg]? with
  | some (some k) =>
    match s.getWorker w with
    | .fault e => .fault e
    | .ok wr =>
      .ok ({ s with ctxs := s.ctxs.set arg none }.setWorker w { wr with stack := k })
  | _ => .fault .undefined

/-- Counterpart of `_help_finish_ctx` up to and including `spawn_escaping`:
the resume task for `finishCtx = ctx->prev` is built and spawned on
`finish->finish_deps`. -/
def _help_finish_ctx (cfg : Config) (w : Nat) (s : State) (finish prev : Nat) : Res State :=
  match s.getFinish finish with
  | .fault e => .fault e
  | .ok fin =>
    let task : task_t :=
      { fp := .finish_ctx_resume, args := prev, current_finish := none,
        ddf_list := none, ddt_index := 0 }
    spawn_escaping cfg w (s.push w (.help_finish_ctx_out finish)) task
      (fin.finish_deps.map (fun p => [p]))

/-- Counterpart of the end of `_help_finish_ctx`: `check_out_finish(finish)`,
then `crt_work_loop()`. -/
def _help_finish_ctx_out (cfg : Config) (w : Nat) (s : State) (finish : Nat) : Res State :=
  check_out_finish cfg w (s.push w .crt_work_loop) (some finish)

/-- Counterpart of `_help_finish` of the default strategy. -/
def _help_finish (cfg : Config) (w : Nat) (s : State) (finish : Nat) : Res State :=
  if cfg.comm_worker then
    if w = 0 then .ok (s.push w (.master_loop finish))
    else .ok (s.push w (.slave_loop w finish))
  else .ok (s.push w (.slave_loop w finish))

/-- Counterpart of `help_finish`.  Fiber strategy: a fresh promise is
installed in `finish->finish_deps`, the running fiber is saved (it will
continue at `help_finish_ret`) and the thread swaps to a new fiber that starts
in `_help_finish_ctx`.  Default strategy: `_help_finish(finish)`.  The closing
`assert` is the frame `help_finish_ret`. -/
def help_finish (cfg : Config) (w : Nat) (s : State) (finish : Nat) : Res State :=
  if cfg.litectx then
    match s.getFinish finish with
    | .fault e => .fault e
    | .ok fin =>
      let (s1, p) := hclib_ddf_create s
      let s2 := s1.setFinish finish { fin with finish_deps := some p }
      match s2.getWorker w with
      | .fault e => .fault e
      | .ok wr =>
        let saved := Frame.help_finish_ret finish (some p) :: wr.stack
        let c := s2.ctxs.length
        .ok ({ s2 with ctxs := s2.ctxs ++ [some saved] }.setWorker w
              { wr with stack := [.help_finish_ctx finish c] })
  else
    _help_finish cfg w (s.push w (.help_finish_ret finish none)) finish

/-- Counterpart of the end of `help_finish`: under the fiber strategy the
promise is freed; then `assert(finish->counter == 0)`. -/
def help_finish_ret (cfg : Config) (s : State) (finish : Nat) (dep : Option Nat) : Res State :=
  let s1 := if cfg.litectx then
      match dep with
      | some p => hclib_ddf_free s p
      | none => s
    else s
  match s1.getFinish finish with
  | .fault e => .fault e
  | .ok fin => if fin.counter = 0 then .ok s1 else .fault .assert_help_finish

/-- Counterpart of `hclib_start_finish`. -/
def hclib_start_finish (w : Nat) (s : State) : Res State :=
  match s.getWorker w with
  | .fault e => .fault e
  | .ok wr =>
    let finish := s.finishes.length
    let s1 : State :=
      { s with finishes := s.finishes ++
          [some { counter := 0, parent := wr.current_finish, finish_deps := none }] }
    match check_in_finish s1 wr.current_finish with
    | .fault e => .fault e
    | .ok s2 => .ok (s2.setWorker w { wr with current_finish := some finish })

/-- Counterpart of `hclib_end_finish` up to the `HASSERT`: the current finish
of the worker is read and, when its counter is positive, `help_finish` is
entered.  The rest of the function is the frame `end_finish_ret`. -/
def hclib_end_finish (cfg : Config) (w : Nat) (s : State) : Res State :=
  match s.getWorker w with
  | .fault e => .fault e
  | .ok wr =>
    match wr.current_finish with
    | none => .fault .undefined
    | some current_finish =>
      match s.getFinish current_finish with
      | .fault e => .fault e
      | .ok fin =>
        let s1 := s.push w (.end_finish_ret w current_finish)
        if fin.counter > 0 then help_finish cfg w s1 current_finish else .ok s1

/-- Counterpart of `hclib_end_finish` after `help_finish`: the `HASSERT` and
the check-out of the parent scope. -/
def end_finish_ret (cfg : Config) (w : Nat) (s : State) (ws current_finish : Nat) : Res State :=
  match s.getFinish current_finish with
  | .fault e => .fault e
  | .ok fin =>
    if fin.counter = 0 then
      check_out_finish cfg w (s.push w (.end_finish_tail ws current_finish)) fin.parent
    else .fault .assert_end_finish

/-- Counterpart of the last two statements of `hclib_end_finish`:
`ws->current_finish = current_finish->parent; HC_FREE(current_finish)`, with
`ws` the worker record read on entry. -/
def end_finish_tail (s : State) (ws current_finish : Nat) : Res State :=
  match s.getFinish current_finish with
  | .fault e => .fault e
  | .ok fin =>
    match s.getWorker ws with
    | .fault e => .fault e
    | .ok wr =>
      let s1 := s.setWorker ws { wr with current_finish := fin.parent }
      .ok { s1 with finishes := s1.finishes.set current_finish none }

/-- One trigger of the wait-list of a promise that was just put: it is
advanced, and its task is scheduled when it became eligible. -/
def ddf_put_wake (cfg : Config) (w : Nat) (s : State) : List task_t → Res State
  | [] => .ok s
  | t :: rest =>
    match iterate_ddt_frontier (s.push w (.ddf_put_wake rest)) t with
    | .fault e => .fault e
    | .ok (s1, t1, true) => rt_schedule_async cfg w s1 t1 false
    | .ok (s1, _, false) => .ok s1

/-- Modelled from the spec: `hclib_ddf_get`, whose code is not part of the
sources.  The value of a fulfilled promise; reading a promise that is not
fulfilled is undefined. -/
def hclib_ddf_get (s : State) (p : Nat) : Res Nat :=
  match s.getDdf p with
  | .fault e => .fault e
  | .ok d =>
    match d.datum with
    | some v => .ok v
    | none => .fault .get_unfulfilled

/-- The loop of `hcpp_signal_join` over the array of shutdown flags:
`done_flags[i].flag = 0` for the first `nb_workers` entries. -/
def signal_flags : Nat → List hc_workerState → List hc_workerState
  | 0, ws => ws
  | _ + 1, [] => []
  | n + 1, wr :: ws => { wr with done_flag := 0 } :: signal_flags n ws

/-- Counterpart of `hcpp_signal_join`. -/
def hcpp_signal_join (s : State) (nb_workers : Nat) : State :=
  { s with workers := signal_flags nb_workers s.workers }

/-- Counterpart of the loops of `hcpp_global_init` over the per-worker arrays,
applied to the worker records `read_hpt` produced: `total_steals[i] = 0`,
`total_push_ind[i] = 0`, `done_flags[i].flag = 1` for every worker. -/
def hcpp_global_init (workers : List hc_workerState) : List hc_workerState :=
  workers.map (fun wr => { wr with total_steals := 0, total_push_ind := 0, done_flag := 1 })

/-- Counterpart of `hclib_start_ctx`: the stack of the OS thread becomes the
original context of the worker (it continues after `hclib_start_ctx` when it is
swapped back to) and the thread runs a new fiber that starts in
`_hclib_finalize_ctx`. -/
def hclib_start_ctx (w : Nat) (s : State) : Res State :=
  match s.getWorker w with
  | .fault e => .fault e
  | .ok wr => .ok (s.setWorker w { wr with orig_ctx := wr.stack, stack := [.hclib_finalize_ctx] })

/-- Counterpart of `hclib_finalize` up to the end of its strategy block: under
the fiber strategy `hclib_start_ctx()`, otherwise `hclib_end_finish()` followed
by `hcpp_signal_join` (frame `finalize_signal`).  The rest of the function is
the frame `finalize_tail`. -/
def hclib_finalize (cfg : Config) (w : Nat) (s : State) : Res State :=
  if cfg.litectx then hclib_start_ctx w (s.push w .finalize_tail)
  else hclib_end_finish cfg w ((s.push w .finalize_tail).push w .finalize_signal)

/-- Counterpart of `_hclib_finalize_ctx` up to `hclib_end_finish()`. -/
def _hclib_finalize_ctx (cfg : Config) (w : Nat) (s : State) : Res State :=
  hclib_end_finish cfg w (s.push w .finalize_ctx_ret)

/-- Counterpart of `_hclib_finalize_ctx` after `hclib_end_finish()`:
`hcpp_signal_join(hcpp_context->nworkers)`, then the swap to the original
context of the worker the fiber is running on. -/
def finalize_ctx_ret (w : Nat) (s : State) : Res State :=
  let s1 := hcpp_signal_join s s.workers.length
  match s1.getWorker w with
  | .fault e => .fault e
  | .ok wr => .ok (s1.setWorker w { wr with stack := wr.orig_ctx })

/-- Counterpart of `hclib_finalize` after its strategy block:
`free(root_finish)` (the root scope is the slot 0 that start-up allocated),
then `hcpp_join` and `hcpp_cleanup` (which frees nothing). -/
def finalize_tail (w : Nat) (s : State) : Res State :=
  .ok ({ s with finishes := s.finishes.set 0 none }.push w .hcpp_join)

/-- Counterpart of `hcpp_join`: `pthread_join` on every worker thread but the
first; the caller waits as long as one of them has not returned. -/
def hcpp_join (w : Nat) (s : State) : Res State :=
  if (s.workers.drop 1).all (fun wr => wr.stack.isEmpty) then .ok s
  else .ok (s.push w .hcpp_join)

/-- A fresh task for the user function `f`, as the `hclib_async` family builds
it before calling a spawn operation. -/
def new_task (f : Nat) : task_t :=
  { fp := .user f, args := 0, current_finish := none, ddf_list := none, ddt_index := 0 }

/-- One statement of a user function, run by worker `w`. -/
def exec_cmd (cfg : Config) (w : Nat) (s : State) : Cmd → Res State
  | .start_finish => hclib_start_finish w s
  | .end_finish => hclib_end_finish cfg w s
  | .async f => spawn cfg w s (new_task f)
  | .async_await f deps => spawn_await cfg w s (new_task f) (some deps)
  | .async_escaping f deps => spawn_escaping cfg w s (new_task f) (some deps)
  | .async_at pl f => spawn_at_hpt cfg w s pl (new_task f)
  | .async_comm f => spawn_commTask cfg w s (new_task f)
  | .ddf_put p v => hclib_ddf_put w s p v
  | .work n => .ok { s with log := s.log ++ [n] }
  | .ddf_create => .ok (hclib_ddf_create s).1
  | .ddf_get p =>
    match hclib_ddf_get s p with
    | .fault e => .fault e
    | .ok _ => .ok s
  | .finalize => hclib_finalize cfg w s

/-- Run the frame `fr` that was on top of the stack of worker `w`; `s` is the
state with that frame already removed. -/
def exec_frame (cfg : Config) (w : Nat) (s : State) : Frame → Res State
  | .user [] => .ok s
  | .user (c :: cs) => exec_cmd cfg w (s.push w (.user cs)) c
  | .finish_ctx_resume arg => _finish_ctx_resume w s arg
  | .execute_task_ret current_finish => check_out_finish cfg w s current_finish
  | .end_finish_ret ws current_finish => end_finish_ret cfg w s ws current_finish
  | .end_finish_tail ws current_finish => end_finish_tail s ws current_finish
  | .help_finish_ret finish dep => help_finish_ret cfg s finish dep
  | .help_finish_ctx finish prev => _help_finish_ctx cfg w s finish prev
  | .help_finish_ctx_out finish => _help_finish_ctx_out cfg w s finish
  | .crt_work_loop => crt_work_loop cfg w s
  | .crt_work_loop_cond wid => crt_work_loop_cond w s wid
  | .find_steal ws => find_steal cfg w s ws
  | .worker_routine_loop wid => worker_routine_loop cfg w s wid
  | .slave_loop ws finish => slave_loop cfg w s ws finish
  | .slave_steal ws finish => slave_steal cfg w s ws finish
  | .master_loop finish => master_loop cfg w s finish
  | .ddf_put_wake waiters => ddf_put_wake cfg w s waiters
  | .hclib_finalize_ctx => _hclib_finalize_ctx cfg w s
  | .finalize_ctx_ret => finalize_ctx_ret w s
  | .finalize_signal => .ok (hcpp_signal_join s s.workers.length)
  | .finalize_tail => finalize_tail w s
  | .hcpp_join => hcpp_join w s

/-- One step of worker `w`: its top frame is removed and run.  A worker whose
stack is empty (its thread has returned) does nothing. -/
def step (cfg : Config) (w : Nat) (s : State) : Res State :=
  match s.workers[w]? with
  | none => .ok s
  | some wr =>
    match wr.stack with
    | [] => .ok s
    | fr :: rest => exec_frame cfg w (s.setWorker w { wr with stack := rest }) fr

/-- Follow a schedule: the workers named in the list take one step each, in
that order. -/
def run (cfg : Config) : List Nat → State → Res State
  | [], s => .ok s
  | w :: sched, s => (step cfg w s).bind (run cfg sched)

/-! ## Start-up -/

/-- A worker thread other than the main thread, as `hcpp_global_init` and
`worker_routine` leave it: no current finish, an empty deque, the shutdown flag
at 1, and the thread inside its work loop (`crt_work_loop` on a fiber under the
fiber strategy, the `while` loop of `worker_routine` otherwise). -/
def idle_worker (cfg : Config) (wid : Nat) : hc_workerState :=
  { current_finish := none, deque := [],
    stack := if cfg.litectx then [.crt_work_loop] else [.worker_routine_loop wid],
    orig_ctx := [], done_flag := 1, total_push_ind := 0, total_steals := 0 }

/-- The state in which the main thread (worker 0) starts the user program
`main` after `hclib_init`: `hcpp_global_init` has set every shutdown flag to 1
and the statistics to 0, the other `nworkers - 1` threads are in their work
loops, and `hcpp_entrypoint` has allocated `root_finish` (its fields come
uninitialised from `malloc`, they are the parameter `root`), made it the
current finish and called `hclib_start_finish`. -/
def boot (cfg : Config) (nworkers : Nat) (root : finish_t) (main : List Cmd) : Res State :=
  hclib_start_finish 0
    { finishes := [some root], ddfs := [], ctxs := [],
      workers :=
        { current_finish := some 0, deque := [], stack := [.user main], orig_ctx := [],
          done_flag := 1, total_push_ind := 0, total_steals := 0 } ::
        (List.range (nworkers - 1)).map (fun i => idle_worker cfg (i + 1)),
      comm_worker_out_deque := [], total_push_outd := 0, log := [] }

/-- Run the program `main` from start-up along a schedule. -/
def boot_run (cfg : Config) (nworkers : Nat) (root : finish_t) (main : List Cmd)
    (sched : List Nat) : Res State :=
  (boot cfg nworkers root main).bind (run cfg sched)

/-! ## Concrete programs and states -/

/-- The state of a successful result. -/
def Res.get? {α : Type} : Res α → Option α
  | .ok a => some a
  | .fault _ => none

/-- A build with the fiber strategy (`HCLIB_LITECTX_STRATEGY` set), no
communication worker, no statistics, deques of capacity 8; user function 0
does `work 1`, user function 1 does `work 2`. -/
def fiber_cfg : Config :=
  { litectx := true, comm_worker := false, stats := false, cap := 8,
    prog := [[.work 1], [.work 2]] }

/-- The same build with the default strategy. -/
def default_cfg : Config := { fiber_cfg with litectx := false }

/-- The memory `malloc` hands out for `root_finish`, taken to be zeroed. -/
def root_zeroed : finish_t := { counter := 0, parent := none, finish_deps := none }

/-- Main program: one task `g` on the top scope, then a finish scope around one
task `f`, then a visible effect after `end_finish`. -/
def scoped_async_main : List Cmd := [.async 1, .start_finish, .async 0, .end_finish, .work 99]

/-- Main program: a finish scope around one task. -/
def finish_one_async_main : List Cmd := [.start_finish, .async 0, .end_finish]

/-- Main program: an empty finish scope. -/
def empty_finish_main : List Cmd := [.start_finish, .end_finish]

/-- Main program: a finish scope is opened and two tasks are spawned in it. -/
def two_asyncs_main : List Cmd := [.start_finish, .async 0, .async 0]

/-- Two workers; worker 1 steals the task and is running it when worker 0, in
helper mode, checks the scope out; worker 1 retires the task before worker 0
resumes the continuation of `end_finish`. -/
def steal_then_retire_early : List Nat := [0, 0, 1, 1, 0, 0, 0, 1, 1, 1, 0, 0, 0, 0, 0]

/-- Two workers; as before, but worker 1 retires the task between the
`assert` of `help_finish` and the `HASSERT` of `hclib_end_finish`. -/
def steal_then_retire_late : List Nat := [0, 0, 1, 1, 0, 0, 0, 1, 1, 0, 0, 0, 0, 0, 1, 0]

/-- A state with one worker whose current scope is scope 1 (counter 3, child of
scope 0), one empty promise, and the task function 0 about to be spawned. -/
def demo_state : State :=
  { finishes := [some { counter := 1, parent := none, finish_deps := none },
                 some { counter := 3, parent := some 0, finish_deps := none }],
    ddfs := [some { datum := none, waiters := [] }],
    ctxs := [],
    workers := [{ current_finish := some 1, deque := [], stack := [], orig_ctx := [],
                  done_flag := 1, total_push_ind := 0, total_steals := 0 }],
    comm_worker_out_deque := [], total_push_outd := 0, log := [] }

/-- The worker of `demo_state`. -/
def demo_worker : hc_workerState :=
  { current_finish := some 1, deque := [], stack := [], orig_ctx := [],
    done_flag := 1, total_push_ind := 0, total_steals := 0 }

/-- A build whose user function 0 spawns function 1 and then works. -/
def nested_cfg : Config :=
  { litectx := true, comm_worker := false, stats := false, cap := 8,
    prog := [[.async 1, .work 1], [.work 2]] }

/-- A task for user function 0 bound to scope 0. -/
def demo_task : task_t :=
  { fp := .user 0, args := 0, current_finish := some 0, ddf_list := none, ddt_index := 0 }

/-! ## Start-up from the environment -/

/-- What `getenv` answers for the three variables `hclib_init` reads (`none`:
the variable is unset; the value is a handle of the string). -/
structure Environ where
  HCPP_STATS : Option Nat
  HCPP_BIND_THREADS : Option Nat
  HCPP_HPT_FILE : Option Nat
deriving DecidableEq, Repr

/-- The two file-scope variables `hclib_init` asserts on and then sets. -/
structure Statics where
  hcpp_stats : Option Nat
  bind_threads : Int
deriving DecidableEq, Repr

/-- The initialisers of the statics in the source: `hcpp_stats = NULL`,
`bind_threads = -1`. -/
def Statics.initial : Statics := { hcpp_stats := none, bind_threads := -1 }

/-- A line written to standard error. -/
inductive Diagnostic where
  /-- "ERROR: HCPP_HPT_FILE must be provided. ..." -/
  | hpt_file_must_be_provided
deriving DecidableEq, Repr

/-- How a call of `hclib_init` ends. -/
inductive InitOutcome where
  /-- one of the two `assert`s at the top of the function failed -/
  | assert_failed
  /-- `exit(status)` after the lines `err` went to standard error; nothing of
  the runtime exists -/
  | exit (status : Nat) (err : List Diagnostic)
  /-- `hcpp_entrypoint()` was run: the statics as set, whether the statistics
  header was shown, and the runtime state it built -/
  | entered (g : Statics) (stats_header : Bool) (runtime : Res State)
deriving DecidableEq, Repr

/-- Counterpart of `hcpp_entrypoint`: the context is allocated, the workers
are initialised and their threads created, the root scope is allocated and a
first scope opened under it; `boot` is that state, with the main thread about
to go on with `main`. -/
def hcpp_entrypoint (cfg : Config) (nworkers : Nat) (root : finish_t) (main : List Cmd) :
    Res State :=
  boot cfg nworkers root main

/-- Counterpart of `hclib_init`. -/
def hclib_init (cfg : Config) (nworkers : Nat) (root : finish_t) (main : List Cmd)
    (env : Environ) (g : Statics) : InitOutcome :=
  if g.hcpp_stats ≠ none then .assert_failed
  else if g.bind_threads ≠ -1 then .assert_failed
  else
    let g1 : Statics :=
      { hcpp_stats := env.HCPP_STATS,
        bind_threads := if env.HCPP_BIND_THREADS.isSome then 1 else 0 }
    match env.HCPP_HPT_FILE with
    | none => .exit 1 [.hpt_file_must_be_provided]
    | some _ => .entered g1 g1.hcpp_stats.isSome (hcpp_entrypoint cfg nworkers root main)

/-- An environment with only `HCPP_HPT_FILE` set. -/
def env_with_hpt : Environ :=
  { HCPP_STATS := none, HCPP_BIND_THREADS := none, HCPP_HPT_FILE := some 7 }

/-- An environment with nothing set. -/
def env_empty : Environ :=
  { HCPP_STATS := none, HCPP_BIND_THREADS := none, HCPP_HPT_FILE := none }

/-! ## More concrete programs -/

/-- The fiber build with deques of capacity 1. -/
def tiny_deque_cfg : Config :=
  { litectx := true, comm_worker := false, stats := false, cap := 1,
    prog := [[.work 1], [.work 2]] }

/-- Main program: a first task fills the deque (capacity 1), then a scope is
opened and a task spawned in it, then a visible effect. -/
def spawn_on_full_deque_main : List Cmd := [.async 1, .start_finish, .async 0, .work 99]

/-- Main program: one task `g` on the top scope and one task `f` inside a
finish scope, both pushed to the deque of place 2, then a visible effect after
`end_finish`. -/
def finish_at_place_main : List Cmd :=
  [.async_at 2 1, .start_finish, .async_at 2 0, .end_finish, .work 99]

/-- Three workers: worker 0 runs the main program up to helper mode and its
resume task lands on its own deque; worker 1 steals the resume task and
continues `end_finish`; worker 2 never runs. -/
def resume_on_thief : List Nat := [0, 0, 0, 0, 0, 0, 0, 0, 1, 1, 1, 1, 1, 1]

/-- The build for the fib test with `n = 2`: user function 0 is the task
`fib(1, f1)` (it puts 1 into promise 1), user function 1 is the awaiting task
(it reads promises 1 and 2 and puts their sum, 1, into promise 0). -/
def fib2_cfg : Config :=
  { litectx := true, comm_worker := false, stats := false, cap := 8,
    prog := [[.ddf_put 1 1], [.ddf_get 1, .ddf_get 2, .ddf_put 0 1]] }

/-- The main program of the fib test for `n = 2`, after `init`: the result
promise (handle 0) is created, `start_finish`, then `fib(2, ddf)` unfolded
(`f1` is handle 1, `fib(1, f1)` is spawned, `f2` is handle 2, `fib(0, f2)` runs
in place and puts 0, the awaiting task on `f1, f2` is spawned), `end_finish`,
and the `ddf_get` on the result. -/
def fib2_main : List Cmd :=
  [.ddf_create, .start_finish, .ddf_create, .async 0, .ddf_create, .ddf_put 2 0,
   .async_await 1 [1, 2], .end_finish, .ddf_get 0]

/-- The largest C `int`. -/
def INT_MAX : Int := 2147483647

/-- The smallest C `int`. -/
def INT_MIN : Int := -2147483648

/-- Addition of two C `int`s: a sum outside the range of `int` is a signed
overflow, which is undefined behaviour. -/
def int_add (a b : Int) : Res Int :=
  if INT_MIN ≤ a + b ∧ a + b ≤ INT_MAX then .ok (a + b) else .fault .undefined

/-- The loop shared by `gather_commWorker_Stats` and `runtime_statistics`:
`for (i = 0; i < numWorkers(); i++) { asyncPush += total_push_ind[i];
steals += total_steals[i]; }`, on `int` accumulators. -/
def stats_loop : List hc_workerState → Int → Int → Res (Int × Int)
  | [], asyncPush, steals => .ok (asyncPush, steals)
  | wr :: ws, asyncPush, steals =>
    match int_add asyncPush wr.total_push_ind with
    | .fault e => .fault e
    | .ok a =>
      match int_add steals wr.total_steals with
      | .fault e => .fault e
      | .ok b => stats_loop ws a b

/-- Counterpart of `gather_commWorker_Stats`: the triple
`(*push_outd, *push_ind, *steal_ind)` it stores. -/
def gather_commWorker_Stats (s : State) : Res (Int × Int × Int) :=
  match stats_loop s.workers 0 0 with
  | .fault e => .fault e
  | .ok (asyncPush, steals) => .ok (s.total_push_outd, asyncPush, steals)

/-- Counterpart of `runtime_statistics`: the three totals of its data line,
`(asyncCommPush, asyncPush, steals)`, computed by its own copy of the loop. -/
def runtime_statistics (s : State) : Res (Int × Int × Int) :=
  match stats_loop s.workers 0 0 with
  | .fault e => .fault e
  | .ok (asyncPush, steals) => .ok (s.total_push_outd, asyncPush, steals)

/-- Two workers that have each pushed `2^30` tasks, one communication push. -/
def busy_stats_state : State :=
  { finishes := [], ddfs := [], ctxs := [],
    workers := [{ current_finish := none, deque := [], stack := [], orig_ctx := [],
                  done_flag := 0, total_push_ind := 1073741824, total_steals := 5 },
                { current_finish := none, deque := [], stack := [], orig_ctx := [],
                  done_flag := 0, total_push_ind := 1073741824, total_steals := 7 }],
    comm_worker_out_deque := [], total_push_outd := 1, log := [] }

/-- Two workers with 3 and 4 pushes, 5 and 7 steals, one communication push. -/
def small_stats_state : State :=
  { finishes := [], ddfs := [], ctxs := [],
    workers := [{ current_finish := none, deque := [], stack := [], orig_ctx := [],
                  done_flag := 0, total_push_ind := 3, total_steals := 5 },
                { current_finish := none, deque := [], stack := [], orig_ctx := [],
                  done_flag := 0, total_push_ind := 4, total_steals := 7 }],
    comm_worker_out_deque := [], total_push_outd := 1, log := [] }

/-! ## Shutdown flags -/

/-- The array of shutdown flags, `done_flags[i].flag` for every worker. -/
def flags (s : State) : List Nat := s.workers.map (fun wr => wr.done_flag)

/-- The operation with result `r`, started in state `s`, writes no shutdown
flag: when it returns, the array of flags is the one of `s`. -/
def Keeps (r : Res State) (s : State) : Prop := ∀ s', r = .ok s' → flags s' = flags s

/-- A frame of `hclib_finalize` whose code calls `hcpp_signal_join`. -/
def Frame.signals : Frame → Bool
  | .finalize_ctx_ret => true
  | .finalize_signal => true
  | _ => false

/-- The flags of `s1` are those of `s`, or every one of them is 0. -/
def Lowers (s1 s : State) : Prop :=
  flags s1 = flags s ∨ flags s1 = List.replicate (flags s).length 0

/-- The state of the default build right after `hcpp_signal_join` in
`hclib_finalize`: the root scope is closed, both flags are 0, worker 1 is still
in the loop of `worker_routine`. -/
def signalled_state : State :=
  { finishes := [some { counter := 0, parent := none, finish_deps := none }, none],
    ddfs := [], ctxs := [],
    workers :=
      [{ current_finish := some 0, deque := [], stack := [.finalize_tail, .user []],
         orig_ctx := [], done_flag := 0, total_push_ind := 0, total_steals := 0 },
       { current_finish := none, deque := [], stack := [.worker_routine_loop 1],
         orig_ctx := [], done_flag := 0, total_push_ind := 0, total_steals := 0 }],
    comm_worker_out_deque := [], total_push_outd := 0, log := [] }

/-- The state two steps after `signalled_state`: worker 1 has left its loop and
the main thread is in `hcpp_join`. -/
def joined_state : State :=
  { finishes := [none, none],
    ddfs := [], ctxs := [],
    workers :=
      [{ current_finish := some 0, deque := [], stack := [.hcpp_join, .user []],
         orig_ctx := [], done_flag := 0, total_push_ind := 0, total_steals := 0 },
       { current_finish := none, deque := [], stack := [],
         orig_ctx := [], done_flag := 0, total_push_ind := 0, total_steals := 0 }],
    comm_worker_out_deque := [], total_push_outd := 0, log := [] }

/-! ## Shutdown after the root scope -/

/-- A frame that makes no call of `hclib_finalize`: neither the entry of
`_hclib_finalize_ctx` nor a user function with `finalize` among its
statements. -/
def Frame.calm : Frame → Bool
  | .user cs => decide (Cmd.finalize ∉ cs)
  | .hclib_finalize_ctx => false
  | _ => true

/-- A frame inside `hclib_end_finish` closing the scope `f`. -/
def Frame.closes (f : Nat) : Frame → Bool
  | .end_finish_ret _ g => decide (g = f)
  | .end_finish_tail _ g => decide (g = f)
  | _ => false

/-- On the control stack `st` every frame is calm and every frame that calls
`hcpp_signal_join` lies below a frame of `hclib_end_finish` on `f` (`g` tells
whether such a frame was already seen above). -/
def guarded (f : Nat) : Bool → List Frame → Bool
  | _, [] => true
  | g, fr :: rest => fr.calm && (!fr.signals || g) && guarded f (g || fr.closes f) rest

/-- Every control stack of the state (those the workers run, the original
contexts of their threads, the suspended fibers) is guarded. -/
def AllGuarded (f : Nat) (s : State) : Prop :=
  (∀ wr ∈ s.workers, guarded f false wr.stack = true ∧ guarded f false wr.orig_ctx = true) ∧
  (∀ k, some k ∈ s.ctxs → guarded f false k = true)

/-- The result of an operation, when there is one, has every stack guarded. -/
def Safe (f : Nat) (r : Res State) : Prop := ∀ s1, r = .ok s1 → AllGuarded f s1

/-- No frame of the stack calls `hclib_finalize` or `hcpp_signal_join`. -/
def quiet_stack (st : List Frame) : Bool := st.all (fun fr => fr.calm && !fr.signals)

/-- No shutdown is under way anywhere in the state. -/
def quiet (s : State) : Bool :=
  s.workers.all (fun wr => quiet_stack wr.stack && quiet_stack wr.orig_ctx) &&
    s.ctxs.all (fun k => match k with
      | some st => quiet_stack st
      | none => true)

/-- No user function of the program table calls `hclib_finalize`. -/
def Config.calm (cfg : Config) : Prop := ∀ p ∈ cfg.prog, Cmd.finalize ∉ p
/-- The default build at the call of `hclib_finalize` right after start-up
(root scope 0 as `malloc` zeroed it, scope 1 opened by `hcpp_entrypoint`):
the main thread is inside `hclib_launch` with nothing left to run. -/
def finalize_entry_default : State :=
  { finishes := [some { counter := 1, parent := none, finish_deps := none },
                 some { counter := 0, parent := some 0, finish_deps := none }],
    ddfs := [], ctxs := [],
    workers :=
      [{ current_finish := some 1, deque := [], stack := [.user []],
         orig_ctx := [], done_flag := 1, total_push_ind := 0, total_steals := 0 },
       { current_finish := none, deque := [], stack := [.worker_routine_loop 1],
         orig_ctx := [], done_flag := 1, total_push_ind := 0, total_steals := 0 }],
    comm_worker_out_deque := [], total_push_outd := 0, log := [] }

/-- The state `hclib_finalize` leaves from `finalize_entry_default` when it has
entered `hclib_end_finish`. -/
def finalize_called_default : State :=
  { finalize_entry_default with
    workers :=
      [{ current_finish := some 1, deque := [],
         stack := [.end_finish_ret 0 1, .finalize_signal, .finalize_tail, .user []],
         orig_ctx := [], done_flag := 1, total_push_ind := 0, total_steals := 0 },
       { current_finish := none, deque := [], stack := [.worker_routine_loop 1],
         orig_ctx := [], done_flag := 1, total_push_ind := 0, total_steals := 0 }] }

/-- The fiber build at the entry of `_hclib_finalize_ctx` right after start-up
(the root scope came from `malloc` with counter 1): the thread of the main
program waits in `hclib_start_ctx`, the new fiber has an empty stack. -/
def finalize_entry_fiber : State :=
  { finishes := [some { counter := 2, parent := none, finish_deps := none },
                 some { counter := 0, parent := some 0, finish_deps := none }],
    ddfs := [], ctxs := [],
    workers :=
      [{ current_finish := some 1, deque := [], stack := [],
         orig_ctx := [.finalize_tail, .user []], done_flag := 1, total_push_ind := 0,
         total_steals := 0 },
       { current_finish := none, deque := [], stack := [.crt_work_loop],
         orig_ctx := [], done_flag := 1, total_push_ind := 0, total_steals := 0 }],
    comm_worker_out_deque := [], total_push_outd := 0, log := [] }

/-- The state `_hclib_finalize_ctx` leaves from `finalize_entry_fiber` when it
has entered `hclib_end_finish`. -/
def finalize_called_fiber : State :=
  { finalize_entry_fiber with
    workers :=
      [{ current_finish := some 1, deque := [],
         stack := [.end_finish_ret 0 1, .finalize_ctx_ret],
         orig_ctx := [.finalize_tail, .user []], done_flag := 1, total_push_ind := 0,
         total_steals := 0 },
       { current_finish := none, deque := [], stack := [.crt_work_loop],
         orig_ctx := [], done_flag := 1, total_push_ind := 0, total_steals := 0 }] }

/-- The state three steps of the main thread after `finalize_called_fiber`:
scope 1 is freed, `hcpp_signal_join` has run and the thread is back on its
original context. -/
def finalize_signalled_fiber : State :=
  { finishes := [some { counter := 1, parent := none, finish_deps := none }, none],
    ddfs := [], ctxs := [],
    workers :=
      [{ current_finish := some 0, deque := [], stack := [.finalize_tail, .user []],
         orig_ctx := [.finalize_tail, .user []], done_flag := 0, total_push_ind := 0,
         total_steals := 0 },
       { current_finish := none, deque := [], stack := [.crt_work_loop],
         orig_ctx := [], done_flag := 0, total_push_ind := 0, total_steals := 0 }],
    comm_worker_out_deque := [], total_push_outd := 0, log := [] }

/-! ## The UTS benchmark (`uts_hclib.cpp`) -/

namespace Uts

/-- Modelled from the spec: the state of the random number generator of a
node, which `uts_numChildren` and `rng_spawn` read; their code is not part of
the sources.  The state of a node determines the number of its children and
the state of each child, so it is represented by what it generates: the forest
of the subtrees below the node (`cons kids rest`: a first child whose own state
is `kids`, followed by the other children `rest`). -/
inductive Forest where
  | nil
  | cons (kids : Forest) (rest : Forest)
deriving DecidableEq, Repr

/-- The number of trees of the forest. -/
def Forest.length : Forest → Nat
  | .nil => 0
  | .cons _ rest => rest.length + 1

/-- The state of the tree at position `i` of the forest. -/
def Forest.get : Forest → Nat → Forest
  | .nil, _ => .nil
  | .cons kids _, 0 => kids
  | .cons _ rest, i + 1 => rest.get i

/-- The forest without its first `i` trees. -/
def Forest.drop : Forest → Nat → Forest
  | f, 0 => f
  | .nil, _ + 1 => .nil
  | .cons _ rest, i + 1 => rest.drop i

/-- A tree node (`Node`): generator state, height, and the recorded number of
children (`-1`: not yet determined).  The field `type` only feeds
`uts_numChildren`; it is part of `state` here. -/
structure Node where
  state : Forest
  height : Int
  numChildren : Int
deriving DecidableEq, Repr

/-- Modelled from the spec: `uts_numChildren`, whose code is not part of the
sources: the number of children the state of the node generates. -/
def uts_numChildren (parent : Node) : Int := parent.state.length

/-- Modelled from the spec: `rng_spawn(parent_state, child_state, i)`, whose
code is not part of the sources: the state of child `i`. -/
def rng_spawn (parent_state : Forest) (i : Nat) : Forest := parent_state.get i

/-- Counterpart of `initNode`: height and child count are set to `-1`; the
state is not written. -/
def initNode (child : Node) : Node := { child with height := -1, numChildren := -1 }

/-- What the benchmark takes from outside the listed code: the global
`computeGranularity` and the content of a local `Node` before `initNode`. -/
structure Params where
  computeGranularity : Nat
  uninit : Node
deriving DecidableEq, Repr

/-- A return point of a thread inside the benchmark code. -/
inductive UFrame where
  /-- entry of `pragma521_omp_task_hclib_async(ctx)` with `ctx->parent` -/
  | task (parent : Node)
  /-- entry of `genChildren(parent, child)` -/
  | genChildren (parent : Node) (child : Node)
  /-- `genChildren`, the `else` branch: `n_leaves` is about to be incremented -/
  | count_leaf
  /-- `genChildren`, the test of the `for` loop with the locals live there -/
  | loop (parent : Node) (child : Node) (numChildren : Int) (i : Nat)
deriving DecidableEq, Repr

/-- The shared state of the benchmark: the two global counters, the tasks
handed to `hclib_async` that no worker has started yet (each is its `ctx`),
and the control stack of every worker thread. -/
structure UtsState where
  n_nodes : Nat
  n_leaves : Nat
  pool : List Node
  threads : List (List UFrame)
deriving DecidableEq, Repr

/-- Replace the control stack of worker `w`. -/
def UtsState.setStack (st : UtsState) (w : Nat) (stack : List UFrame) : UtsState :=
  { st with threads := st.threads.set w stack }

/-- Run the frame `fr` of worker `w`; `rest` is its stack below the frame.
Each case performs at most one access to shared memory (an atomic increment
or the spawn of a task).

* `task`: the body of `pragma521_omp_task_hclib_async`.
* `genChildren`: `__sync_fetch_and_add(&n_nodes, 1)`, the child count is read
  and recorded in `parent`; with children the loop is entered with
  `child->height = parentHeight + 1`, otherwise the leaf is counted next.
* `loop`: one iteration of the `for` loop: `rng_spawn` is called
  `computeGranularity` times, `ctx->parent` is the copy of `*child`, and the
  task body is called in place when `!(parent.height < 9)`, else handed to
  `hclib_async`. -/
def exec (P : Params) (st : UtsState) (w : Nat) (rest : List UFrame) : UFrame → UtsState
  | .task parent =>
    let child := initNode P.uninit
    if parent.numChildren < 0 then st.setStack w (.genChildren parent child :: rest)
    else st.setStack w rest
  | .genChildren parent child =>
    let parentHeight := parent.height
    let st1 := { st with n_nodes := st.n_nodes + 1 }
    let numChildren := uts_numChildren parent
    let parent1 := { parent with numChildren := numChildren }
    if numChildren > 0 then
      let child1 := { child with height := parentHeight + 1 }
      st1.setStack w (.loop parent1 child1 numChildren 0 :: rest)
    else st1.setStack w (.count_leaf :: rest)
  | .count_leaf => { st with n_leaves := st.n_leaves + 1 }.setStack w rest
  | .loop parent child numChildren i =>
    if (i : Int) < numChildren then
      let child1 :=
        if 0 < P.computeGranularity then { child with state := rng_spawn parent.state i }
        else child
      let ctx_parent := child1
      let next := UFrame.loop parent child1 numChildren (i + 1)
      if ¬ (ctx_parent.height < 9) then st.setStack w (.task ctx_parent :: next :: rest)
      else { st with pool := st.pool ++ [ctx_parent] }.setStack w (next :: rest)
    else st.setStack w rest

/-- Modelled from the spec: the scheduling of the tasks given to
`hclib_async(fn, ctx, NO_FUTURE, ANY_PLACE)`, an interface that
`hcpp-runtime.c` does not define.  A worker that runs nothing takes any
not yet started task (`c` is the position taken) and runs its body; a worker
inside a body runs its top frame. -/
def step (P : Params) (st : UtsState) (w c : Nat) : UtsState :=
  match st.threads[w]? with
  | none => st
  | some [] =>
    match st.pool[c]? with
    | none => st
    | some ctx => { st with pool := st.pool.eraseIdx c }.setStack w [.task ctx]
  | some (fr :: rest) => exec P st w rest fr

/-- Follow a schedule: a list of (worker, position of the task it would take). -/
def run (P : Params) : List (Nat × Nat) → UtsState → UtsState
  | [], st => st
  | (w, c) :: sched, st => run P sched (step P st w c)

/-- The locals of a frame are as the code leaves them: a task node and a
`child` have an undetermined child count, the loop bound is the child count of
`parent`. -/
def UFrame.wf : UFrame → Prop
  | .task parent => parent.numChildren < 0
  | .genChildren _ child => child.numChildren < 0
  | .count_leaf => True
  | .loop parent child numChildren _ =>
    numChildren = parent.state.length ∧ child.numChildren < 0

/-- An upper bound on the steps a forest still takes as the rest of a loop. -/
def Forest.work : Forest → Nat
  | .nil => 1
  | .cons kids rest => 5 + kids.work + rest.work

/-- An upper bound on the steps a frame still takes. -/
def UFrame.work : UFrame → Nat
  | .task parent => 3 + parent.state.work
  | .genChildren parent _ => 2 + parent.state.work
  | .count_leaf => 1
  | .loop parent _ _ i => (parent.state.drop i).work

/-- An upper bound on the steps still to take in a state. -/
def work (st : UtsState) : Nat :=
  (st.pool.map (fun p => 4 + p.state.work)).sum +
    (st.threads.map (fun s => (s.map UFrame.work).sum)).sum

/-- The state after an effect of worker `w` whose stack below the frame is
`rest`. -/
def UtsState.apply (st : UtsState) (w : Nat) (rest : List UFrame)
    (e : Nat × Nat × List Node × List UFrame) : UtsState :=
  { n_nodes := st.n_nodes + e.1, n_leaves := st.n_leaves + e.2.1, pool := st.pool ++ e.2.2.1,
    threads := st.threads.set w (e.2.2.2 ++ rest) }

end Uts

/-! ## The fib test (`fib-ddt.cpp`) -/

namespace Fib

/-- A task of the fib test that was spawned and has not run yet: the body
`fib(n, res)` given to `hcpp::async`, or the body given to
`hcpp::asyncAwait(f1, f2, ...)`, which puts the sum of `f1` and `f2` into
`res`. -/
inductive FibTask where
  | fib (n : Int) (res : Nat)
  | sum (f1 : Nat) (f2 : Nat) (res : Nat)
deriving DecidableEq, Repr

/-- The promise a task puts. -/
def FibTask.res : FibTask → Nat
  | .fib _ res => res
  | .sum _ _ res => res

/-- The state of the test: the promises in the order of their creation (the
`int` a fulfilled promise points to, `none` while it is not put) and the
spawned tasks that have not run yet. -/
structure FibState where
  ddfs : List (Option Int)
  pool : List FibTask
deriving DecidableEq, Repr

/-- Modelled from the spec: `hcpp::ddf_create`, a wrapper that is not part of
the sources: a new promise, not fulfilled; the result is its handle. -/
def ddf_create (st : FibState) : FibState × Nat :=
  ({ st with ddfs := st.ddfs ++ [none] }, st.ddfs.length)

/-- Modelled from the spec: `hcpp::ddf_put`, a wrapper that is not part of the
sources: the promise becomes fulfilled; a promise is put at most once, a second
put is fatal. -/
def ddf_put (st : FibState) (p : Nat) (v : Int) : Res FibState :=
  match st.ddfs[p]? with
  | some none => .ok { st with ddfs := st.ddfs.set p (some v) }
  | some (some _) => .fault .double_put
  | none => .fault .undefined

/-- Modelled from the spec: `hcpp::ddf_get`, a wrapper that is not part of the
sources: the value of a fulfilled promise. -/
def ddf_get (st : FibState) (p : Nat) : Res Int :=
  match st.ddfs[p]? with
  | some (some v) => .ok v
  | some none => .fault .get_unfulfilled
  | none => .fault .undefined

/-- Modelled from the spec: `hcpp::async`, a wrapper that is not part of the
sources: the task is spawned; it runs later, once. -/
def async (st : FibState) (t : FibTask) : FibState := { st with pool := st.pool ++ [t] }

/-- Modelled from the spec: `hcpp::asyncAwait`, a wrapper that is not part of
the sources: the task is spawned; it runs later, once, and not before the
promises it awaits are fulfilled (see `ready`). -/
def asyncAwait (st : FibState) (t : FibTask) : FibState := { st with pool := st.pool ++ [t] }

/-- The function `fib(n, res)` for `n = k ≥ 0`; the serial call `fib(n - 2, f2)`
is the recursion. -/
def fib_from : Nat → Nat → FibState → Res FibState
  | 0, res, st => ddf_put st res 0
  | 1, res, st => ddf_put st res 1
  | k + 2, res, st =>
    let (st1, f1) := ddf_create st
    let st2 := async st1 (.fib ((k + 2 : Nat) - 1) f1)
    let (st3, f2) := ddf_create st2
    match fib_from k f2 st3 with
    | .fault e => .fault e
    | .ok st4 => .ok (asyncAwait st4 (.sum f1 f2 res))

/-- Counterpart of `fib(n, res)`: a negative `n` takes the branch `n <= 0`. -/
def fib (n : Int) (res : Nat) (st : FibState) : Res FibState :=
  match n with
  | .ofNat k => fib_from k res st
  | .negSucc _ => ddf_put st res 0

/-- The body of a spawned task.  The awaiting task computes
`*r = *ddf_get(f1) + *ddf_get(f2)` on `int`s and puts it. -/
def run_task (st : FibState) : FibTask → Res FibState
  | .fib n res => fib n res st
  | .sum f1 f2 res =>
    match ddf_get st f1 with
    | .fault e => .fault e
    | .ok a =>
      match ddf_get st f2 with
      | .fault e => .fault e
      | .ok b =>
        match int_add a b with
        | .fault e => .fault e
        | .ok r => ddf_put st res r

/-- A task can run: an awaiting task only when both its promises are put. -/
def ready (st : FibState) : FibTask → Bool
  | .fib _ _ => true
  | .sum f1 f2 _ =>
    (match st.ddfs[f1]? with
      | some (some _) => true
      | _ => false) &&
    (match st.ddfs[f2]? with
      | some (some _) => true
      | _ => false)

/-- A worker takes the spawned task at position `i` and runs it.  A position
that holds no task, or a task that is not ready (the runtime keeps it on the
wait-list of a promise, no worker can take it), leaves the state as it is. -/
def step (st : FibState) (i : Nat) : Res FibState :=
  match st.pool[i]? with
  | none => .ok st
  | some t => if ready st t then run_task { st with pool := st.pool.eraseIdx i } t else .ok st

/-- Follow a schedule: the positions of the tasks the workers take, in the
order in which the tasks run. -/
def run : List Nat → FibState → Res FibState
  | [], st => .ok st
  | i :: sched, st => (step st i).bind (run sched)

/-- Counterpart of `main` between `init` and `end_finish`: the result promise
is created (handle 0), `fib(n, ddf)` runs on the main thread, then the spawned
tasks run along the schedule. -/
def fib_test (n : Int) (sched : List Nat) : Res FibState :=
  (fib n 0 (ddf_create { ddfs := [], pool := [] }).1).bind (run sched)

/-- The promise a task puts is `p` (1) or not (0). -/
def puts (p : Nat) (t : FibTask) : Nat := if t.res = p then 1 else 0

/-- The value each promise is due, the bound on the argument of a spawned
`fib`, and the order of the handles of an awaiting task. -/
def FibTask.wf (E : Nat → Int) (len : Nat) : FibTask → Prop
  | .fib n res => E res = (Nat.fib n.toNat : Int) ∧ n ≤ 47
  | .sum f1 f2 res => res < f1 ∧ res < f2 ∧ f1 < len ∧ f2 < len ∧ E res = E f1 + E f2

/-- The invariant of the test.  `E p` is the value promise `p` is due, `O` the
promises the code that is running has still to put or to spawn a task for.
Fulfilled promises hold their due value, an `int`; a promise that is not
fulfilled has exactly one task or running call that will put it, a fulfilled
one none; the tasks are well formed; every promise but the result promise is
due an `int`. -/
def Inv (st : FibState) (E : Nat → Int) (O : List Nat) : Prop :=
  (∀ p v, st.ddfs[p]? = some (some v) → v = E p ∧ INT_MIN ≤ v ∧ v ≤ INT_MAX) ∧
  (∀ p, (st.pool.map (puts p)).sum + O.count p = if st.ddfs[p]? = some none then 1 else 0) ∧
  (∀ t ∈ st.pool, t.wf E st.ddfs.length) ∧
  (∀ p, 1 ≤ p → p < st.ddfs.length → INT_MIN ≤ E p ∧ E p ≤ INT_MAX)

/-- The number of tasks a call `fib(k, res)` spawns, directly or through the
tasks it spawns. -/
def spawned : Nat → Nat
  | 0 => 0
  | 1 => 0
  | k + 2 => (1 + spawned (k + 1)) + spawned k + 1

/-- The number of task executions a spawned task stands for. -/
def FibTask.size : FibTask → Nat
  | .fib n _ => 1 + spawned n.toNat
  | .sum _ _ _ => 1

/-- The number of task executions still to come. -/
def todo (st : FibState) : Nat := (st.pool.map FibTask.size).sum

/-- A schedule for `fib(3, ddf)`: the task `fib(2, f1)`, then the two tasks it
spawned, then the awaiting task of the main call. -/
def fib3_sched : List Nat := [0, 1, 1, 0]

end Fib

/-- The default build with deques of capacity 1.  User function 0 spawns an
escaping task and then a plain `async`; user function 1 only works. -/
def inline_escaping_cfg : Config :=
  { litectx := false, comm_worker := false, stats := false, cap := 1,
    prog := [[Cmd.async_escaping 1 [], Cmd.async 1, Cmd.work 7], [Cmd.work 2]] }

/-- Main program: a first task fills the deque (capacity 1), so that the task
for user function 0 spawned next is executed in place. -/
def inline_escaping_main : List Cmd := [Cmd.async 1, Cmd.async 0, Cmd.work 99]

/-- Two workers: worker 0 runs the main program into the body of user function
0, whose escaping spawn finds the deque full and runs in place; worker 1 steals
the queued task and retires it; worker 0 goes on with the `async` of the body,
the rest of the body and the check-out. -/
def inline_escaping_sched : List Nat := [0, 0, 0, 0, 0, 0, 1, 1, 1, 1, 1, 0, 0, 0, 0]

/-! ## Lemmas on the memory and on scheduling -/

theorem getElem?_lt {α : Type} {l : List α} {i : Nat} {a : α} (h : l[i]? = some a) :
    i < l.length := by
  rcases List.getElem?_eq_some.1 h with ⟨h, _⟩
  exact h

theorem getFinish_of_live {s : State} {f : Nat} {fin : finish_t}
    (h : s.finishes[f]? = some (some fin)) : s.getFinish f = .ok fin := by
  simp [State.getFinish, h]

theorem getWorker_of_some {s : State} {w : Nat} {wr : hc_workerState}
    (h : s.workers[w]? = some wr) : s.getWorker w = .ok wr := by
  simp [State.getWorker, h]

theorem getDdf_of_live {s : State} {p : Nat} {d : ddf_t}
    (h : s.ddfs[p]? = some (some d)) : s.getDdf p = .ok d := by
  simp [State.getDdf, h]

theorem counter_of_live {s : State} {f : Nat} {fin : finish_t}
    (h : s.finishes[f]? = some (some fin)) : s.counter f = some fin.counter := by
  simp [State.counter, h]

theorem counter_setFinish_same {s : State} {f : Nat} {fin : finish_t} (x : finish_t)
    (h : s.finishes[f]? = some (some fin)) : (s.setFinish f x).counter f = some x.counter := by
  simp [State.counter, State.setFinish, getElem?_lt h]

theorem counter_setFinish_other (s : State) {f g : Nat} (x : finish_t) (h : g ≠ f) :
    (s.setFinish f x).counter g = s.counter g := by
  simp only [State.counter, State.setFinish]
  rw [List.getElem?_set_ne (fun e => h e.symm)]

theorem check_in_finish_live {s : State} {f : Nat} {fin : finish_t}
    (h : s.finishes[f]? = some (some fin)) :
    check_in_finish s (some f) = .ok (s.setFinish f { fin with counter := fin.counter + 1 }) := by
  simp [check_in_finish, getFinish_of_live h, hc_atomic_inc]

theorem current_finish_of_some {s : State} {w : Nat} {wr : hc_workerState}
    (h : s.workers[w]? = some wr) : s.current_finish w = wr.current_finish := by
  simp [State.current_finish, h]

theorem deque_of_some {s : State} {w : Nat} {wr : hc_workerState}
    (h : s.workers[w]? = some wr) : s.deque w = wr.deque := by
  simp [State.deque, h]

theorem stack_of_some {s : State} {w : Nat} {wr : hc_workerState}
    (h : s.workers[w]? = some wr) : s.stack w = wr.stack := by
  simp [State.stack, h]

theorem workers_setWorker_same {s : State} {w : Nat} {wr : hc_workerState} (x : hc_workerState)
    (h : s.workers[w]? = some wr) : (s.setWorker w x).workers[w]? = some x := by
  simp [State.setWorker, getElem?_lt h]

theorem increment_async_counter_finishes (cfg : Config) (s : State) (w : Nat) :
    (increment_async_counter cfg s w).finishes = s.finishes := by
  unfold increment_async_counter
  split
  · split <;> rfl
  · rfl

theorem increment_async_counter_ddfs (cfg : Config) (s : State) (w : Nat) :
    (increment_async_counter cfg s w).ddfs = s.ddfs := by
  unfold increment_async_counter
  split
  · split <;> rfl
  · rfl

theorem increment_async_counter_counter (cfg : Config) (s : State) (w g : Nat) :
    (increment_async_counter cfg s w).counter g = s.counter g := by
  simp [State.counter, increment_async_counter_finishes]

theorem increment_async_counter_deque (cfg : Config) (s : State) (w v : Nat) :
    (increment_async_counter cfg s w).deque v = s.deque v := by
  unfold increment_async_counter
  split
  · split
    · rename_i wr h
      simp only [State.deque, State.setWorker, List.getElem?_set]
      by_cases hv : w = v
      · subst hv
        simp [getElem?_lt h, h]
      · simp [hv]
    · rfl
  · rfl

theorem increment_async_counter_stack (cfg : Config) (s : State) (w v : Nat) :
    (increment_async_counter cfg s w).stack v = s.stack v := by
  unfold increment_async_counter
  split
  · split
    · rename_i wr h
      simp only [State.stack, State.setWorker, List.getElem?_set]
      by_cases hv : w = v
      · subst hv
        simp [getElem?_lt h, h]
      · simp [hv]
    · rfl
  · rfl

theorem increment_async_counter_current_finish (cfg : Config) (s : State) (w v : Nat) :
    (increment_async_counter cfg s w).current_finish v = s.current_finish v := by
  unfold increment_async_counter
  split
  · split
    · rename_i wr h
      simp only [State.current_finish, State.setWorker, List.getElem?_set]
      by_cases hv : w = v
      · subst hv
        simp [getElem?_lt h, h]
      · simp [hv]
    · rfl
  · rfl

/-- A task without promise list is scheduled at once: with room in the deque
of the worker it is pushed at the tail. -/
theorem try_schedule_async_push (cfg : Config) (w : Nat) (s : State) (t : task_t)
    (wr : hc_workerState) (hw : s.workers[w]? = some wr) (hd : t.ddf_list = none)
    (hroom : wr.deque.length < cfg.cap) :
    try_schedule_async cfg w s t false =
      .ok (s.setWorker w { wr with deque := wr.deque ++ [t] }) := by
  simp [try_schedule_async, is_eligible_to_schedule, hd, rt_schedule_async,
    getWorker_of_some hw, dequePush, hroom]

/-- A task whose first promise is not fulfilled is held back: its trigger is
registered on that promise and nothing is scheduled. -/
theorem try_schedule_async_held (cfg : Config) (w : Nat) (s : State) (t : task_t)
    (p : Nat) (ps : List Nat) (d : ddf_t) (hl : t.ddf_list = some (p :: ps))
    (hi : t.ddt_index = 0) (hp : s.ddfs[p]? = some (some d)) (hd : d.datum = none) :
    try_schedule_async cfg w s t false =
      .ok (s.setDdf p { d with waiters := d.waiters ++ [t] }) := by
  obtain ⟨fp, args, cf, dl, idx⟩ := t
  simp only at hl hi
  subst hl hi
  simp [try_schedule_async, is_eligible_to_schedule, iterate_ddt_frontier,
    iterate_ddt_frontier_from, getDdf_of_live hp, hd]

theorem setWorker_stack_same {s : State} {w : Nat} {wr : hc_workerState} (x : hc_workerState)
    (h : s.workers[w]? = some wr) : (s.setWorker w x).stack w = x.stack := by
  simp [State.stack, workers_setWorker_same x h]

theorem push_of_some {s : State} {w : Nat} {wr : hc_workerState} (fr : Frame)
    (h : s.workers[w]? = some wr) :
    s.push w fr = s.setWorker w { wr with stack := fr :: wr.stack } := by
  simp [State.push, h]

theorem push_finishes (s : State) (w : Nat) (fr : Frame) : (s.push w fr).finishes = s.finishes := by
  unfold State.push
  split <;> rfl

theorem push_ddfs (s : State) (w : Nat) (fr : Frame) : (s.push w fr).ddfs = s.ddfs := by
  unfold State.push
  split <;> rfl

/-- The effect of `execute_task` on a state in which worker `w` exists. -/
theorem execute_task_eq (cfg : Config) (w : Nat) (s : State) (t : task_t) (wr : hc_workerState)
    (hw : s.workers[w]? = some wr) :
    execute_task cfg w s t = .ok (s.setWorker w
      { wr with current_finish := t.current_finish,
                stack := call_fp cfg t :: .execute_task_ret t.current_finish :: wr.stack }) := by
  have hwl := getElem?_lt hw
  simp [execute_task, getWorker_of_some hw, State.push, State.setWorker, hwl]

/-- The walk over the promise list touches no finish scope and no worker, and
it succeeds when every promise of the list is live. -/
theorem iterate_ddt_frontier_from_frame (t : task_t) :
    ∀ (ps : List Nat) (i : Nat) (s : State),
      (∀ p ∈ ps, ∃ d, s.ddfs[p]? = some (some d)) →
      ∃ s1 t1 b, iterate_ddt_frontier_from s t ps i = .ok (s1, t1, b) ∧
        s1.finishes = s.finishes ∧ s1.workers = s.workers
  | [], i, s, _ => ⟨s, _, true, rfl, rfl, rfl⟩
  | p :: ps, i, s, h => by
    obtain ⟨d, hd⟩ := h p (by simp)
    cases hdat : d.datum with
    | some v =>
      obtain ⟨s1, t1, b, h1, h2, h3⟩ :=
        iterate_ddt_frontier_from_frame t ps (i + 1) s (fun q hq => h q (by simp [hq]))
      exact ⟨s1, t1, b, by simp [iterate_ddt_frontier_from, getDdf_of_live hd, hdat, h1], h2, h3⟩
    | none =>
      refine ⟨s.setDdf p { d with waiters := d.waiters ++ [{ t with ddt_index := i }] },
        { t with ddt_index := i }, false, ?_, rfl, rfl⟩
      simp [iterate_ddt_frontier_from, getDdf_of_live hd, hdat]

/-- Scheduling on the deque of an existing worker succeeds and touches no
finish scope (an in-place execution only leaves frames on the stack). -/
theorem rt_schedule_async_frame (cfg : Config) (w : Nat) (s : State) (t : task_t)
    (wr : hc_workerState) (hw : s.workers[w]? = some wr) :
    ∃ s1, rt_schedule_async cfg w s t false = .ok s1 ∧ s1.finishes = s.finishes := by
  unfold rt_schedule_async
  simp only [getWorker_of_some hw]
  cases dequePush cfg.cap wr.deque t with
  | some dq => exact ⟨_, rfl, rfl⟩
  | none => exact ⟨_, execute_task_eq cfg w s t wr hw, rfl⟩

/-- Trying to schedule a task whose promises are all live succeeds and touches
no finish scope. -/
theorem try_schedule_async_frame (cfg : Config) (w : Nat) (s : State) (t : task_t)
    (wr : hc_workerState) (hw : s.workers[w]? = some wr)
    (hlive : ∀ l, t.ddf_list = some l → ∀ p ∈ l, ∃ d, s.ddfs[p]? = some (some d)) :
    ∃ s1, try_schedule_async cfg w s t false = .ok s1 ∧ s1.finishes = s.finishes := by
  unfold try_schedule_async is_eligible_to_schedule
  cases hl : t.ddf_list with
  | none =>
    obtain ⟨s1, h1, h2⟩ := rt_schedule_async_frame cfg w s t wr hw
    exact ⟨s1, by simpa using h1, h2⟩
  | some l =>
    have hl' : ∀ p ∈ (t.ddf_list.getD []).drop t.ddt_index, ∃ d, s.ddfs[p]? = some (some d) := by
      intro p hp
      rw [hl] at hp
      exact hlive l hl p (List.mem_of_mem_drop hp)
    obtain ⟨s1, t1, b, h1, h2, h3⟩ :=
      iterate_ddt_frontier_from_frame t _ t.ddt_index s hl'
    simp only [iterate_ddt_frontier, h1]
    cases b with
    | false => exact ⟨s1, rfl, h2⟩
    | true =>
      have hw1 : s1.workers[w]? = some wr := by rw [h3]; exact hw
      obtain ⟨s2, h4, h5⟩ := rt_schedule_async_frame cfg w s1 t1 wr hw1
      exact ⟨s2, h4, h5.trans h2⟩

/-- The scoped spawns begin alike: the check-in of the current scope `f`, then
scheduling of the task bound to `f` in the state with the raised counter. -/
theorem spawn_eq (cfg : Config) (w : Nat) (s : State) (task : task_t) (f : Nat) (fin : finish_t)
    (wr : hc_workerState) (hw : s.workers[w]? = some wr) (hcur : wr.current_finish = some f)
    (hfin : s.finishes[f]? = some (some fin)) :
    spawn cfg w s task =
      (try_schedule_async cfg w (s.setFinish f { fin with counter := fin.counter + 1 })
        { task with current_finish := some f } false).bind
        (fun s2 => .ok (increment_async_counter cfg s2 w)) := by
  have hc : s.current_finish w = some f := by rw [current_finish_of_some hw, hcur]
  simp only [spawn, hc, check_in_finish_live hfin, set_current_finish]
  cases try_schedule_async cfg w _ _ false <;> rfl

theorem spawn_await_eq (cfg : Config) (w : Nat) (s : State) (task : task_t) (f : Nat)
    (fin : finish_t) (wr : hc_workerState) (hw : s.workers[w]? = some wr)
    (hcur : wr.current_finish = some f) (hfin : s.finishes[f]? = some (some fin))
    (dl : Option (List Nat)) :
    spawn_await cfg w s task dl =
      (try_schedule_async cfg w (s.setFinish f { fin with counter := fin.counter + 1 })
        { task with current_finish := some f, ddf_list := dl, ddt_index := 0 } false).bind
        (fun s2 => .ok (increment_async_counter cfg s2 w)) := by
  have hc : s.current_finish w = some f := by rw [current_finish_of_some hw, hcur]
  simp only [spawn_await, hc, check_in_finish_live hfin, set_current_finish, set_ddf_list,
    ddt_init]
  cases try_schedule_async cfg w _ _ false <;> rfl

/-- A `spawn` of a task without promise list, with room in the deque: the
counter of the current scope is one higher and the bound task is at the tail of
the deque. -/
theorem spawn_push_eq (cfg : Config) (w : Nat) (s : State) (task : task_t) (f : Nat)
    (fin : finish_t) (wr : hc_workerState) (hw : s.workers[w]? = some wr)
    (hcur : wr.current_finish = some f) (hfin : s.finishes[f]? = some (some fin))
    (hd : task.ddf_list = none) (hroom : wr.deque.length < cfg.cap) :
    spawn cfg w s task = .ok (increment_async_counter cfg
      ((s.setFinish f { fin with counter := fin.counter + 1 }).setWorker w
        { wr with deque := wr.deque ++ [{ task with current_finish := some f }] }) w) := by
  have hw1 : (s.setFinish f { fin with counter := fin.counter + 1 }).workers[w]? = some wr := hw
  rw [spawn_eq cfg w s task f fin wr hw hcur hfin,
    try_schedule_async_push cfg w _ { task with current_finish := some f } wr hw1 hd hroom]
  rfl

/-! ## Lemmas on eligibility -/

theorem setWorker_setWorker (s : State) (w : Nat) (a b : hc_workerState) :
    (s.setWorker w a).setWorker w b = s.setWorker w b := by
  simp [State.setWorker]

/-- A steal, when it returns a task, takes the head of the deque of another
worker and touches nothing else. -/
theorem steal_scan_some {s s1 : State} {w : Nat} {t : task_t} :
    ∀ (vs : List Nat), steal_scan s w vs = some (t, s1) →
      ∃ v vr rest, v ≠ w ∧ s.workers[v]? = some vr ∧ vr.deque = t :: rest ∧
        s1 = s.setWorker v { vr with deque := rest }
  | [], h => by simp [steal_scan] at h
  | v :: vs, h => by
    unfold steal_scan at h
    by_cases hv : v = w
    · simp only [hv, if_true] at h
      exact steal_scan_some vs h
    · simp only [hv, if_false] at h
      cases hvr : s.workers[v]? with
      | none =>
        simp only [hvr] at h
        exact steal_scan_some vs h
      | some vr =>
        simp only [hvr] at h
        cases hdq : vr.deque with
        | nil =>
          simp only [hdq] at h
          exact steal_scan_some vs h
        | cons t0 rest =>
          simp only [hdq, Option.some.injEq, Prod.mk.injEq] at h
          exact ⟨v, vr, rest, hv, hvr, by rw [hdq, h.1], h.2.symm⟩

theorem increment_steals_counter_stack (cfg : Config) (s : State) (w v : Nat) :
    (increment_steals_counter cfg s w).stack v = s.stack v := by
  unfold increment_steals_counter
  split
  · split
    · rename_i wr h
      simp only [State.stack, State.setWorker, List.getElem?_set]
      by_cases hv : w = v
      · subst hv
        simp [getElem?_lt h, h]
      · simp [hv]
    · rfl
  · rfl

theorem run_append (cfg : Config) :
    ∀ (a b : List Nat) (s : State),
      run cfg (a ++ b) s = (run cfg a s).bind (run cfg b)
  | [], b, s => rfl
  | w :: a, b, s => by
    simp only [List.cons_append, run]
    cases step cfg w s with
    | fault e => rfl
    | ok s1 => exact run_append cfg a b s1

/-- A worker whose top frame is a body of `work` statements only runs it to
its end in as many steps plus one (the return): the log gets the values, the
frame is gone, nothing else changes. -/
theorem run_work_body (cfg : Config) (w : Nat) :
    ∀ (ns : List Nat) (s : State) (wr : hc_workerState) (rest : List Frame),
      s.workers[w]? = some wr → wr.stack = .user (ns.map .work) :: rest →
      run cfg (List.replicate (ns.length + 1) w) s =
        .ok ({ s with log := s.log ++ ns }.setWorker w { wr with stack := rest })
  | [], s, wr, rest, hw, hst => by
    simp [run, step, hw, hst, exec_frame, Res.bind]
  | n :: ns, s, wr, rest, hw, hst => by
    have hwl := getElem?_lt hw
    let wr1 : hc_workerState := { wr with stack := .user (ns.map .work) :: rest }
    let s1 : State := { s with log := s.log ++ [n] }.setWorker w wr1
    have hstep : step cfg w s = .ok s1 := by
      simp [step, hw, hst, exec_frame, exec_cmd, State.push, State.setWorker, hwl, s1, wr1]
    have hw1 : s1.workers[w]? = some wr1 := by
      simp [s1, State.setWorker, hwl]
    have ih := run_work_body cfg w ns s1 wr1 rest hw1 rfl
    simp only [List.length_cons, List.replicate_succ, run, hstep, Res.bind] at ih ⊢
    rw [ih]
    simp [s1, wr1, State.setWorker]

/-- A `spawn` by a worker without current scope, of a task without promise
list, with room in the deque: no scope is touched and the task, bound to no
scope, is at the tail of the deque. -/
theorem spawn_null_push_eq (cfg : Config) (w : Nat) (s : State) (task : task_t)
    (wr : hc_workerState) (hw : s.workers[w]? = some wr) (hcur : wr.current_finish = none)
    (hd : task.ddf_list = none) (hroom : wr.deque.length < cfg.cap) :
    spawn cfg w s task = .ok (increment_async_counter cfg
      (s.setWorker w { wr with deque := wr.deque ++ [{ task with current_finish := none }] })
      w) := by
  have hc : s.current_finish w = none := by rw [current_finish_of_some hw, hcur]
  simp only [spawn, hc, check_in_finish, set_current_finish]
  rw [try_schedule_async_push cfg w s { task with current_finish := none } wr hw hd hroom]

/-! ## Lemmas on the shutdown flags -/

theorem map_set_same {α β : Type} (f : α → β) :
    ∀ (l : List α) (i : Nat) (x : α), (∀ y, l[i]? = some y → f x = f y) →
      (l.set i x).map f = l.map f
  | [], _, _, _ => rfl
  | a :: l, 0, x, h => by simp [h a]
  | a :: l, i + 1, x, h => by
    simp only [List.set_cons_succ, List.map_cons]
    rw [map_set_same f l i x (fun y hy => h y (by simpa using hy))]

theorem flags_setWorker (s : State) (w : Nat) (x : hc_workerState)
    (h : ∀ wr, s.workers[w]? = some wr → x.done_flag = wr.done_flag) :
    flags (s.setWorker w x) = flags s :=
  map_set_same _ _ _ _ h

theorem flags_push (s : State) (w : Nat) (fr : Frame) : flags (s.push w fr) = flags s := by
  unfold State.push
  split
  · rename_i wr hw
    apply flags_setWorker
    intro wr1 h1
    rw [hw] at h1
    cases h1
    rfl
  · rfl

theorem keeps_ok {s s1 : State} (h : flags s1 = flags s) : Keeps (.ok s1) s := by
  intro s' hs
  cases hs
  exact h

theorem keeps_fault (e : Fault) (s : State) : Keeps (.fault e) s := by
  intro s' hs
  cases hs

theorem Keeps.trans {r : Res State} {s s1 : State} (h : flags s1 = flags s) (k : Keeps r s1) :
    Keeps r s := fun s' hs => (k s' hs).trans h

theorem check_in_finish_keeps (s : State) (f : Option Nat) : Keeps (check_in_finish s f) s := by
  unfold check_in_finish
  split
  · exact keeps_ok rfl
  · split
    · exact keeps_fault _ _
    · exact keeps_ok rfl

theorem hclib_ddf_put_keeps (w : Nat) (s : State) (p v : Nat) :
    Keeps (hclib_ddf_put w s p v) s := by
  unfold hclib_ddf_put
  split
  · exact keeps_fault _ _
  · split
    · exact keeps_fault _ _
    · exact keeps_ok (flags_push _ _ _)

theorem check_out_finish_keeps (cfg : Config) (w : Nat) (s : State) (f : Option Nat) :
    Keeps (check_out_finish cfg w s f) s := by
  unfold check_out_finish
  split
  · exact keeps_ok rfl
  · split
    · exact keeps_fault _ _
    · simp only
      split
      · split
        · split
          · exact keeps_fault _ _
          · exact Keeps.trans rfl (hclib_ddf_put_keeps _ _ _ _)
        · exact keeps_ok rfl
      · exact keeps_ok rfl

theorem getWorker_ok {s : State} {w : Nat} {wr : hc_workerState}
    (h : s.getWorker w = .ok wr) : s.workers[w]? = some wr := by
  unfold State.getWorker at h
  split at h
  · cases h
    assumption
  · cases h

theorem flags_setWorker_of {s : State} {w : Nat} {wr : hc_workerState} (x : hc_workerState)
    (h : s.workers[w]? = some wr) (hx : x.done_flag = wr.done_flag) :
    flags (s.setWorker w x) = flags s := by
  apply flags_setWorker
  intro wr1 h1
  rw [h] at h1
  cases h1
  exact hx

theorem execute_task_keeps (cfg : Config) (w : Nat) (s : State) (t : task_t) :
    Keeps (execute_task cfg w s t) s := by
  unfold execute_task
  split
  · exact keeps_fault _ _
  · rename_i wr hw
    apply keeps_ok
    rw [flags_push, flags_push]
    exact flags_setWorker_of _ (getWorker_ok hw) rfl

theorem rt_schedule_async_keeps (cfg : Config) (w : Nat) (s : State) (t : task_t) (c : Bool) :
    Keeps (rt_schedule_async cfg w s t c) s := by
  unfold rt_schedule_async
  split
  · split
    · exact keeps_ok rfl
    · exact keeps_ok rfl
  · split
    · exact keeps_fault _ _
    · rename_i wr hw
      split
      · exact keeps_ok (flags_setWorker_of _ (getWorker_ok hw) rfl)
      · exact execute_task_keeps _ _ _ _

theorem iterate_ddt_frontier_from_flags (t : task_t) :
    ∀ (ps : List Nat) (i : Nat) (s s1 : State) (t1 : task_t) (b : Bool),
      iterate_ddt_frontier_from s t ps i = .ok (s1, t1, b) → flags s1 = flags s
  | [], i, s, s1, t1, b, h => by
    simp [iterate_ddt_frontier_from] at h
    rw [← h.1]
  | p :: ps, i, s, s1, t1, b, h => by
    unfold iterate_ddt_frontier_from at h
    split at h
    · cases h
    · split at h
      · exact iterate_ddt_frontier_from_flags t ps (i + 1) s s1 t1 b h
      · simp only [Res.ok.injEq, Prod.mk.injEq] at h
        rw [← h.1]
        rfl

theorem is_eligible_to_schedule_flags (s s1 : State) (t t1 : task_t) (b : Bool)
    (h : is_eligible_to_schedule s t = .ok (s1, t1, b)) : flags s1 = flags s := by
  unfold is_eligible_to_schedule at h
  split at h
  · exact iterate_ddt_frontier_from_flags t _ _ s s1 t1 b h
  · simp only [Res.ok.injEq, Prod.mk.injEq] at h
    rw [← h.1]

theorem try_schedule_async_keeps (cfg : Config) (w : Nat) (s : State) (t : task_t) (c : Bool) :
    Keeps (try_schedule_async cfg w s t c) s := by
  unfold try_schedule_async
  split
  · exact keeps_fault _ _
  · rename_i s1 t1 h
    exact Keeps.trans (is_eligible_to_schedule_flags _ _ _ _ _ h) (rt_schedule_async_keeps _ _ _ _ _)
  · rename_i s1 t1 h
    exact keeps_ok (is_eligible_to_schedule_flags _ _ _ _ _ h)

theorem flags_increment_async_counter (cfg : Config) (s : State) (w : Nat) :
    flags (increment_async_counter cfg s w) = flags s := by
  unfold increment_async_counter
  split
  · split
    · rename_i wr hw
      exact flags_setWorker_of _ hw rfl
    · rfl
  · rfl

theorem flags_increment_steals_counter (cfg : Config) (s : State) (w : Nat) :
    flags (increment_steals_counter cfg s w) = flags s := by
  unfold increment_steals_counter
  split
  · split
    · rename_i wr hw
      exact flags_setWorker_of _ hw rfl
    · rfl
  · rfl

theorem flags_increment_asyncComm_counter (cfg : Config) (s : State) :
    flags (increment_asyncComm_counter cfg s) = flags s := by
  unfold increment_asyncComm_counter
  split <;> rfl

theorem flags_deque_push_place (cfg : Config) (s : State) (pl : Nat) (t : task_t) :
    flags (deque_push_place cfg s pl t).1 = flags s := by
  unfold deque_push_place
  split
  · rfl
  · rename_i pr hp
    split
    · exact flags_setWorker_of _ hp rfl
    · rfl

theorem spawn_at_hpt_keeps (cfg : Config) (w : Nat) (s : State) (pl : Nat) (t : task_t) :
    Keeps (spawn_at_hpt cfg w s pl t) s := by
  unfold spawn_at_hpt
  split
  · exact keeps_fault _ _
  · rename_i s1 h
    apply keeps_ok
    rw [flags_increment_async_counter, flags_deque_push_place]
    exact check_in_finish_keeps _ _ _ h

theorem spawn_keeps (cfg : Config) (w : Nat) (s : State) (t : task_t) :
    Keeps (spawn cfg w s t) s := by
  unfold spawn
  split
  · exact keeps_fault _ _
  · rename_i s1 h
    simp only
    split
    · exact keeps_fault _ _
    · rename_i s2 h2
      apply keeps_ok
      rw [flags_increment_async_counter]
      exact (try_schedule_async_keeps _ _ _ _ _ _ h2).trans (check_in_finish_keeps _ _ _ h)

theorem spawn_escaping_keeps (cfg : Config) (w : Nat) (s : State) (t : task_t)
    (dl : Option (List Nat)) : Keeps (spawn_escaping cfg w s t dl) s := by
  unfold spawn_escaping
  simp only
  split
  · exact keeps_fault _ _
  · rename_i s2 h2
    apply keeps_ok
    rw [flags_increment_async_counter]
    exact try_schedule_async_keeps _ _ _ _ _ _ h2

theorem spawn_await_keeps (cfg : Config) (w : Nat) (s : State) (t : task_t)
    (dl : Option (List Nat)) : Keeps (spawn_await cfg w s t dl) s := by
  unfold spawn_await
  split
  · exact keeps_fault _ _
  · rename_i s1 h
    simp only
    split
    · exact keeps_fault _ _
    · rename_i s2 h2
      apply keeps_ok
      rw [flags_increment_async_counter]
      exact (try_schedule_async_keeps _ _ _ _ _ _ h2).trans (check_in_finish_keeps _ _ _ h)

theorem spawn_commTask_keeps (cfg : Config) (w : Nat) (s : State) (t : task_t) :
    Keeps (spawn_commTask cfg w s t) s := by
  unfold spawn_commTask
  split
  · split
    · exact keeps_fault _ _
    · rename_i s1 h
      exact Keeps.trans (check_in_finish_keeps _ _ _ h) (try_schedule_async_keeps _ _ _ _ _)
  · exact keeps_fault _ _

theorem hpt_pop_task_flags {s s1 : State} {ws : Nat} {t : task_t}
    (h : hpt_pop_task s ws = some (t, s1)) : flags s1 = flags s := by
  unfold hpt_pop_task at h
  split at h
  · cases h
  · rename_i wr hw
    split at h
    · cases h
    · simp only [Option.some.injEq, Prod.mk.injEq] at h
      rw [← h.2]
      exact flags_setWorker_of _ hw rfl

theorem hpt_steal_task_flags {s s1 : State} {ws : Nat} {t : task_t}
    (h : hpt_steal_task s ws = some (t, s1)) : flags s1 = flags s := by
  obtain ⟨v, vr, rest, -, hvr, -, hs1⟩ := steal_scan_some _ h
  rw [hs1]
  exact flags_setWorker_of _ hvr rfl

theorem find_and_run_task_keeps (cfg : Config) (w : Nat) (s : State) (ws : Nat) :
    Keeps (find_and_run_task cfg w s ws) s := by
  unfold find_and_run_task
  split
  · rename_i t s1 h
    exact Keeps.trans (hpt_pop_task_flags h) (execute_task_keeps _ _ _ _)
  · exact keeps_ok (flags_push _ _ _)

theorem find_steal_keeps (cfg : Config) (w : Nat) (s : State) (ws : Nat) :
    Keeps (find_steal cfg w s ws) s := by
  unfold find_steal
  split
  · exact keeps_fault _ _
  · split
    · split
      · rename_i t s1 h
        exact Keeps.trans ((flags_increment_steals_counter _ _ _).trans (hpt_steal_task_flags h))
          (execute_task_keeps _ _ _ _)
      · exact keeps_ok (flags_push _ _ _)
    · exact keeps_ok rfl

theorem slave_loop_keeps (cfg : Config) (w : Nat) (s : State) (ws finish : Nat) :
    Keeps (slave_loop cfg w s ws finish) s := by
  unfold slave_loop
  split
  · exact keeps_fault _ _
  · split
    · simp only
      split
      · rename_i t s2 h
        exact Keeps.trans ((hpt_pop_task_flags h).trans (flags_push _ _ _))
          (execute_task_keeps _ _ _ _)
      · exact keeps_ok ((flags_push _ _ _).trans (flags_push _ _ _))
    · exact keeps_ok rfl

theorem slave_steal_keeps (cfg : Config) (w : Nat) (s : State) (ws finish : Nat) :
    Keeps (slave_steal cfg w s ws finish) s := by
  unfold slave_steal
  split
  · exact keeps_fault _ _
  · split
    · split
      · rename_i t s1 h
        exact Keeps.trans ((flags_increment_steals_counter _ _ _).trans (hpt_steal_task_flags h))
          (execute_task_keeps _ _ _ _)
      · exact keeps_ok (flags_push _ _ _)
    · exact keeps_ok rfl

theorem master_loop_keeps (cfg : Config) (w : Nat) (s : State) (finish : Nat) :
    Keeps (master_loop cfg w s finish) s := by
  unfold master_loop
  split
  · exact keeps_fault _ _
  · split
    · simp only
      split
      · exact keeps_ok (flags_push _ _ _)
      · refine Keeps.trans ?_ (execute_task_keeps _ _ _ _)
        rw [flags_increment_asyncComm_counter]
        exact flags_push _ _ _
    · exact keeps_ok rfl

theorem crt_work_loop_keeps (cfg : Config) (w : Nat) (s : State) :
    Keeps (crt_work_loop cfg w s) s :=
  Keeps.trans (flags_push _ _ _) (find_and_run_task_keeps _ _ _ _)

theorem crt_work_loop_cond_keeps (w : Nat) (s : State) (wid : Nat) :
    Keeps (crt_work_loop_cond w s wid) s := by
  unfold crt_work_loop_cond
  split
  · exact keeps_fault _ _
  · split
    · exact keeps_ok (flags_push _ _ _)
    · split
      · exact keeps_fault _ _
      · rename_i wr hw
        exact keeps_ok (flags_setWorker_of _ (getWorker_ok hw) rfl)

theorem worker_routine_loop_keeps (cfg : Config) (w : Nat) (s : State) (wid : Nat) :
    Keeps (worker_routine_loop cfg w s wid) s := by
  unfold worker_routine_loop
  split
  · exact keeps_fault _ _
  · split
    · exact Keeps.trans (flags_push _ _ _) (find_and_run_task_keeps _ _ _ _)
    · exact keeps_ok rfl

theorem _finish_ctx_resume_keeps (w : Nat) (s : State) (arg : Nat) :
    Keeps (_finish_ctx_resume w s arg) s := by
  unfold _finish_ctx_resume
  split
  · split
    · exact keeps_fault _ _
    · rename_i wr hw
      apply keeps_ok
      exact flags_setWorker_of (s := { s with ctxs := s.ctxs.set arg none }) _
        (getWorker_ok hw) rfl
  · exact keeps_fault _ _

theorem _help_finish_ctx_keeps (cfg : Config) (w : Nat) (s : State) (finish prev : Nat) :
    Keeps (_help_finish_ctx cfg w s finish prev) s := by
  unfold _help_finish_ctx
  split
  · exact keeps_fault _ _
  · exact Keeps.trans (flags_push _ _ _) (spawn_escaping_keeps _ _ _ _ _)

theorem _help_finish_ctx_out_keeps (cfg : Config) (w : Nat) (s : State) (finish : Nat) :
    Keeps (_help_finish_ctx_out cfg w s finish) s :=
  Keeps.trans (flags_push _ _ _) (check_out_finish_keeps _ _ _ _)

theorem _help_finish_keeps (cfg : Config) (w : Nat) (s : State) (finish : Nat) :
    Keeps (_help_finish cfg w s finish) s := by
  unfold _help_finish
  split
  · split
    · exact keeps_ok (flags_push _ _ _)
    · exact keeps_ok (flags_push _ _ _)
  · exact keeps_ok (flags_push _ _ _)

theorem help_finish_keeps (cfg : Config) (w : Nat) (s : State) (finish : Nat) :
    Keeps (help_finish cfg w s finish) s := by
  unfold help_finish
  split
  · split
    · exact keeps_fault _ _
    · simp only [hclib_ddf_create]
      split
      · exact keeps_fault _ _
      · rename_i wr hw
        apply keeps_ok
        exact flags_setWorker_of (s := { (State.setFinish _ finish _) with ctxs := _ }) _
          (getWorker_ok hw) rfl
  · exact Keeps.trans (flags_push _ _ _) (_help_finish_keeps _ _ _ _)

theorem help_finish_ret_keeps (cfg : Config) (s : State) (finish : Nat) (dep : Option Nat) :
    Keeps (help_finish_ret cfg s finish dep) s := by
  unfold help_finish_ret
  simp only
  split
  · exact keeps_fault _ _
  · split
    · apply keeps_ok
      split
      · split <;> rfl
      · rfl
    · exact keeps_fault _ _

theorem flags_setWorker_flag {s : State} {w d : Nat} (x : hc_workerState)
    (h : (flags s)[w]? = some d) (hx : x.done_flag = d) : flags (s.setWorker w x) = flags s := by
  apply flags_setWorker
  intro wr hw
  simp only [flags, List.getElem?_map, hw, Option.map_some', Option.some.injEq] at h
  rw [hx, h]

theorem flags_getWorker {s : State} {w : Nat} {wr : hc_workerState}
    (h : s.getWorker w = .ok wr) : (flags s)[w]? = some wr.done_flag := by
  simp [flags, List.getElem?_map, getWorker_ok h]

theorem hclib_start_finish_keeps (w : Nat) (s : State) : Keeps (hclib_start_finish w s) s := by
  unfold hclib_start_finish
  split
  · exact keeps_fault _ _
  · rename_i wr hw
    simp only
    split
    · exact keeps_fault _ _
    · rename_i s2 h2
      apply keeps_ok
      have h3 : flags s2 = flags s := (check_in_finish_keeps _ _ _ h2).trans rfl
      have hf := flags_getWorker hw
      rw [← h3] at hf
      refine Eq.trans ?_ h3
      exact flags_setWorker_flag _ hf rfl

theorem hclib_end_finish_keeps (cfg : Config) (w : Nat) (s : State) :
    Keeps (hclib_end_finish cfg w s) s := by
  unfold hclib_end_finish
  split
  · exact keeps_fault _ _
  · split
    · exact keeps_fault _ _
    · split
      · exact keeps_fault _ _
      · simp only
        split
        · exact Keeps.trans (flags_push _ _ _) (help_finish_keeps _ _ _ _)
        · exact keeps_ok (flags_push _ _ _)

theorem end_finish_ret_keeps (cfg : Config) (w : Nat) (s : State) (ws f : Nat) :
    Keeps (end_finish_ret cfg w s ws f) s := by
  unfold end_finish_ret
  split
  · exact keeps_fault _ _
  · split
    · exact Keeps.trans (flags_push _ _ _) (check_out_finish_keeps _ _ _ _)
    · exact keeps_fault _ _

theorem end_finish_tail_keeps (s : State) (ws f : Nat) : Keeps (end_finish_tail s ws f) s := by
  unfold end_finish_tail
  split
  · exact keeps_fault _ _
  · split
    · exact keeps_fault _ _
    · rename_i wr hw
      have hf := flags_getWorker hw
      exact keeps_ok (flags_setWorker_flag _ hf rfl)

theorem ddf_put_wake_keeps (cfg : Config) (w : Nat) (s : State) (l : List task_t) :
    Keeps (ddf_put_wake cfg w s l) s := by
  cases l with
  | nil => exact keeps_ok rfl
  | cons t rest =>
    simp only [ddf_put_wake]
    split
    · exact keeps_fault _ _
    · rename_i s1 t1 h
      exact Keeps.trans ((iterate_ddt_frontier_from_flags _ _ _ _ _ _ _ h).trans
        (flags_push _ _ _)) (rt_schedule_async_keeps _ _ _ _ _)
    · rename_i s1 t1 h
      exact keeps_ok ((iterate_ddt_frontier_from_flags _ _ _ _ _ _ _ h).trans (flags_push _ _ _))

theorem hclib_start_ctx_keeps (w : Nat) (s : State) : Keeps (hclib_start_ctx w s) s := by
  unfold hclib_start_ctx
  split
  · exact keeps_fault _ _
  · rename_i wr hw
    have hf := flags_getWorker hw
    exact keeps_ok (flags_setWorker_flag _ hf rfl)

theorem hclib_finalize_keeps (cfg : Config) (w : Nat) (s : State) :
    Keeps (hclib_finalize cfg w s) s := by
  unfold hclib_finalize
  split
  · exact Keeps.trans (flags_push _ _ _) (hclib_start_ctx_keeps _ _)
  · exact Keeps.trans ((flags_push _ _ _).trans (flags_push _ _ _)) (hclib_end_finish_keeps _ _ _)

theorem _hclib_finalize_ctx_keeps (cfg : Config) (w : Nat) (s : State) :
    Keeps (_hclib_finalize_ctx cfg w s) s :=
  Keeps.trans (flags_push _ _ _) (hclib_end_finish_keeps _ _ _)

theorem finalize_tail_keeps (w : Nat) (s : State) : Keeps (finalize_tail w s) s :=
  keeps_ok (flags_push _ _ _)

theorem hcpp_join_keeps (w : Nat) (s : State) : Keeps (hcpp_join w s) s := by
  unfold hcpp_join
  split
  · exact keeps_ok rfl
  · exact keeps_ok (flags_push _ _ _)

theorem exec_cmd_keeps (cfg : Config) (w : Nat) (s : State) (c : Cmd) :
    Keeps (exec_cmd cfg w s c) s := by
  cases c with
  | start_finish => exact hclib_start_finish_keeps _ _
  | end_finish => exact hclib_end_finish_keeps _ _ _
  | async f => exact spawn_keeps _ _ _ _
  | async_await f deps => exact spawn_await_keeps _ _ _ _ _
  | async_escaping f deps => exact spawn_escaping_keeps _ _ _ _ _
  | async_at pl f => exact spawn_at_hpt_keeps _ _ _ _ _
  | async_comm f => exact spawn_commTask_keeps _ _ _ _
  | ddf_put p v => exact hclib_ddf_put_keeps _ _ _ _
  | work n => exact keeps_ok rfl
  | ddf_create => exact keeps_ok rfl
  | ddf_get p =>
    simp only [exec_cmd]
    split
    · exact keeps_fault _ _
    · exact keeps_ok rfl
  | finalize => exact hclib_finalize_keeps _ _ _

theorem exec_frame_keeps (cfg : Config) (w : Nat) (s : State) (fr : Frame)
    (h : fr.signals = false) : Keeps (exec_frame cfg w s fr) s := by
  cases fr with
  | user cs =>
    cases cs with
    | nil => exact keeps_ok rfl
    | cons c cs => exact Keeps.trans (flags_push _ _ _) (exec_cmd_keeps _ _ _ _)
  | finish_ctx_resume arg => exact _finish_ctx_resume_keeps _ _ _
  | execute_task_ret f => exact check_out_finish_keeps _ _ _ _
  | end_finish_ret ws f => exact end_finish_ret_keeps _ _ _ _ _
  | end_finish_tail ws f => exact end_finish_tail_keeps _ _ _
  | help_finish_ret f dep => exact help_finish_ret_keeps _ _ _ _
  | help_finish_ctx f prev => exact _help_finish_ctx_keeps _ _ _ _ _
  | help_finish_ctx_out f => exact _help_finish_ctx_out_keeps _ _ _ _
  | crt_work_loop => exact crt_work_loop_keeps _ _ _
  | crt_work_loop_cond wid => exact crt_work_loop_cond_keeps _ _ _
  | find_steal ws => exact find_steal_keeps _ _ _ _
  | worker_routine_loop wid => exact worker_routine_loop_keeps _ _ _ _
  | slave_loop ws f => exact slave_loop_keeps _ _ _ _ _
  | slave_steal ws f => exact slave_steal_keeps _ _ _ _ _
  | master_loop f => exact master_loop_keeps _ _ _ _
  | ddf_put_wake l => exact ddf_put_wake_keeps _ _ _ _
  | hclib_finalize_ctx => exact _hclib_finalize_ctx_keeps _ _ _
  | finalize_ctx_ret => cases h
  | finalize_signal => cases h
  | finalize_tail => exact finalize_tail_keeps _ _
  | hcpp_join => exact hcpp_join_keeps _ _
theorem signal_flags_flags :
    ∀ (n : Nat) (ws : List hc_workerState),
      (signal_flags n ws).map (fun wr => wr.done_flag) =
        List.replicate (min n ws.length) 0 ++ (ws.map (fun wr => wr.done_flag)).drop n
  | 0, ws => by simp [signal_flags]
  | _ + 1, [] => by simp [signal_flags]
  | n + 1, wr :: ws => by
    simp only [signal_flags, List.map_cons, List.length_cons, List.drop_succ_cons]
    rw [signal_flags_flags n ws, Nat.add_min_add_right, List.replicate_succ, List.cons_append]

theorem flags_hcpp_signal_join (s : State) (n : Nat) :
    flags (hcpp_signal_join s n) =
      List.replicate (min n s.workers.length) 0 ++ (flags s).drop n :=
  signal_flags_flags n s.workers

theorem flags_length (s : State) : (flags s).length = s.workers.length := by
  simp [flags]

theorem flags_hcpp_signal_join_all (s : State) :
    flags (hcpp_signal_join s s.workers.length) = List.replicate (flags s).length 0 := by
  rw [flags_hcpp_signal_join, flags_length]
  simp [flags]

theorem lowers_zero {s1 s : State} (h : Lowers s1 s) (i : Nat) (hi : (flags s)[i]? = some 0) :
    (flags s1)[i]? = some 0 := by
  rcases h with h | h
  · rw [h]
    exact hi
  · rw [h]
    have hlt : i < (flags s).length := by
      by_contra hc
      rw [List.getElem?_eq_none (by omega)] at hi
      cases hi
    simp [List.getElem?_replicate, hlt]

theorem lowers_length {s1 s : State} (h : Lowers s1 s) : (flags s1).length = (flags s).length := by
  rcases h with h | h
  · rw [h]
  · rw [h, List.length_replicate]

theorem flags_setWorker_stack {s : State} {w : Nat} {wr : hc_workerState}
    (h : s.workers[w]? = some wr) (st : List Frame) :
    flags (s.setWorker w { wr with stack := st }) = flags s :=
  flags_setWorker_of _ h rfl

theorem exec_frame_lowers (cfg : Config) (w : Nat) (s s1 : State) (fr : Frame)
    (h : exec_frame cfg w s fr = .ok s1) : Lowers s1 s := by
  by_cases hs : fr.signals = false
  · exact Or.inl (exec_frame_keeps cfg w s fr hs s1 h)
  · right
    cases fr <;> simp [Frame.signals] at hs
    · simp only [exec_frame, finalize_ctx_ret] at h
      split at h
      · cases h
      · rename_i wr hw
        cases h
        have hf := flags_getWorker hw
        refine Eq.trans ?_ (flags_hcpp_signal_join_all s)
        exact flags_setWorker_flag _ hf rfl
    · simp only [exec_frame, Res.ok.injEq] at h
      rw [← h]
      exact flags_hcpp_signal_join_all s

theorem step_lowers (cfg : Config) (w : Nat) (s s1 : State) (h : step cfg w s = .ok s1) :
    Lowers s1 s := by
  unfold step at h
  split at h
  · cases h
    exact Or.inl rfl
  · rename_i wr hw
    split at h
    · cases h
      exact Or.inl rfl
    · rename_i fr rest hst
      have h1 := exec_frame_lowers cfg w _ s1 fr h
      have h2 : flags (s.setWorker w { wr with stack := rest }) = flags s :=
        flags_setWorker_stack hw rest
      unfold Lowers at h1
      rw [h2] at h1
      exact h1

theorem run_zero_stays (cfg : Config) :
    ∀ (sched : List Nat) (s s1 : State), run cfg sched s = .ok s1 →
      (flags s1).length = (flags s).length ∧
        ∀ i : Nat, (flags s)[i]? = some 0 → (flags s1)[i]? = some 0
  | [], s, s1, h => by
    simp only [run, Res.ok.injEq] at h
    rw [← h]
    exact ⟨rfl, fun _ hi => hi⟩
  | w :: sched, s, s1, h => by
    simp only [run] at h
    cases hst : step cfg w s with
    | fault e =>
      rw [hst] at h
      cases h
    | ok s2 =>
      rw [hst] at h
      have hl := step_lowers cfg w s s2 hst
      have ih := run_zero_stays cfg sched s2 s1 h
      exact ⟨ih.1.trans (lowers_length hl), fun i hi => ih.2 i (lowers_zero hl i hi)⟩

theorem hcpp_global_init_flags (ws : List hc_workerState) :
    (hcpp_global_init ws).map (fun wr => wr.done_flag) = List.replicate ws.length 1 := by
  induction ws with
  | nil => rfl
  | cons a l ih =>
    simp only [hcpp_global_init, List.map_cons, List.length_cons, List.replicate_succ,
      List.cons.injEq, true_and] at ih ⊢
    exact ih

/-! ## Lemmas on the order of shutdown -/

theorem guarded_mono (f : Nat) : ∀ (st : List Frame) (g : Bool),
    guarded f g st = true → guarded f true st = true
  | [], _, _ => rfl
  | fr :: rest, g, h => by
    simp only [guarded, Bool.and_eq_true, Bool.or_eq_true, Bool.not_eq_true', Bool.true_or,
      or_true, and_true] at h ⊢
    exact ⟨h.1.1, guarded_mono f rest _ h.2⟩

theorem guarded_cons {f : Nat} {g : Bool} {fr : Frame} {rest : List Frame}
    (hc : fr.calm = true) (hs : fr.signals = false) (h : guarded f g rest = true) :
    guarded f g (fr :: rest) = true := by
  simp only [guarded, hc, hs, Bool.not_false, Bool.true_or, Bool.and_self, Bool.true_and]
  cases hg : (g || fr.closes f)
  · simp only [Bool.or_eq_false_iff] at hg
    rw [← hg.1]
    exact h
  · exact guarded_mono f rest g h

theorem guarded_of_quiet (f : Nat) : ∀ (st : List Frame) (g : Bool),
    quiet_stack st = true → guarded f g st = true
  | [], _, _ => rfl
  | fr :: rest, g, h => by
    simp only [quiet_stack, List.all_cons, Bool.and_eq_true, Bool.not_eq_true'] at h
    exact guarded_cons h.1.1 h.1.2 (guarded_of_quiet f rest g h.2)

theorem mem_of_getElem? {α : Type} {l : List α} {i : Nat} {a : α} (h : l[i]? = some a) :
    a ∈ l := by
  obtain ⟨hi, rfl⟩ := List.getElem?_eq_some_iff.1 h
  exact List.getElem_mem hi

theorem safe_ok {f : Nat} {s : State} (h : AllGuarded f s) : Safe f (.ok s) := by
  intro s1 hs
  cases hs
  exact h

theorem safe_fault (f : Nat) (e : Fault) : Safe f (.fault e) := by
  intro s1 hs
  cases hs

theorem allGuarded_setWorker {f : Nat} {s : State} (w : Nat) (x : hc_workerState)
    (h : AllGuarded f s) (hst : guarded f false x.stack = true)
    (hor : guarded f false x.orig_ctx = true) : AllGuarded f (s.setWorker w x) := by
  refine ⟨?_, h.2⟩
  intro wr hwr
  rcases List.mem_or_eq_of_mem_set hwr with hm | he
  · exact h.1 wr hm
  · rw [he]
    exact ⟨hst, hor⟩

theorem allGuarded_worker {f : Nat} {s : State} {w : Nat} {wr : hc_workerState}
    (h : AllGuarded f s) (hw : s.workers[w]? = some wr) :
    guarded f false wr.stack = true ∧ guarded f false wr.orig_ctx = true :=
  h.1 wr (mem_of_getElem? hw)

theorem allGuarded_setWorker_of {f : Nat} {s : State} {w : Nat} {wr : hc_workerState}
    (x : hc_workerState) (h : AllGuarded f s) (hw : s.workers[w]? = some wr)
    (hst : x.stack = wr.stack) (hor : x.orig_ctx = wr.orig_ctx) :
    AllGuarded f (s.setWorker w x) := by
  have hg := allGuarded_worker h hw
  apply allGuarded_setWorker w x h
  · rw [hst]
    exact hg.1
  · rw [hor]
    exact hg.2

theorem allGuarded_push {f : Nat} {s : State} (w : Nat) (fr : Frame) (h : AllGuarded f s)
    (hc : fr.calm = true) (hs : fr.signals = false) : AllGuarded f (s.push w fr) := by
  unfold State.push
  split
  · rename_i wr hw
    have hg := allGuarded_worker h hw
    exact allGuarded_setWorker w _ h (guarded_cons hc hs hg.1) hg.2
  · exact h

theorem check_in_finish_safe {f : Nat} {s : State} (g : Option Nat) (h : AllGuarded f s) :
    Safe f (check_in_finish s g) := by
  unfold check_in_finish
  split
  · exact safe_ok h
  · split
    · exact safe_fault _ _
    · exact safe_ok h

theorem hclib_ddf_put_safe {f : Nat} {s : State} (w p v : Nat) (h : AllGuarded f s) :
    Safe f (hclib_ddf_put w s p v) := by
  unfold hclib_ddf_put
  split
  · exact safe_fault _ _
  · split
    · exact safe_fault _ _
    · apply safe_ok
      refine allGuarded_push w _ ?_ ?_ ?_
      · exact h
      · rfl
      · rfl

theorem check_out_finish_safe {f : Nat} {s : State} (cfg : Config) (w : Nat) (g : Option Nat)
    (h : AllGuarded f s) : Safe f (check_out_finish cfg w s g) := by
  unfold check_out_finish
  split
  · exact safe_ok h
  · split
    · exact safe_fault _ _
    · simp only
      split
      · split
        · split
          · exact safe_fault _ _
          · refine hclib_ddf_put_safe w _ _ ?_
            exact h
        · exact safe_ok h
      · exact safe_ok h

theorem call_fp_calm {cfg : Config} (hp : cfg.calm) (t : task_t) :
    (call_fp cfg t).calm = true ∧ (call_fp cfg t).signals = false := by
  unfold call_fp
  split
  · rename_i n hn
    refine ⟨?_, rfl⟩
    simp only [Frame.calm, decide_eq_true_eq]
    rw [List.getD_eq_getElem?_getD]
    cases hq : cfg.prog[n]? with
    | none => simp
    | some p => exact hp p (mem_of_getElem? hq)
  · exact ⟨rfl, rfl⟩

theorem execute_task_safe {f : Nat} {s : State} {cfg : Config} (hp : cfg.calm) (w : Nat)
    (t : task_t) (h : AllGuarded f s) : Safe f (execute_task cfg w s t) := by
  unfold execute_task
  split
  · exact safe_fault _ _
  · rename_i wr hw
    apply safe_ok
    apply allGuarded_push w _ _ (call_fp_calm hp t).1 (call_fp_calm hp t).2
    refine allGuarded_push w _ ?_ ?_ ?_
    · exact allGuarded_setWorker_of _ h (getWorker_ok hw) rfl rfl
    · rfl
    · rfl

theorem rt_schedule_async_safe {f : Nat} {s : State} {cfg : Config} (hp : cfg.calm) (w : Nat)
    (t : task_t) (c : Bool) (h : AllGuarded f s) : Safe f (rt_schedule_async cfg w s t c) := by
  unfold rt_schedule_async
  split
  · split
    · exact safe_ok h
    · exact safe_ok h
  · split
    · exact safe_fault _ _
    · rename_i wr hw
      split
      · exact safe_ok (allGuarded_setWorker_of _ h (getWorker_ok hw) rfl rfl)
      · exact execute_task_safe hp w t h

theorem iterate_ddt_frontier_from_guarded {f : Nat} (t : task_t) :
    ∀ (ps : List Nat) (i : Nat) (s s1 : State) (t1 : task_t) (b : Bool),
      iterate_ddt_frontier_from s t ps i = .ok (s1, t1, b) → AllGuarded f s → AllGuarded f s1
  | [], i, s, s1, t1, b, h, hg => by
    simp [iterate_ddt_frontier_from] at h
    rw [← h.1]
    exact hg
  | p :: ps, i, s, s1, t1, b, h, hg => by
    unfold iterate_ddt_frontier_from at h
    split at h
    · cases h
    · split at h
      · exact iterate_ddt_frontier_from_guarded t ps (i + 1) s s1 t1 b h hg
      · simp only [Res.ok.injEq, Prod.mk.injEq] at h
        rw [← h.1]
        exact hg

theorem is_eligible_to_schedule_guarded {f : Nat} {s s1 : State} {t t1 : task_t} {b : Bool}
    (h : is_eligible_to_schedule s t = .ok (s1, t1, b)) (hg : AllGuarded f s) :
    AllGuarded f s1 := by
  unfold is_eligible_to_schedule at h
  split at h
  · exact iterate_ddt_frontier_from_guarded t _ _ s s1 t1 b h hg
  · simp only [Res.ok.injEq, Prod.mk.injEq] at h
    rw [← h.1]
    exact hg

theorem try_schedule_async_safe {f : Nat} {s : State} {cfg : Config} (hp : cfg.calm) (w : Nat)
    (t : task_t) (c : Bool) (h : AllGuarded f s) : Safe f (try_schedule_async cfg w s t c) := by
  unfold try_schedule_async
  split
  · exact safe_fault _ _
  · rename_i s1 t1 he
    exact rt_schedule_async_safe hp w t1 c (is_eligible_to_schedule_guarded he h)
  · rename_i s1 t1 he
    exact safe_ok (is_eligible_to_schedule_guarded he h)

theorem increment_async_counter_guarded {f : Nat} {s : State} (cfg : Config) (w : Nat)
    (h : AllGuarded f s) : AllGuarded f (increment_async_counter cfg s w) := by
  unfold increment_async_counter
  split
  · split
    · rename_i wr hw
      exact allGuarded_setWorker_of _ h hw rfl rfl
    · exact h
  · exact h

theorem increment_steals_counter_guarded {f : Nat} {s : State} (cfg : Config) (w : Nat)
    (h : AllGuarded f s) : AllGuarded f (increment_steals_counter cfg s w) := by
  unfold increment_steals_counter
  split
  · split
    · rename_i wr hw
      exact allGuarded_setWorker_of _ h hw rfl rfl
    · exact h
  · exact h

theorem increment_asyncComm_counter_guarded {f : Nat} {s : State} (cfg : Config)
    (h : AllGuarded f s) : AllGuarded f (increment_asyncComm_counter cfg s) := by
  unfold increment_asyncComm_counter
  split
  · exact h
  · exact h

theorem deque_push_place_guarded {f : Nat} {s : State} (cfg : Config) (pl : Nat) (t : task_t)
    (h : AllGuarded f s) : AllGuarded f (deque_push_place cfg s pl t).1 := by
  unfold deque_push_place
  split
  · exact h
  · rename_i pr hp
    split
    · exact allGuarded_setWorker_of _ h hp rfl rfl
    · exact h

theorem spawn_at_hpt_safe {f : Nat} {s : State} (cfg : Config) (w pl : Nat) (t : task_t)
    (h : AllGuarded f s) : Safe f (spawn_at_hpt cfg w s pl t) := by
  unfold spawn_at_hpt
  split
  · exact safe_fault _ _
  · rename_i s1 h1
    apply safe_ok
    exact increment_async_counter_guarded cfg w
      (deque_push_place_guarded cfg pl _ (check_in_finish_safe _ h s1 h1))

theorem spawn_safe {f : Nat} {s : State} {cfg : Config} (hp : cfg.calm) (w : Nat) (t : task_t)
    (h : AllGuarded f s) : Safe f (spawn cfg w s t) := by
  unfold spawn
  split
  · exact safe_fault _ _
  · rename_i s1 h1
    simp only
    split
    · exact safe_fault _ _
    · rename_i s2 h2
      apply safe_ok
      exact increment_async_counter_guarded cfg w
        (try_schedule_async_safe hp w _ _ (check_in_finish_safe _ h s1 h1) s2 h2)

theorem spawn_escaping_safe {f : Nat} {s : State} {cfg : Config} (hp : cfg.calm) (w : Nat)
    (t : task_t) (dl : Option (List Nat)) (h : AllGuarded f s) :
    Safe f (spawn_escaping cfg w s t dl) := by
  unfold spawn_escaping
  simp only
  split
  · exact safe_fault _ _
  · rename_i s2 h2
    apply safe_ok
    exact increment_async_counter_guarded cfg w (try_schedule_async_safe hp w _ _ h s2 h2)

theorem spawn_await_safe {f : Nat} {s : State} {cfg : Config} (hp : cfg.calm) (w : Nat)
    (t : task_t) (dl : Option (List Nat)) (h : AllGuarded f s) :
    Safe f (spawn_await cfg w s t dl) := by
  unfold spawn_await
  split
  · exact safe_fault _ _
  · rename_i s1 h1
    simp only
    split
    · exact safe_fault _ _
    · rename_i s2 h2
      apply safe_ok
      exact increment_async_counter_guarded cfg w
        (try_schedule_async_safe hp w _ _ (check_in_finish_safe _ h s1 h1) s2 h2)

theorem spawn_commTask_safe {f : Nat} {s : State} {cfg : Config} (hp : cfg.calm) (w : Nat)
    (t : task_t) (h : AllGuarded f s) : Safe f (spawn_commTask cfg w s t) := by
  unfold spawn_commTask
  split
  · split
    · exact safe_fault _ _
    · rename_i s1 h1
      exact try_schedule_async_safe hp w _ _ (check_in_finish_safe _ h s1 h1)
  · exact safe_fault _ _

theorem hpt_pop_task_guarded {f : Nat} {s s1 : State} {ws : Nat} {t : task_t}
    (h : hpt_pop_task s ws = some (t, s1)) (hg : AllGuarded f s) : AllGuarded f s1 := by
  unfold hpt_pop_task at h
  split at h
  · cases h
  · rename_i wr hw
    split at h
    · cases h
    · simp only [Option.some.injEq, Prod.mk.injEq] at h
      rw [← h.2]
      exact allGuarded_setWorker_of _ hg hw rfl rfl

theorem hpt_steal_task_guarded {f : Nat} {s s1 : State} {ws : Nat} {t : task_t}
    (h : hpt_steal_task s ws = some (t, s1)) (hg : AllGuarded f s) : AllGuarded f s1 := by
  obtain ⟨v, vr, rest, -, hvr, -, hs1⟩ := steal_scan_some _ h
  rw [hs1]
  exact allGuarded_setWorker_of _ hg hvr rfl rfl

theorem find_and_run_task_safe {f : Nat} {s : State} {cfg : Config} (hp : cfg.calm)
    (w ws : Nat) (h : AllGuarded f s) : Safe f (find_and_run_task cfg w s ws) := by
  unfold find_and_run_task
  split
  · rename_i t s1 h1
    exact execute_task_safe hp w t (hpt_pop_task_guarded h1 h)
  · exact safe_ok (allGuarded_push w _ h rfl rfl)

theorem find_steal_safe {f : Nat} {s : State} {cfg : Config} (hp : cfg.calm)
    (w ws : Nat) (h : AllGuarded f s) : Safe f (find_steal cfg w s ws) := by
  unfold find_steal
  split
  · exact safe_fault _ _
  · split
    · split
      · rename_i t s1 h1
        exact execute_task_safe hp w t
          (increment_steals_counter_guarded cfg ws (hpt_steal_task_guarded h1 h))
      · exact safe_ok (allGuarded_push w _ h rfl rfl)
    · exact safe_ok h

theorem slave_loop_safe {f : Nat} {s : State} {cfg : Config} (hp : cfg.calm)
    (w ws finish : Nat) (h : AllGuarded f s) : Safe f (slave_loop cfg w s ws finish) := by
  unfold slave_loop
  split
  · exact safe_fault _ _
  · split
    · simp only
      split
      · rename_i t s2 h1
        exact execute_task_safe hp w t (hpt_pop_task_guarded h1 (allGuarded_push w _ h rfl rfl))
      · exact safe_ok (allGuarded_push w _ (allGuarded_push w _ h rfl rfl) rfl rfl)
    · exact safe_ok h

theorem slave_steal_safe {f : Nat} {s : State} {cfg : Config} (hp : cfg.calm)
    (w ws finish : Nat) (h : AllGuarded f s) : Safe f (slave_steal cfg w s ws finish) := by
  unfold slave_steal
  split
  · exact safe_fault _ _
  · split
    · split
      · rename_i t s1 h1
        exact execute_task_safe hp w t
          (increment_steals_counter_guarded cfg ws (hpt_steal_task_guarded h1 h))
      · exact safe_ok (allGuarded_push w _ h rfl rfl)
    · exact safe_ok h

theorem master_loop_safe {f : Nat} {s : State} {cfg : Config} (hp : cfg.calm)
    (w finish : Nat) (h : AllGuarded f s) : Safe f (master_loop cfg w s finish) := by
  unfold master_loop
  split
  · exact safe_fault _ _
  · split
    · simp only
      split
      · exact safe_ok (allGuarded_push w _ h rfl rfl)
      · refine execute_task_safe hp w _ (increment_asyncComm_counter_guarded cfg ?_)
        exact allGuarded_push w _ h rfl rfl
    · exact safe_ok h

theorem crt_work_loop_safe {f : Nat} {s : State} {cfg : Config} (hp : cfg.calm)
    (w : Nat) (h : AllGuarded f s) : Safe f (crt_work_loop cfg w s) :=
  find_and_run_task_safe hp w w (allGuarded_push w _ h rfl rfl)

theorem crt_work_loop_cond_safe {f : Nat} {s : State} (w wid : Nat) (h : AllGuarded f s) :
    Safe f (crt_work_loop_cond w s wid) := by
  unfold crt_work_loop_cond
  split
  · exact safe_fault _ _
  · split
    · exact safe_ok (allGuarded_push w _ h rfl rfl)
    · split
      · exact safe_fault _ _
      · rename_i wr hw
        have hg := allGuarded_worker h (getWorker_ok hw)
        exact safe_ok (allGuarded_setWorker w _ h hg.2 hg.2)

theorem worker_routine_loop_safe {f : Nat} {s : State} {cfg : Config} (hp : cfg.calm)
    (w wid : Nat) (h : AllGuarded f s) : Safe f (worker_routine_loop cfg w s wid) := by
  unfold worker_routine_loop
  split
  · exact safe_fault _ _
  · split
    · exact find_and_run_task_safe hp w wid (allGuarded_push w _ h rfl rfl)
    · exact safe_ok h

theorem allGuarded_ctx_set {f : Nat} {s : State} (c : Nat) (k : Option (List Frame))
    (h : AllGuarded f s) (hk : ∀ st, k = some st → guarded f false st = true) :
    AllGuarded f { s with ctxs := s.ctxs.set c k } := by
  refine ⟨h.1, ?_⟩
  intro st hst
  rcases List.mem_or_eq_of_mem_set hst with hm | he
  · exact h.2 st hm
  · exact hk st he.symm

theorem _finish_ctx_resume_safe {f : Nat} {s : State} (w arg : Nat) (h : AllGuarded f s) :
    Safe f (_finish_ctx_resume w s arg) := by
  unfold _finish_ctx_resume
  split
  · rename_i k hk
    split
    · exact safe_fault _ _
    · rename_i wr hw
      apply safe_ok
      have hgk : guarded f false k = true := h.2 k (mem_of_getElem? hk)
      have hg := allGuarded_worker h (getWorker_ok hw)
      refine allGuarded_setWorker w _ (allGuarded_ctx_set arg none h ?_) hgk hg.2
      intro st hst
      cases hst
  · exact safe_fault _ _

theorem _help_finish_ctx_safe {f : Nat} {s : State} {cfg : Config} (hp : cfg.calm)
    (w finish prev : Nat) (h : AllGuarded f s) : Safe f (_help_finish_ctx cfg w s finish prev) := by
  unfold _help_finish_ctx
  split
  · exact safe_fault _ _
  · exact spawn_escaping_safe hp w _ _ (allGuarded_push w _ h rfl rfl)

theorem _help_finish_ctx_out_safe {f : Nat} {s : State} (cfg : Config)
    (w finish : Nat) (h : AllGuarded f s) : Safe f (_help_finish_ctx_out cfg w s finish) :=
  check_out_finish_safe cfg w _ (allGuarded_push w _ h rfl rfl)

theorem _help_finish_safe {f : Nat} {s : State} (cfg : Config)
    (w finish : Nat) (h : AllGuarded f s) : Safe f (_help_finish cfg w s finish) := by
  unfold _help_finish
  split
  · split
    · exact safe_ok (allGuarded_push w _ h rfl rfl)
    · exact safe_ok (allGuarded_push w _ h rfl rfl)
  · exact safe_ok (allGuarded_push w _ h rfl rfl)

theorem help_finish_safe {f : Nat} {s : State} (cfg : Config)
    (w finish : Nat) (h : AllGuarded f s) : Safe f (help_finish cfg w s finish) := by
  unfold help_finish
  split
  · split
    · exact safe_fault _ _
    · simp only [hclib_ddf_create]
      split
      · exact safe_fault _ _
      · rename_i wr hw
        apply safe_ok
        have hg := allGuarded_worker h (getWorker_ok hw)
        refine allGuarded_setWorker w _ ⟨h.1, ?_⟩ rfl hg.2
        intro k hk
        rcases List.mem_append.1 hk with hm | hm
        · exact h.2 k hm
        · simp only [List.mem_singleton, Option.some.injEq] at hm
          rw [hm]
          exact guarded_cons rfl rfl hg.1
  · exact _help_finish_safe cfg w finish (allGuarded_push w _ h rfl rfl)

theorem help_finish_ret_safe {f : Nat} {s : State} (cfg : Config)
    (finish : Nat) (dep : Option Nat) (h : AllGuarded f s) :
    Safe f (help_finish_ret cfg s finish dep) := by
  unfold help_finish_ret
  simp only
  split
  · exact safe_fault _ _
  · split
    · apply safe_ok
      split
      · split
        · exact h
        · exact h
      · exact h
    · exact safe_fault _ _

theorem hclib_start_finish_safe {f : Nat} {s : State} (w : Nat) (h : AllGuarded f s) :
    Safe f (hclib_start_finish w s) := by
  unfold hclib_start_finish
  split
  · exact safe_fault _ _
  · rename_i wr hw
    simp only
    split
    · exact safe_fault _ _
    · rename_i s2 h2
      apply safe_ok
      have h3 : AllGuarded f s2 := by
        refine check_in_finish_safe _ ?_ s2 h2
        exact h
      have hg := allGuarded_worker h (getWorker_ok hw)
      exact allGuarded_setWorker w _ h3 hg.1 hg.2

theorem hclib_end_finish_safe {f : Nat} {s : State} (cfg : Config) (w : Nat)
    (h : AllGuarded f s) : Safe f (hclib_end_finish cfg w s) := by
  unfold hclib_end_finish
  split
  · exact safe_fault _ _
  · split
    · exact safe_fault _ _
    · split
      · exact safe_fault _ _
      · simp only
        split
        · exact help_finish_safe cfg w _ (allGuarded_push w _ h rfl rfl)
        · exact safe_ok (allGuarded_push w _ h rfl rfl)

theorem end_finish_ret_safe {f : Nat} {s : State} (cfg : Config) (w ws g : Nat)
    (h : AllGuarded f s) : Safe f (end_finish_ret cfg w s ws g) := by
  unfold end_finish_ret
  split
  · exact safe_fault _ _
  · split
    · exact check_out_finish_safe cfg w _ (allGuarded_push w _ h rfl rfl)
    · exact safe_fault _ _

theorem end_finish_tail_safe {f : Nat} {s : State} (ws g : Nat)
    (h : AllGuarded f s) : Safe f (end_finish_tail s ws g) := by
  unfold end_finish_tail
  split
  · exact safe_fault _ _
  · split
    · exact safe_fault _ _
    · rename_i wr hw
      apply safe_ok
      show AllGuarded f (s.setWorker ws _)
      exact allGuarded_setWorker_of _ h (getWorker_ok hw) rfl rfl

theorem ddf_put_wake_safe {f : Nat} {s : State} {cfg : Config} (hp : cfg.calm) (w : Nat)
    (l : List task_t) (h : AllGuarded f s) : Safe f (ddf_put_wake cfg w s l) := by
  cases l with
  | nil => exact safe_ok h
  | cons t rest =>
    simp only [ddf_put_wake]
    split
    · exact safe_fault _ _
    · rename_i s1 t1 h1
      exact rt_schedule_async_safe hp w t1 false
        (iterate_ddt_frontier_from_guarded _ _ _ _ _ _ _ h1 (allGuarded_push w _ h rfl rfl))
    · rename_i s1 t1 h1
      exact safe_ok
        (iterate_ddt_frontier_from_guarded _ _ _ _ _ _ _ h1 (allGuarded_push w _ h rfl rfl))

theorem finalize_tail_safe {f : Nat} {s : State} (w : Nat) (h : AllGuarded f s) :
    Safe f (finalize_tail w s) := by
  apply safe_ok
  refine allGuarded_push w _ ?_ ?_ ?_
  · exact h
  · rfl
  · rfl

theorem hcpp_join_safe {f : Nat} {s : State} (w : Nat) (h : AllGuarded f s) :
    Safe f (hcpp_join w s) := by
  unfold hcpp_join
  split
  · exact safe_ok h
  · exact safe_ok (allGuarded_push w _ h rfl rfl)

theorem exec_cmd_safe {f : Nat} {s : State} {cfg : Config} (hp : cfg.calm) (w : Nat) (c : Cmd)
    (hc : c ≠ .finalize) (h : AllGuarded f s) : Safe f (exec_cmd cfg w s c) := by
  cases c with
  | start_finish => exact hclib_start_finish_safe w h
  | end_finish => exact hclib_end_finish_safe cfg w h
  | async n => exact spawn_safe hp w _ h
  | async_await n deps => exact spawn_await_safe hp w _ _ h
  | async_escaping n deps => exact spawn_escaping_safe hp w _ _ h
  | async_at pl n => exact spawn_at_hpt_safe cfg w pl _ h
  | async_comm n => exact spawn_commTask_safe hp w _ h
  | ddf_put p v => exact hclib_ddf_put_safe w p v h
  | work n => exact safe_ok h
  | ddf_create => exact safe_ok h
  | ddf_get p =>
    simp only [exec_cmd]
    split
    · exact safe_fault _ _
    · exact safe_ok h
  | finalize => exact absurd rfl hc

theorem exec_frame_safe {f : Nat} {s : State} {cfg : Config} (hp : cfg.calm) (w : Nat)
    (fr : Frame) (hc : fr.calm = true) (hs : fr.signals = false) (h : AllGuarded f s) :
    Safe f (exec_frame cfg w s fr) := by
  cases fr with
  | user cs =>
    cases cs with
    | nil => exact safe_ok h
    | cons c cs =>
      simp only [Frame.calm, decide_eq_true_eq, List.mem_cons, not_or] at hc
      refine exec_cmd_safe hp w c (fun e => hc.1 e.symm) (allGuarded_push w _ h ?_ rfl)
      simp only [Frame.calm, decide_eq_true_eq]
      exact hc.2
  | finish_ctx_resume arg => exact _finish_ctx_resume_safe w arg h
  | execute_task_ret g => exact check_out_finish_safe cfg w g h
  | end_finish_ret ws g => exact end_finish_ret_safe cfg w ws g h
  | end_finish_tail ws g => exact end_finish_tail_safe ws g h
  | help_finish_ret g dep => exact help_finish_ret_safe cfg g dep h
  | help_finish_ctx g prev => exact _help_finish_ctx_safe hp w g prev h
  | help_finish_ctx_out g => exact _help_finish_ctx_out_safe cfg w g h
  | crt_work_loop => exact crt_work_loop_safe hp w h
  | crt_work_loop_cond wid => exact crt_work_loop_cond_safe w wid h
  | find_steal ws => exact find_steal_safe hp w ws h
  | worker_routine_loop wid => exact worker_routine_loop_safe hp w wid h
  | slave_loop ws g => exact slave_loop_safe hp w ws g h
  | slave_steal ws g => exact slave_steal_safe hp w ws g h
  | master_loop g => exact master_loop_safe hp w g h
  | ddf_put_wake l => exact ddf_put_wake_safe hp w l h
  | hclib_finalize_ctx => cases hc
  | finalize_ctx_ret => cases hs
  | finalize_signal => cases hs
  | finalize_tail => exact finalize_tail_safe w h
  | hcpp_join => exact hcpp_join_safe w h
theorem allGuarded_of_quiet (f : Nat) {s : State} (h : quiet s = true) : AllGuarded f s := by
  simp only [quiet, Bool.and_eq_true, List.all_eq_true] at h
  refine ⟨fun wr hwr => ?_, fun k hk => ?_⟩
  · exact ⟨guarded_of_quiet f _ _ (h.1 wr hwr).1, guarded_of_quiet f _ _ (h.1 wr hwr).2⟩
  · exact guarded_of_quiet f _ _ (h.2 (some k) hk)

theorem quiet_worker {s : State} {w : Nat} {wr : hc_workerState} (h : quiet s = true)
    (hw : s.workers[w]? = some wr) :
    quiet_stack wr.stack = true ∧ quiet_stack wr.orig_ctx = true := by
  simp only [quiet, Bool.and_eq_true, List.all_eq_true] at h
  exact h.1 wr (mem_of_getElem? hw)

theorem guarded_true_append (f : Nat) : ∀ (frs st : List Frame),
    (∀ fr ∈ frs, fr.calm = true) → guarded f true st = true → guarded f true (frs ++ st) = true
  | [], _, _, h => h
  | fr :: frs, st, hc, h => by
    simp only [List.cons_append, guarded, Bool.or_true, Bool.true_or, Bool.and_true,
      Bool.and_eq_true]
    exact ⟨hc fr (List.mem_cons_self _ _),
      guarded_true_append f frs st (fun x hx => hc x (List.mem_cons_of_mem _ hx)) h⟩

/-- Entering `hclib_end_finish` on the scope `f` with frames below that may
call `hcpp_signal_join`: the frame of `hclib_end_finish` guards them. -/
theorem hclib_end_finish_arms {f : Nat} {s : State} {w : Nat} {wr : hc_workerState}
    (cfg : Config) (hw : s.workers[w]? = some wr) (hcf : wr.current_finish = some f)
    (hst : guarded f true wr.stack = true) (hor : guarded f false wr.orig_ctx = true)
    (hrest : AllGuarded f (s.setWorker w { wr with stack := [] })) :
    Safe f (hclib_end_finish cfg w s) := by
  have hpush : AllGuarded f (s.push w (.end_finish_ret w f)) := by
    rw [push_of_some _ hw, ← setWorker_setWorker s w { wr with stack := [] }]
    refine allGuarded_setWorker w _ hrest ?_ hor
    simp only [guarded, Frame.calm, Frame.signals, Frame.closes, decide_True, Bool.not_false,
      Bool.or_true, Bool.true_or, Bool.and_self, Bool.true_and]
    exact hst
  have hget : s.getWorker w = .ok wr := by simp [State.getWorker, hw]
  unfold hclib_end_finish
  simp only [hget, hcf]
  split
  · exact safe_fault _ _
  · split
    · exact help_finish_safe cfg w f hpush
    · exact safe_ok hpush

theorem end_finish_arms_after_push {f : Nat} {s0 : State} {w : Nat} {wr : hc_workerState}
    (cfg : Config) (hq : quiet s0 = true) (hw : s0.workers[w]? = some wr)
    (hcf : wr.current_finish = some f) (frs : List Frame) (hfrs : ∀ fr ∈ frs, fr.calm = true) :
    Safe f (hclib_end_finish cfg w (s0.setWorker w { wr with stack := frs ++ wr.stack })) := by
  have hqw := quiet_worker hq hw
  refine hclib_end_finish_arms cfg (workers_setWorker_same _ hw) hcf ?_ ?_ ?_
  · exact guarded_true_append f frs _ hfrs (guarded_of_quiet f _ _ hqw.1)
  · exact guarded_of_quiet f _ _ hqw.2
  · rw [setWorker_setWorker]
    exact allGuarded_setWorker w _ (allGuarded_of_quiet f hq) rfl (guarded_of_quiet f _ _ hqw.2)

theorem push_push_of_some {s : State} {w : Nat} {wr : hc_workerState} (a b : Frame)
    (h : s.workers[w]? = some wr) :
    (s.push w a).push w b = s.setWorker w { wr with stack := [b, a] ++ wr.stack } := by
  rw [push_of_some a h, push_of_some b (workers_setWorker_same _ h), setWorker_setWorker]
  rfl

theorem finalize_entry_safe {f : Nat} {s0 s : State} {w : Nat} {wr : hc_workerState}
    (cfg : Config) (hq : quiet s0 = true) (hw : s0.workers[w]? = some wr)
    (hcf : wr.current_finish = some f)
    (hcall : (cfg.litectx = false ∧ hclib_finalize cfg w s0 = .ok s) ∨
      (cfg.litectx = true ∧ _hclib_finalize_ctx cfg w s0 = .ok s)) :
    AllGuarded f s ∧ flags s = flags s0 := by
  rcases hcall with ⟨hl, h⟩ | ⟨-, h⟩
  · have hk := hclib_finalize_keeps cfg w s0 s h
    refine ⟨?_, hk⟩
    simp only [hclib_finalize, hl, Bool.false_eq_true, if_false] at h
    rw [push_push_of_some _ _ hw] at h
    refine end_finish_arms_after_push cfg hq hw hcf _ ?_ s h
    intro fr hfr
    simp only [List.mem_cons, List.mem_singleton, List.not_mem_nil, or_false] at hfr
    rcases hfr with rfl | rfl <;> rfl
  · have hk := _hclib_finalize_ctx_keeps cfg w s0 s h
    refine ⟨?_, hk⟩
    simp only [_hclib_finalize_ctx] at h
    rw [push_of_some _ hw] at h
    refine end_finish_arms_after_push cfg hq hw hcf [.finalize_ctx_ret] ?_ s h
    intro fr hfr
    simp only [List.mem_singleton] at hfr
    rw [hfr]
    rfl

/-- One step from a state with every stack guarded: the flags are kept, and
either the stacks are guarded again or the step was the end of
`hclib_end_finish` on `f`, which freed the scope. -/
theorem step_guarded {f : Nat} {cfg : Config} (hp : cfg.calm) (v : Nat) (t t1 : State)
    (hg : AllGuarded f t) (h : step cfg v t = .ok t1) :
    flags t1 = flags t ∧
      (AllGuarded f t1 ∨
        ((∃ ws, (t.stack v).head? = some (.end_finish_tail ws f)) ∧
          t1.finishes[f]? = some none)) := by
  unfold step at h
  split at h
  · cases h
    exact ⟨rfl, Or.inl hg⟩
  · rename_i wr hw
    split at h
    · cases h
      exact ⟨rfl, Or.inl hg⟩
    · rename_i fr rest hst
      have hgw := allGuarded_worker hg hw
      rw [hst] at hgw
      have hg1 := hgw.1
      simp only [guarded, Bool.or_false, Bool.false_or, Bool.and_eq_true,
        Bool.not_eq_true'] at hg1
      obtain ⟨⟨hcalm, hsig⟩, hrest⟩ := hg1
      have hfl : flags t1 = flags t :=
        (exec_frame_keeps cfg v _ fr hsig t1 h).trans (flags_setWorker_stack hw rest)
      refine ⟨hfl, ?_⟩
      cases hcl : fr.closes f
      · left
        rw [hcl] at hrest
        have hg0 : AllGuarded f (t.setWorker v { wr with stack := rest }) :=
          allGuarded_setWorker v _ hg hrest hgw.2
        exact exec_frame_safe hp v fr hcalm hsig hg0 t1 h
      · rw [hcl] at hrest
        have hrest0 : AllGuarded f (t.setWorker v { wr with stack := [] }) :=
          allGuarded_setWorker v _ hg rfl hgw.2
        cases fr <;> simp only [Frame.closes, decide_eq_true_eq, Bool.false_eq_true] at hcl
        · rename_i ws g
          left
          subst hcl
          simp only [exec_frame, end_finish_ret] at h
          split at h
          · cases h
          · split at h
            · refine check_out_finish_safe cfg v _ ?_ t1 h
              rw [push_of_some _ (workers_setWorker_same _ hw), setWorker_setWorker,
                ← setWorker_setWorker t v { wr with stack := [] }]
              refine allGuarded_setWorker v _ hrest0 ?_ hgw.2
              simp only [guarded, Frame.calm, Frame.signals, Frame.closes, decide_True,
                Bool.not_false, Bool.or_true, Bool.true_or, Bool.and_self, Bool.true_and]
              exact hrest
            · cases h
        · rename_i ws g
          right
          subst hcl
          refine ⟨⟨ws, ?_⟩, ?_⟩
          · rw [stack_of_some hw, hst]
            rfl
          · simp only [exec_frame, end_finish_tail] at h
            split at h
            · cases h
            · rename_i fin hfin
              split at h
              · cases h
              · cases h
                have hlt : g < t.finishes.length := by
                  unfold State.getFinish at hfin
                  split at hfin
                  · rename_i hh
                    exact getElem?_lt hh
                  · cases hfin
                simp [State.setWorker, List.getElem?_set_self, hlt]

theorem run_guarded {f : Nat} {cfg : Config} (hp : cfg.calm) :
    ∀ (sched : List Nat) (t s1 : State), AllGuarded f t → run cfg sched t = .ok s1 →
      flags s1 = flags t ∨
        ∃ pre v post u u1 ws, sched = pre ++ v :: post ∧ run cfg pre t = .ok u ∧
          (u.stack v).head? = some (.end_finish_tail ws f) ∧ step cfg v u = .ok u1 ∧
          flags u1 = flags t ∧ u1.finishes[f]? = some none
  | [], t, s1, _, h => by
    simp only [run, Res.ok.injEq] at h
    rw [← h]
    exact Or.inl rfl
  | v :: sched, t, s1, hg, h => by
    simp only [run] at h
    cases hst : step cfg v t with
    | fault e =>
      rw [hst] at h
      cases h
    | ok t2 =>
      rw [hst] at h
      obtain ⟨hfl, hcase⟩ := step_guarded hp v t t2 hg hst
      rcases hcase with hg2 | ⟨⟨ws, hhead⟩, hfree⟩
      · rcases run_guarded hp sched t2 s1 hg2 h with hk | ⟨pre, x, post, u, u1, ws, e, hr, hh, hs, hf, hz⟩
        · exact Or.inl (hk.trans hfl)
        · right
          refine ⟨v :: pre, x, post, u, u1, ws, by rw [e]; rfl, ?_, hh, hs, hf.trans hfl, hz⟩
          simp only [run, hst]
          exact hr
      · right
        exact ⟨[], v, sched, t, t2, ws, rfl, rfl, hhead, hst, hfl, hfree⟩

/-! ## Lemmas on the UTS benchmark -/

namespace Uts

theorem sum_map_eraseIdx {α : Type} (f : α → Nat) :
    ∀ (l : List α) (c : Nat) (a : α), l[c]? = some a →
      ((l.eraseIdx c).map f).sum + f a = (l.map f).sum
  | [], _, _, h => by simp at h
  | x :: l, 0, a, h => by
    simp only [List.getElem?_cons_zero, Option.some.injEq] at h
    simp only [List.eraseIdx_cons_zero, List.map_cons, List.sum_cons, h]
    omega
  | x :: l, c + 1, a, h => by
    simp only [List.getElem?_cons_succ] at h
    have ih := sum_map_eraseIdx f l c a h
    simp only [List.eraseIdx_cons_succ, List.map_cons, List.sum_cons]
    omega

theorem Forest.length_pos_iff (f : Forest) : 0 < f.length ↔ f ≠ .nil := by
  cases f <;> simp [Forest.length]

end Uts

/-! ## Lemmas on the fib test -/

namespace Fib

theorem fib_46 : Nat.fib 46 = 1836311903 := by norm_num [Nat.fib_add_two]

theorem fib_47 : Nat.fib 47 = 2971215073 := by norm_num [Nat.fib_add_two]

theorem fib_int (k : Nat) (h : k ≤ 46) :
    INT_MIN ≤ (Nat.fib k : Int) ∧ (Nat.fib k : Int) ≤ INT_MAX := by
  have h1 : Nat.fib k ≤ Nat.fib 46 := Nat.fib_mono h
  rw [fib_46] at h1
  simp only [INT_MIN, INT_MAX]
  omega

theorem sum_puts_append (p : Nat) (l : List FibTask) (t : FibTask) :
    ((l ++ [t]).map (puts p)).sum = (l.map (puts p)).sum + puts p t := by
  simp

theorem inv_unput {st : FibState} {E : Nat → Int} {r : Nat} {O : List Nat}
    (h : Inv st E (r :: O)) :
    st.ddfs[r]? = some none ∧ (st.pool.map (puts r)).sum = 0 ∧ O.count r = 0 := by
  have hc := h.2.1 r
  simp only [List.count_cons_self] at hc
  by_cases hr : st.ddfs[r]? = some none
  · simp only [hr, if_true] at hc
    exact ⟨hr, by omega, by omega⟩
  · simp only [hr, if_false] at hc
    omega

theorem sum_puts_pos (p : Nat) : ∀ (l : List FibTask) (t : FibTask), t ∈ l → t.res = p →
    0 < (l.map (puts p)).sum
  | [], _, h, _ => by cases h
  | x :: l, t, h, hp => by
    simp only [List.map_cons, List.sum_cons]
    rcases List.mem_cons.1 h with h1 | h1
    · rw [← h1]
      simp [puts, hp]
    · have := sum_puts_pos p l t h1 hp
      omega

theorem inv_res_lt {st : FibState} {E : Nat → Int} {O : List Nat} (h : Inv st E O)
    {t : FibTask} (ht : t ∈ st.pool) : st.ddfs[t.res]? = some none := by
  have hc := h.2.1 t.res
  have hpos : 0 < (st.pool.map (puts t.res)).sum := sum_puts_pos _ _ t ht rfl
  by_cases hr : st.ddfs[t.res]? = some none
  · exact hr
  · simp only [hr, if_false] at hc
    omega

theorem wf_mono {E E1 : Nat → Int} {len len1 : Nat} {t : FibTask}
    (hres : t.res < len) (hE : ∀ p, p < len → E1 p = E p) (hl : len ≤ len1)
    (h : t.wf E len) : t.wf E1 len1 := by
  cases t with
  | fib n res =>
    obtain ⟨h1, h2⟩ : E res = (Nat.fib n.toNat : Int) ∧ n ≤ 47 := h
    exact ⟨(hE res hres).trans h1, h2⟩
  | sum f1 f2 res =>
    obtain ⟨h1, h2, h3, h4, h5⟩ :
      res < f1 ∧ res < f2 ∧ f1 < len ∧ f2 < len ∧ E res = E f1 + E f2 := h
    refine ⟨h1, h2, by omega, by omega, ?_⟩
    rw [hE res (by omega), hE f1 h3, hE f2 h4]
    exact h5

/-- Creating a promise that is due the `int` `v`. -/
theorem inv_create {st : FibState} {E : Nat → Int} {O : List Nat} (h : Inv st E O) (v : Int)
    (hv : INT_MIN ≤ v ∧ v ≤ INT_MAX) :
    Inv (ddf_create st).1 (Function.update E st.ddfs.length v) (st.ddfs.length :: O) := by
  have hlen : (ddf_create st).1.ddfs = st.ddfs ++ [none] := rfl
  have hpool : (ddf_create st).1.pool = st.pool := rfl
  have hget : ∀ p, p ≠ st.ddfs.length → (st.ddfs ++ [none])[p]? = st.ddfs[p]? := by
    intro p hp
    by_cases hlt : p < st.ddfs.length
    · exact List.getElem?_append_left hlt
    · rw [List.getElem?_eq_none (by simp; omega), List.getElem?_eq_none (by omega)]
  have hnew : (st.ddfs ++ [none])[st.ddfs.length]? = some none := by simp
  refine ⟨?_, ?_, ?_, ?_⟩
  · intro p x hp
    rw [hlen] at hp
    by_cases hpl : p = st.ddfs.length
    · rw [hpl, hnew] at hp
      cases hp
    · rw [hget p hpl] at hp
      rw [Function.update_noteq hpl]
      exact h.1 p x hp
  · intro p
    rw [hlen, hpool]
    have hc := h.2.1 p
    by_cases hpl : p = st.ddfs.length
    · subst hpl
      rw [List.getElem?_eq_none (Nat.le_refl _)] at hc
      simp only [reduceCtorEq, if_false] at hc
      simp only [hnew, if_true, List.count_cons_self]
      omega
    · rw [hget p hpl, List.count_cons_of_ne hpl]
      exact hc
  · intro t ht
    rw [hpool] at ht
    have hr := inv_res_lt h ht
    have hrl : t.res < st.ddfs.length := getElem?_lt hr
    refine wf_mono hrl ?_ (by rw [hlen]; simp) (h.2.2.1 t ht)
    intro p hp
    exact Function.update_noteq (by omega) _ _
  · intro p hp1 hp2
    rw [hlen] at hp2
    simp only [List.length_append, List.length_singleton] at hp2
    by_cases hpl : p = st.ddfs.length
    · rw [hpl, Function.update_same]
      exact hv
    · rw [Function.update_noteq hpl]
      exact h.2.2.2 p hp1 (by omega)

/-- Spawning the task that will put the promise `r` the running code owes. -/
theorem inv_spawn {st : FibState} {E : Nat → Int} {r : Nat} {O : List Nat}
    (h : Inv st E (r :: O)) (t : FibTask) (hr : t.res = r) (hwf : t.wf E st.ddfs.length) :
    Inv (async st t) E O := by
  refine ⟨h.1, ?_, ?_, h.2.2.2⟩
  · intro p
    have hc := h.2.1 p
    show ((st.pool ++ [t]).map (puts p)).sum + O.count p =
      if st.ddfs[p]? = some none then 1 else 0
    rw [sum_puts_append]
    by_cases hp : r = p
    · subst hp
      simp only [List.count_cons_self] at hc
      simp only [puts, hr, if_true]
      omega
    · rw [List.count_cons_of_ne (Ne.symm hp)] at hc
      simp only [puts, hr, hp, if_false]
      omega
  · intro x hx
    rcases List.mem_append.1 hx with hx | hx
    · exact h.2.2.1 x hx
    · rw [List.mem_singleton.1 hx]
      exact hwf

/-- Putting the due value into the promise `r` the running code owes. -/
theorem inv_put {st : FibState} {E : Nat → Int} {r : Nat} {O : List Nat}
    (h : Inv st E (r :: O)) (v : Int) (hv : v = E r) (hrange : INT_MIN ≤ v ∧ v ≤ INT_MAX) :
    ∃ st1, ddf_put st r v = .ok st1 ∧ Inv st1 E O ∧ st1.pool = st.pool ∧
      st1.ddfs.length = st.ddfs.length := by
  obtain ⟨hun, hsum, hcnt⟩ := inv_unput h
  have hrl : r < st.ddfs.length := getElem?_lt hun
  refine ⟨{ st with ddfs := st.ddfs.set r (some v) }, by simp [ddf_put, hun], ?_, rfl, by simp⟩
  refine ⟨?_, ?_, ?_, ?_⟩
  · intro p x hp
    by_cases hpr : r = p
    · subst hpr
      simp only [List.getElem?_set_self hrl, Option.some.injEq] at hp
      rw [← hp]
      exact ⟨hv, hrange⟩
    · simp only [List.getElem?_set_ne hpr] at hp
      exact h.1 p x hp
  · intro p
    have hc := h.2.1 p
    by_cases hpr : r = p
    · subst hpr
      simp only [List.getElem?_set_self hrl, Option.some.injEq, reduceCtorEq, if_false]
      omega
    · rw [List.count_cons_of_ne (Ne.symm hpr)] at hc
      simp only [List.getElem?_set_ne hpr]
      exact hc
  · intro t ht
    have := h.2.2.1 t ht
    simpa using this
  · intro p hp1 hp2
    exact h.2.2.2 p hp1 (by simpa using hp2)

/-- Taking a task from the pool: its promise is owed by the code that runs. -/
theorem inv_take {st : FibState} {E : Nat → Int} {O : List Nat} (h : Inv st E O) (i : Nat)
    (t : FibTask) (hi : st.pool[i]? = some t) :
    Inv { st with pool := st.pool.eraseIdx i } E (t.res :: O) := by
  refine ⟨h.1, ?_, ?_, h.2.2.2⟩
  · intro p
    have hc := h.2.1 p
    have he := Uts.sum_map_eraseIdx (puts p) st.pool i t hi
    show ((st.pool.eraseIdx i).map (puts p)).sum + (t.res :: O).count p =
      if st.ddfs[p]? = some none then 1 else 0
    by_cases hp : t.res = p
    · subst hp
      simp only [puts, if_true] at he
      simp only [List.count_cons_self]
      omega
    · simp only [puts, hp, if_false] at he
      rw [List.count_cons_of_ne (Ne.symm hp)]
      omega
  · intro x hx
    exact h.2.2.1 x (List.mem_of_mem_eraseIdx hx)

theorem todo_async (st : FibState) (t : FibTask) : todo (async st t) = todo st + t.size := by
  simp [todo, async]

/-- The call `fib(k, res)` for `0 ≤ k ≤ 47` on a promise `res` that is owed
and due the `k`-th Fibonacci number: it returns, `res` is put or has its task,
and the tasks it leaves stand for `spawned k` executions. -/
theorem fib_from_spec :
    ∀ (k res : Nat) (st : FibState) (E : Nat → Int) (O : List Nat),
      Inv st E (res :: O) → E res = (Nat.fib k : Int) → k ≤ 47 →
      (res = 0 ∨ k ≤ 46) →
      ∃ st1 E1, fib_from k res st = .ok st1 ∧ Inv st1 E1 O ∧
        (∀ p, p < st.ddfs.length → E1 p = E p) ∧ st.ddfs.length ≤ st1.ddfs.length ∧
        todo st1 = todo st + spawned k
  | 0, res, st, E, O, h, hE, _, _ => by
    obtain ⟨st1, h1, h2, h3, h4⟩ := inv_put h 0 (by rw [hE]; rfl) (by decide)
    exact ⟨st1, E, h1, h2, fun _ _ => rfl, by omega, by simp [todo, h3, spawned]⟩
  | 1, res, st, E, O, h, hE, _, _ => by
    obtain ⟨st1, h1, h2, h3, h4⟩ := inv_put h 1 (by rw [hE]; rfl) (by decide)
    exact ⟨st1, E, h1, h2, fun _ _ => rfl, by omega, by simp [todo, h3, spawned]⟩
  | k + 2, res, st, E, O, h, hE, hk, _ => by
    have hres : res < st.ddfs.length := getElem?_lt (inv_unput h).1
    have hcast : (((k + 2 : Nat) : Int) - 1).toNat = k + 1 := by omega
    have ha := inv_create h (Nat.fib (k + 1) : Int) (fib_int (k + 1) (by omega))
    have hwf1 : (FibTask.fib ((k + 2 : Nat) - 1) st.ddfs.length).wf
        (Function.update E st.ddfs.length (Nat.fib (k + 1) : Int))
        (ddf_create st).1.ddfs.length := by
      refine ⟨?_, by omega⟩
      rw [Function.update_same, hcast]
    have hb := inv_spawn ha (FibTask.fib ((k + 2 : Nat) - 1) st.ddfs.length) rfl hwf1
    have hlen2 : (async (ddf_create st).1 (.fib ((k + 2 : Nat) - 1) st.ddfs.length)).ddfs.length
        = st.ddfs.length + 1 := by
      simp [async, ddf_create]
    have htodo2 : todo (async (ddf_create st).1 (.fib ((k + 2 : Nat) - 1) st.ddfs.length))
        = todo st + (1 + spawned (k + 1)) := by
      have hsz : (FibTask.fib ((k + 2 : Nat) - 1) st.ddfs.length).size = 1 + spawned (k + 1) := by
        simp only [FibTask.size, hcast]
      rw [todo_async, hsz]
      rfl
    set st2 := async (ddf_create st).1 (.fib ((k + 2 : Nat) - 1) st.ddfs.length) with hst2
    have hc := inv_create hb (Nat.fib k : Int) (fib_int k (by omega))
    have hlen3 : (ddf_create st2).1.ddfs.length = st.ddfs.length + 2 := by
      simp [ddf_create, hlen2]
    have htodo3 : todo (ddf_create st2).1 = todo st2 := rfl
    obtain ⟨st4, E4, h4, hinv4, hE4, hl4, ht4⟩ :=
      fib_from_spec k st2.ddfs.length (ddf_create st2).1 _ (res :: O) hc
        (by rw [Function.update_same]) (by omega) (Or.inr (by omega))
    have hE4res : E4 res = E res := by
      rw [hE4 res (by omega), Function.update_noteq (by omega), Function.update_noteq (by omega)]
    have hE4f1 : E4 st.ddfs.length = (Nat.fib (k + 1) : Int) := by
      rw [hE4 _ (by omega), Function.update_noteq (by omega), Function.update_same]
    have hE4f2 : E4 st2.ddfs.length = (Nat.fib k : Int) := by
      rw [hE4 _ (by omega), Function.update_same]
    have hwfs : (FibTask.sum st.ddfs.length st2.ddfs.length res).wf E4 st4.ddfs.length := by
      refine ⟨hres, by omega, by omega, by omega, ?_⟩
      rw [hE4res, hE, hE4f1, hE4f2, Nat.fib_add_two]
      push_cast
      ring
    have hfin := inv_spawn hinv4 (FibTask.sum st.ddfs.length st2.ddfs.length res) rfl hwfs
    have hgoal : fib_from (k + 2) res st =
        (match fib_from k st2.ddfs.length (ddf_create st2).1 with
          | .fault e => .fault e
          | .ok st4 => .ok (asyncAwait st4 (.sum st.ddfs.length st2.ddfs.length res))) := rfl
    refine ⟨asyncAwait st4 (.sum st.ddfs.length st2.ddfs.length res), E4, ?_, hfin, ?_, ?_, ?_⟩
    · rw [hgoal, h4]
    · intro p hp
      rw [hE4 p (by omega), Function.update_noteq (by omega), Function.update_noteq (by omega)]
    · show st.ddfs.length ≤ st4.ddfs.length
      omega
    · have h5 : todo (asyncAwait st4 (.sum st.ddfs.length st2.ddfs.length res))
          = todo st4 + 1 := todo_async st4 _
      rw [h5, ht4, htodo3, htodo2]
      simp only [spawned]
      omega

theorem fib_spec (n : Int) (res : Nat) (st : FibState) (E : Nat → Int) (O : List Nat)
    (h : Inv st E (res :: O)) (hE : E res = (Nat.fib n.toNat : Int)) (hn : n ≤ 47)
    (hr : res = 0 ∨ n ≤ 46) :
    ∃ st1 E1, fib n res st = .ok st1 ∧ Inv st1 E1 O ∧
      (∀ p, p < st.ddfs.length → E1 p = E p) ∧ st.ddfs.length ≤ st1.ddfs.length ∧
      todo st1 = todo st + spawned n.toNat := by
  cases n with
  | ofNat k =>
    have hk : k ≤ 47 := by
      have : ((k : Nat) : Int) ≤ 47 := hn
      omega
    have hr1 : res = 0 ∨ k ≤ 46 := by
      rcases hr with hr | hr
      · exact Or.inl hr
      · right
        have : ((k : Nat) : Int) ≤ 46 := hr
        omega
    exact fib_from_spec k res st E O h hE hk hr1
  | negSucc k =>
    obtain ⟨st1, h1, h2, h3, h4⟩ := inv_put h 0 (by rw [hE]; rfl) (by decide)
    exact ⟨st1, E, h1, h2, fun _ _ => rfl, by omega, by simp [todo, h3, spawned]⟩

theorem todo_erase (st : FibState) (i : Nat) (t : FibTask) (hi : st.pool[i]? = some t) :
    todo { st with pool := st.pool.eraseIdx i } + t.size = todo st :=
  Uts.sum_map_eraseIdx FibTask.size st.pool i t hi

/-- Running a ready task from a state that satisfies the invariant: the task
returns and the invariant holds again, with one execution less to come; or the
task is the one that puts the result promise, the result is not an `int`, and
the addition overflows. -/
theorem step_spec (st : FibState) (E : Nat → Int) (i : Nat) (t : FibTask)
    (h : Inv st E []) (hi : st.pool[i]? = some t) (hr : ready st t = true) :
    (∃ st1 E1, step st i = .ok st1 ∧ Inv st1 E1 [] ∧
      (∀ p, p < st.ddfs.length → E1 p = E p) ∧ st.ddfs.length ≤ st1.ddfs.length ∧
      todo st1 + 1 = todo st) ∨
    (step st i = .fault .undefined ∧ ¬ (INT_MIN ≤ E 0 ∧ E 0 ≤ INT_MAX)) := by
  have hstep : step st i = run_task { st with pool := st.pool.eraseIdx i } t := by
    simp [step, hi, hr]
  have htake := inv_take h i t hi
  have hwf := h.2.2.1 t (mem_of_getElem? hi)
  have hte := todo_erase st i t hi
  rw [hstep]
  cases t with
  | fib n res =>
    obtain ⟨hE, hn⟩ : E res = (Nat.fib n.toNat : Int) ∧ n ≤ 47 := hwf
    left
    have hres : res < st.ddfs.length := getElem?_lt (inv_res_lt h (mem_of_getElem? hi))
    have hr46 : res = 0 ∨ n ≤ 46 := by
      by_cases h0 : res = 0
      · exact Or.inl h0
      · right
        have hrg := h.2.2.2 res (by omega) hres
        rw [hE] at hrg
        by_contra hcon
        have h47 : n = 47 := by omega
        rw [h47] at hrg
        have : (47 : Int).toNat = 47 := rfl
        rw [this, fib_47] at hrg
        simp only [INT_MAX] at hrg
        omega
    obtain ⟨st1, E1, h1, h2, h3, h4, h5⟩ := fib_spec n res _ E [] htake hE hn hr46
    refine ⟨st1, E1, h1, h2, h3, h4, ?_⟩
    simp only [FibTask.size] at hte
    omega
  | sum f1 f2 res =>
    obtain ⟨h1, h2, h3, h4, h5⟩ :
      res < f1 ∧ res < f2 ∧ f1 < st.ddfs.length ∧ f2 < st.ddfs.length ∧
        E res = E f1 + E f2 := hwf
    simp only [ready, Bool.and_eq_true] at hr
    obtain ⟨hr1, hr2⟩ := hr
    cases hf1 : st.ddfs[f1]? with
    | none => simp [hf1] at hr1
    | some o1 =>
      cases o1 with
      | none => simp [hf1] at hr1
      | some a =>
        cases hf2 : st.ddfs[f2]? with
        | none => simp [hf2] at hr2
        | some o2 =>
          cases o2 with
          | none => simp [hf2] at hr2
          | some b =>
            have ha := h.1 f1 a hf1
            have hb := h.1 f2 b hf2
            have hg1 : ddf_get { st with pool := st.pool.eraseIdx i } f1 = .ok a := by
              simp [ddf_get, hf1]
            have hg2 : ddf_get { st with pool := st.pool.eraseIdx i } f2 = .ok b := by
              simp [ddf_get, hf2]
            simp only [run_task, hg1, hg2]
            by_cases hrange : INT_MIN ≤ a + b ∧ a + b ≤ INT_MAX
            · left
              have hadd : int_add a b = .ok (a + b) := by simp [int_add, hrange]
              simp only [hadd]
              obtain ⟨st1, e1, e2, e3, e4⟩ :=
                inv_put htake (a + b) (by
                  show a + b = E res
                  rw [h5, ha.1, hb.1]) hrange
              refine ⟨st1, E, e1, e2, fun _ _ => rfl, by rw [e4], ?_⟩
              have : todo st1 = todo { st with pool := st.pool.eraseIdx i } := by
                simp [todo, e3]
              simp only [FibTask.size] at hte
              omega
            · right
              have hadd : int_add a b = .fault .undefined := by simp [int_add, hrange]
              refine ⟨by simp only [hadd], ?_⟩
              intro h0
              apply hrange
              rw [ha.1, hb.1, ← h5]
              by_cases hres0 : res = 0
              · rw [hres0]
                exact h0
              · exact h.2.2.2 res (by omega) (by omega)

theorem fib_run_append : ∀ (a b : List Nat) (st : FibState),
    run (a ++ b) st = (run a st).bind (run b)
  | [], _, _ => rfl
  | i :: a, b, st => by
    simp only [List.cons_append, run]
    cases step st i with
    | fault e => rfl
    | ok st1 => exact fib_run_append a b st1

/-- Any entry of a schedule from a state that satisfies the invariant. -/
theorem step_any (st : FibState) (E : Nat → Int) (i : Nat) (h : Inv st E [])
    (hlen : 0 < st.ddfs.length) :
    (∃ st1 E1, step st i = .ok st1 ∧ Inv st1 E1 [] ∧ E1 0 = E 0 ∧ 0 < st1.ddfs.length) ∨
    (step st i = .fault .undefined ∧ ¬ (INT_MIN ≤ E 0 ∧ E 0 ≤ INT_MAX)) := by
  cases hi : st.pool[i]? with
  | none => exact Or.inl ⟨st, E, by simp [step, hi], h, rfl, hlen⟩
  | some t =>
    by_cases hr : ready st t = true
    · rcases step_spec st E i t h hi hr with ⟨st1, E1, h1, h2, h3, h4, -⟩ | hf
      · exact Or.inl ⟨st1, E1, h1, h2, h3 0 hlen, by omega⟩
      · exact Or.inr hf
    · exact Or.inl ⟨st, E, by simp [step, hi, hr], h, rfl, hlen⟩

theorem run_spec : ∀ (sched : List Nat) (st : FibState) (E : Nat → Int), Inv st E [] →
    0 < st.ddfs.length →
    (∃ st1 E1, run sched st = .ok st1 ∧ Inv st1 E1 [] ∧ E1 0 = E 0 ∧ 0 < st1.ddfs.length) ∨
    (run sched st = .fault .undefined ∧ ¬ (INT_MIN ≤ E 0 ∧ E 0 ≤ INT_MAX))
  | [], st, E, h, hlen => Or.inl ⟨st, E, rfl, h, rfl, hlen⟩
  | i :: sched, st, E, h, hlen => by
    rcases step_any st E i h hlen with ⟨st1, E1, h1, h2, h3, h4⟩ | ⟨hf, hr⟩
    · rcases run_spec sched st1 E1 h2 h4 with ⟨st2, E2, e1, e2, e3, e4⟩ | ⟨gf, gr⟩
      · exact Or.inl ⟨st2, E2, by simp [run, h1, Res.bind, e1], e2, e3.trans h3, e4⟩
      · exact Or.inr ⟨by simp [run, h1, Res.bind, gf], by rw [← h3]; exact gr⟩
    · exact Or.inr ⟨by simp [run, hf, Res.bind], hr⟩

theorem sum_puts_exists (p : Nat) : ∀ (l : List FibTask), 0 < (l.map (puts p)).sum →
    ∃ t ∈ l, t.res = p
  | [], h => by simp at h
  | x :: l, h => by
    by_cases hx : x.res = p
    · exact ⟨x, List.mem_cons_self _ _, hx⟩
    · simp only [List.map_cons, List.sum_cons, puts, hx, if_false, Nat.zero_add] at h
      obtain ⟨t, ht, hp⟩ := sum_puts_exists p l h
      exact ⟨t, List.mem_cons_of_mem _ ht, hp⟩

theorem of_not_unput {st : FibState} {p : Nat} (hp : p < st.ddfs.length)
    (h : ¬ st.ddfs[p]? = some none) : ∃ v, st.ddfs[p]? = some (some v) := by
  rw [List.getElem?_eq_getElem hp] at h ⊢
  cases hx : st.ddfs[p] with
  | none => simp [hx] at h
  | some v => exact ⟨v, rfl⟩

/-- No deadlock: as long as a task is waiting, some task is ready (the task of
the promise with the largest handle among those not put). -/
theorem exists_ready (st : FibState) (E : Nat → Int) (h : Inv st E []) (hp : st.pool ≠ []) :
    ∃ (i : Nat) (t : FibTask), st.pool[i]? = some t ∧ ready st t = true := by
  obtain ⟨t0, ht0⟩ := List.exists_mem_of_ne_nil _ hp
  have hun0 := inv_res_lt h ht0
  have hb0 : t0.res ≤ st.ddfs.length := Nat.le_of_lt (getElem?_lt hun0)
  have hm : st.ddfs[Nat.findGreatest (fun p => st.ddfs[p]? = some none) st.ddfs.length]?
      = some none :=
    Nat.findGreatest_spec (P := fun p => st.ddfs[p]? = some none) hb0 hun0
  have hgreat : ∀ q, Nat.findGreatest (fun p => st.ddfs[p]? = some none) st.ddfs.length < q →
      q < st.ddfs.length → ∃ v, st.ddfs[q]? = some (some v) := by
    intro q hq hql
    exact of_not_unput hql
      (Nat.findGreatest_is_greatest (P := fun p => st.ddfs[p]? = some none) hq (Nat.le_of_lt hql))
  generalize Nat.findGreatest (fun p => st.ddfs[p]? = some none) st.ddfs.length = m at hm hgreat
  have hc := h.2.1 m
  simp only [hm, if_true, List.count_nil, Nat.add_zero] at hc
  obtain ⟨t, ht, hres⟩ := sum_puts_exists m st.pool (by omega)
  obtain ⟨i, hi⟩ := List.mem_iff_getElem?.1 ht
  refine ⟨i, t, hi, ?_⟩
  have hwf := h.2.2.1 t ht
  cases t with
  | fib n res => rfl
  | sum f1 f2 res =>
    obtain ⟨h1, h2, h3, h4, -⟩ :
      res < f1 ∧ res < f2 ∧ f1 < st.ddfs.length ∧ f2 < st.ddfs.length ∧
        E res = E f1 + E f2 := hwf
    have hres1 : res = m := hres
    obtain ⟨a, ha⟩ := hgreat f1 (by omega) h3
    obtain ⟨b, hb⟩ := hgreat f2 (by omega) h4
    simp [ready, ha, hb]

theorem todo_pos (st : FibState) (hp : st.pool ≠ []) : 0 < todo st := by
  cases hl : st.pool with
  | nil => exact absurd hl hp
  | cons t l =>
    simp only [todo, hl, List.map_cons, List.sum_cons]
    cases t <;> simp only [FibTask.size] <;> omega

/-- From every state that satisfies the invariant with a result that is an
`int`, some schedule runs every task. -/
theorem exists_completion : ∀ (n : Nat) (st : FibState) (E : Nat → Int), todo st ≤ n →
    Inv st E [] → (INT_MIN ≤ E 0 ∧ E 0 ≤ INT_MAX) → 0 < st.ddfs.length →
    ∃ more st2, run more st = .ok st2 ∧ st2.pool = []
  | n, st, E, hn, h, hr, hlen => by
    by_cases hp : st.pool = []
    · exact ⟨[], st, rfl, hp⟩
    · obtain ⟨i, t, hi, hrd⟩ := exists_ready st E h hp
      rcases step_spec st E i t h hi hrd with ⟨st1, E1, h1, h2, h3, h4, h5⟩ | ⟨-, hf⟩
      · cases n with
        | zero => omega
        | succ n =>
          obtain ⟨more, st2, e1, e2⟩ := exists_completion n st1 E1 (by omega) h2
            (by rw [h3 0 hlen]; exact hr) (by omega)
          exact ⟨i :: more, st2, by simp [run, h1, Res.bind, e1], e2⟩
      · exact absurd hr hf

theorem unput_of_not_int {st : FibState} {E : Nat → Int} (h : Inv st E [])
    (hlen : 0 < st.ddfs.length) (hr : ¬ (INT_MIN ≤ E 0 ∧ E 0 ≤ INT_MAX)) :
    st.ddfs[0]? = some none ∧ st.pool ≠ [] := by
  have h0 : st.ddfs[0]? = some none := by
    by_contra hc
    obtain ⟨v, hv⟩ := of_not_unput hlen hc
    have := h.1 0 v hv
    apply hr
    rw [← this.1]
    exact this.2
  refine ⟨h0, ?_⟩
  intro hp
  have hc := h.2.1 0
  simp [hp, h0] at hc

/-- From every state that satisfies the invariant with a result that is not an
`int`, some schedule reaches the overflow. -/
theorem exists_overflow : ∀ (n : Nat) (st : FibState) (E : Nat → Int), todo st ≤ n →
    Inv st E [] → ¬ (INT_MIN ≤ E 0 ∧ E 0 ≤ INT_MAX) → 0 < st.ddfs.length →
    ∃ more, run more st = .fault .undefined
  | n, st, E, hn, h, hr, hlen => by
    obtain ⟨i, t, hi, hrd⟩ := exists_ready st E h (unput_of_not_int h hlen hr).2
    rcases step_spec st E i t h hi hrd with ⟨st1, E1, h1, h2, h3, h4, h5⟩ | ⟨hf, -⟩
    · cases n with
      | zero => omega
      | succ n =>
        obtain ⟨more, e1⟩ := exists_overflow n st1 E1 (by omega) h2
          (by rw [h3 0 hlen]; exact hr) (by omega)
        exact ⟨i :: more, by simp [run, h1, Res.bind, e1]⟩
    · exact ⟨[i], by simp [run, hf, Res.bind]⟩

/-- The state in which the tasks start to run: `main` has created the result
promise and `fib(n, ddf)` has returned. -/
theorem fib_main_spec (n : Int) (hn : n ≤ 47) :
    ∃ st1 E1, fib n 0 (ddf_create { ddfs := [], pool := [] }).1 = .ok st1 ∧ Inv st1 E1 [] ∧
      E1 0 = (Nat.fib n.toNat : Int) ∧ 0 < st1.ddfs.length := by
  have hinv : Inv (ddf_create { ddfs := [], pool := [] }).1
      (fun _ => (Nat.fib n.toNat : Int)) [0] := by
    refine ⟨?_, ?_, ?_, ?_⟩
    · intro p v hp
      cases p with
      | zero => simp [ddf_create] at hp
      | succ p => simp [ddf_create] at hp
    · intro p
      cases p with
      | zero => simp [ddf_create]
      | succ p => simp [ddf_create]
    · intro t ht
      simp [ddf_create] at ht
    · intro p hp1 hp2
      simp [ddf_create] at hp2
      omega
  obtain ⟨st1, E1, h1, h2, h3, h4, -⟩ :=
    fib_spec n 0 _ _ [] hinv rfl hn (Or.inl rfl)
  refine ⟨st1, E1, h1, h2, h3 0 (by simp [ddf_create]), ?_⟩
  have : 0 < (ddf_create { ddfs := [], pool := [] }).1.ddfs.length := by simp [ddf_create]
  omega

end Fib

/-! ## Lemmas on `execute_task` -/

/-- `execute_task` on task `t` makes the scope of `t` the current scope of
the worker before the body is entered, touching no counter; the body is what
runs next and the check-out of the scope of `t` is what it returns to.  An
`async` at the head of the body is therefore counted by, and bound to, the
scope of `t`, whatever scope was current before.  When the body has returned,
the next step of the worker is `check_out_finish` on the scope `t` was bound to
at entry, whatever the current scope of the worker is by then, and that return
point is gone afterwards (one check-out). -/
theorem execute_task_installs_task_scope (cfg : Config) (w : Nat) (s : State) (t : task_t)
    (wr : hc_workerState) (hw : s.workers[w]? = some wr) :
    ∃ s1, execute_task cfg w s t = .ok s1 ∧
      s1.current_finish w = t.current_finish ∧
      s1.stack w = call_fp cfg t :: .execute_task_ret t.current_finish :: wr.stack ∧
      s1.finishes = s.finishes ∧
      s1.deque w = wr.deque ∧
      (∀ h g cs f fin, t.fp = .user h → cfg.prog.getD h [] = .async g :: cs →
        t.current_finish = some f → s.finishes[f]? = some (some fin) →
        wr.deque.length < cfg.cap →
        ∃ s2, step cfg w s1 = .ok s2 ∧
          s2.deque w = wr.deque ++ [{ new_task g with current_finish := some f }] ∧
          s2.counter f = some (fin.counter + 1) ∧
          (∀ g', g' ≠ f → s2.counter g' = s.counter g') ∧
          s2.stack w = .user cs :: .execute_task_ret (some f) :: wr.stack) ∧
      (∀ (s3 : State) (wr3 : hc_workerState) (rest : List Frame),
        s3.workers[w]? = some wr3 →
        wr3.stack = .execute_task_ret t.current_finish :: rest →
        step cfg w s3 =
          check_out_finish cfg w (s3.setWorker w { wr3 with stack := rest }) t.current_finish) := by
  have hwl := getElem?_lt hw
  refine ⟨_, execute_task_eq cfg w s t wr hw, ?_, ?_, rfl, ?_, ?_, ?_⟩
  · simp [State.current_finish, workers_setWorker_same _ hw]
  · simp [State.stack, workers_setWorker_same _ hw]
  · simp [State.deque, workers_setWorker_same _ hw]
  · intro h g cs f fin hfp hprog hcf hfin hroom
    -- the state in which the `async` runs: body frame replaced by its rest
    have hcall : call_fp cfg t = .user (.async g :: cs) := by simp only [call_fp, hfp, hprog]
    let wr1 : hc_workerState :=
      { wr with current_finish := some f,
                stack := .user cs :: .execute_task_ret (some f) :: wr.stack }
    let s1 : State := s.setWorker w wr1
    have hw1 : s1.workers[w]? = some wr1 := workers_setWorker_same _ hw
    have hfin1 : s1.finishes[f]? = some (some fin) := hfin
    have hstep : step cfg w (s.setWorker w
        { wr with current_finish := t.current_finish,
                  stack := call_fp cfg t :: .execute_task_ret t.current_finish :: wr.stack })
        = spawn cfg w s1 (new_task g) := by
      simp only [step, workers_setWorker_same _ hw, hcall, hcf, exec_frame, exec_cmd]
      congr 1
      simp [s1, wr1, State.push, State.setWorker, hwl]
    have h2 := spawn_push_eq cfg w s1 (new_task g) f fin wr1 hw1 rfl hfin1 rfl hroom
    refine ⟨_, hstep.trans h2, ?_, ?_, ?_, ?_⟩
    · have hw2 : (s1.setFinish f { fin with counter := fin.counter + 1 }).workers[w]? =
          some wr1 := hw1
      rw [increment_async_counter_deque, deque_of_some (workers_setWorker_same _ hw2)]
    · rw [increment_async_counter_counter]
      exact counter_setFinish_same _ hfin1
    · intro g' hg'
      rw [increment_async_counter_counter]
      exact counter_setFinish_other s1 _ hg'
    · have hw2 : (s1.setFinish f { fin with counter := fin.counter + 1 }).workers[w]? =
          some wr1 := hw1
      rw [increment_async_counter_stack, stack_of_some (workers_setWorker_same _ hw2)]
  · intro s3 wr3 rest hw3 hst
    simp [step, hw3, hst, exec_frame]

/-- The previous lemma on `demo_state`: the worker's current scope is scope 1; it
executes a task bound to scope 0 whose body starts with an `async`; the
spawned task is bound to scope 0, whose counter goes from 1 to 2. -/
theorem execute_task_installs_task_scope_on_demo :
    demo_state.workers[0]? = some demo_worker ∧
    demo_worker.current_finish = some 1 ∧
    ∃ s1, execute_task nested_cfg 0 demo_state demo_task = .ok s1 ∧
      s1.current_finish 0 = some 0 ∧
      ∃ s2, step nested_cfg 0 s1 = .ok s2 ∧
        s2.deque 0 = demo_worker.deque ++ [{ new_task 1 with current_finish := some 0 }] ∧
        s2.counter 0 = some (1 + 1) ∧ s2.counter 1 = some 3 :=
  match execute_task_installs_task_scope nested_cfg 0 demo_state demo_task demo_worker rfl with
  | ⟨s1, h1, h2, _, _, _, h6, _⟩ =>
    match h6 0 1 [.work 1] 0 { counter := 1, parent := none, finish_deps := none }
      rfl rfl rfl rfl (by decide) with
    | ⟨s2, k1, k2, k3, k4, _⟩ =>
      ⟨rfl, rfl, s1, h1, h2, s2, k1, k2, k3, (k4 1 (by decide)).trans rfl⟩

/-! ## The claims -/

/-- C1: fiber strategy, one worker, main program
`async(g); start_finish(); async(f); end_finish(); work 99`.  After 15 steps
the main thread has returned from `end_finish` and run the statement after it
(the log is `[99]`) and has nothing left to run, the scope (slot 2) is freed,
and the task `f` spawned inside the scope is still on the deque, its body not
run.  With the default strategy the same program runs `f` inside `end_finish`
(the log is `[1, 99]`). -/
theorem end_finish_returns_with_task_still_queued :
    (boot_run fiber_cfg 1 root_zeroed scoped_async_main (List.replicate 15 0)).get?.map
        (fun s => (s.log, s.stack 0, (s.deque 0).map (fun t => (t.fp, t.current_finish)),
          s.finishes[2]?))
      = some ([99], [], [(.user 1, some 1), (.user 0, some 2)], some none) ∧
    (boot_run default_cfg 1 root_zeroed scoped_async_main (List.replicate 15 0)).get?.map
        (fun s => (s.log, s.stack 0, (s.deque 0).map (fun t => (t.fp, t.current_finish))))
      = some ([1, 99], [], [(.user 1, some 1)]) := by
  constructor <;> rfl

/-- C2: fiber strategy, two workers, main program
`start_finish(); async(f); end_finish()`.  On one schedule the run ends in the
failure of `assert(finish->counter == 0)` of `help_finish`, on another in the
failure of the `HASSERT` of `hclib_end_finish`. -/
theorem finish_assertions_fail :
    boot_run fiber_cfg 2 root_zeroed finish_one_async_main steal_then_retire_early
      = .fault .assert_help_finish ∧
    boot_run fiber_cfg 2 root_zeroed finish_one_async_main steal_then_retire_late
      = .fault .assert_end_finish := by
  constructor <;> rfl

/-- C3: in both strategies the counter of a scope is 0 right after
`start_finish` and 2 after two asyncs none of which has retired. -/
theorem start_finish_counter_is_zero :
    ((boot_run fiber_cfg 1 root_zeroed two_asyncs_main [0]).get?.bind
        (fun s => s.counter 2)) = some 0 ∧
    ((boot_run default_cfg 1 root_zeroed two_asyncs_main [0]).get?.bind
        (fun s => s.counter 2)) = some 0 ∧
    ((boot_run fiber_cfg 1 root_zeroed two_asyncs_main [0, 0, 0]).get?.map
        (fun s => (s.counter 2, (s.deque 0).length, s.log))) = some (some 2, 2, []) ∧
    ((boot_run default_cfg 1 root_zeroed two_asyncs_main [0, 0, 0]).get?.map
        (fun s => (s.counter 2, (s.deque 0).length, s.log))) = some (some 2, 2, []) := by
  refine ⟨?_, ?_, ?_, ?_⟩ <;> rfl

/-- C4: fiber strategy, two workers, main program
`start_finish(); async(f); end_finish()`.  After the first ten steps of the
schedule (the helper-mode decrement by worker 0, then the check-out of the
stolen task by worker 1) the scope in slot 2 is live and its counter is -1. -/
theorem counter_negative_reachable :
    (boot_run fiber_cfg 2 root_zeroed finish_one_async_main
        (steal_then_retire_early.take 10)).get?.bind (fun s => s.counter 2) = some (-1) := by
  rfl

/-- C5: `hclib_start_finish` run by a worker whose current scope is null or
live returns; the scope it creates sits in a slot that was not in use, has
counter 0, no completion promise, and the previous current scope of the worker
as parent; it is the current scope of the worker afterwards; the counter of
the parent, when there is one, went up by exactly one and no other counter
changed. -/
theorem start_finish_links_and_checks_in_parent (w : Nat) (s : State) (wr : hc_workerState)
    (hw : s.workers[w]? = some wr)
    (hp : ∀ p, wr.current_finish = some p → ∃ fin, s.finishes[p]? = some (some fin)) :
    ∃ s', hclib_start_finish w s = .ok s' ∧
      s.finishes[s.finishes.length]? = none ∧
      s'.finishes[s.finishes.length]? =
        some (some { counter := 0, parent := wr.current_finish, finish_deps := none }) ∧
      s'.current_finish w = some s.finishes.length ∧
      (∀ p, wr.current_finish = some p → s'.counter p = (s.counter p).map (· + 1)) ∧
      (∀ g, g ≠ s.finishes.length → wr.current_finish ≠ some g → s'.counter g = s.counter g) := by
  have hwl : w < s.workers.length := getElem?_lt hw
  cases hc : wr.current_finish with
  | none =>
    have h : hclib_start_finish w s = .ok (State.setWorker
        { s with finishes := s.finishes ++
            [some { counter := 0, parent := none, finish_deps := none }] } w
        { wr with current_finish := some s.finishes.length }) := by
      simp [hclib_start_finish, State.getWorker, hw, hc, check_in_finish]
    refine ⟨_, h, ?_, ?_, ?_, ?_, ?_⟩
    · simp
    · simp [State.setWorker]
    · simp [State.current_finish, State.setWorker, hwl]
    · intro p hp'; cases hp'
    · intro g hg _
      simp only [State.counter, State.setWorker]
      rcases Nat.lt_or_gt_of_ne hg with h | h
      · rw [List.getElem?_append_left h]
      · rw [List.getElem?_eq_none (by simp; omega), List.getElem?_eq_none (by omega)]
  | some p =>
    obtain ⟨fin, hfin⟩ := hp p hc
    have hpl : p < s.finishes.length := getElem?_lt hfin
    have h : hclib_start_finish w s = .ok (State.setWorker (State.setFinish
        { s with finishes := s.finishes ++
            [some { counter := 0, parent := some p, finish_deps := none }] } p
          { fin with counter := fin.counter + 1 }) w
        { wr with current_finish := some s.finishes.length }) := by
      simp [hclib_start_finish, State.getWorker, hw, hc, check_in_finish, State.getFinish,
        List.getElem?_append_left hpl, hfin, hc_atomic_inc]
    refine ⟨_, h, ?_, ?_, ?_, ?_, ?_⟩
    · simp
    · simp [State.setWorker, State.setFinish, List.getElem?_set, Nat.ne_of_lt hpl]
    · simp [State.current_finish, State.setWorker, State.setFinish, hwl]
    · intro q hq
      cases hq
      simp [State.counter, State.setWorker, State.setFinish, List.getElem?_set, hpl, hfin]
      rw [List.getElem?_append_left (by simpa using hpl)]
      simp [hpl]
    · intro g hg hgp
      have hgp' : p ≠ g := fun h => hgp (by rw [h])
      simp only [State.counter, State.setWorker, State.setFinish]
      rw [List.getElem?_set_ne hgp']
      rcases Nat.lt_or_gt_of_ne hg with h | h
      · rw [List.getElem?_append_left h]
      · rw [List.getElem?_eq_none (by simp; omega), List.getElem?_eq_none (by omega)]

/-- Witness of C5 on `demo_state`: the worker's current scope 1 (counter 3) is
live; the new scope lands in slot 2 with parent 1 and the counter of scope 1
becomes 4. -/
theorem start_finish_links_and_checks_in_parent_witness :
    demo_state.workers[0]? = some demo_worker ∧
    (∀ p, demo_worker.current_finish = some p →
      ∃ fin, demo_state.finishes[p]? = some (some fin)) ∧
    ∃ s', hclib_start_finish 0 demo_state = .ok s' ∧
      demo_state.finishes[demo_state.finishes.length]? = none ∧
      s'.finishes[demo_state.finishes.length]? =
        some (some { counter := 0, parent := demo_worker.current_finish, finish_deps := none }) ∧
      s'.current_finish 0 = some demo_state.finishes.length ∧
      (∀ p, demo_worker.current_finish = some p →
        s'.counter p = (demo_state.counter p).map (· + 1)) ∧
      (∀ g, g ≠ demo_state.finishes.length → demo_worker.current_finish ≠ some g →
        s'.counter g = demo_state.counter g) :=
  have h : ∀ p, demo_worker.current_finish = some p →
      ∃ fin, demo_state.finishes[p]? = some (some fin) := by
    intro p hp
    cases hp
    exact ⟨_, rfl⟩
  ⟨rfl, h, start_finish_links_and_checks_in_parent 0 demo_state demo_worker rfl h⟩

/-- C6: fiber strategy, one worker whose current scope (slot 1) has counter 0.
`start_finish(); end_finish()` runs into undefined behaviour at the check-out
of that scope: the decrement reaches zero and `finish->finish_deps[0]` is read
although `finish_deps` was never written.  With the default strategy the same
program leaves the counter at 0 and the scope current. -/
theorem empty_finish_under_zero_parent :
    (boot_run fiber_cfg 1 root_zeroed empty_finish_main []).get?.map
        (fun s => (s.counter 1, s.current_finish 0)) = some (some 0, some 1) ∧
    boot_run fiber_cfg 1 root_zeroed empty_finish_main [0, 0, 0] = .fault .undefined ∧
    (boot_run default_cfg 1 root_zeroed empty_finish_main [0, 0, 0, 0]).get?.map
        (fun s => (s.counter 1, s.current_finish 0, s.stack 0))
      = some (some 0, some 1, [.user []]) := by
  refine ⟨?_, ?_, ?_⟩ <;> rfl

/-- C7: fiber strategy.  After `start_finish(); async(f)` the scope in slot 2
has counter 1 and no completion promise.  `check_out_finish` on it is
undefined behaviour (the decrement reaches zero and the pointer `finish_deps`,
never written, is dereferenced); this is what happens when a second worker
steals `f` and retires it before the opener reaches `end_finish`. -/
theorem check_out_without_promise_is_undefined :
    (boot_run fiber_cfg 2 root_zeroed finish_one_async_main [0, 0]).get?.map
        (fun s => s.finishes[2]?)
      = some (some (some { counter := 1, parent := some 1, finish_deps := none })) ∧
    (boot_run fiber_cfg 2 root_zeroed finish_one_async_main [0, 0]).bind
        (fun s => check_out_finish fiber_cfg 1 s (some 2)) = .fault .undefined ∧
    boot_run fiber_cfg 2 root_zeroed finish_one_async_main [0, 0, 1, 1, 1, 1, 1]
      = .fault .undefined := by
  refine ⟨?_, ?_, ?_⟩ <;> rfl

/-- C8: a scoped spawn (`spawn`, `spawn_await`, `spawn_at_hpt`) run by a worker
whose current scope is the live scope `f` first raises the counter of `f` by
exactly one (no other counter moves) and binds the task to `f`; scheduling
sees that state.  A `spawn` with room in the deque ends with the bound task at
the tail of the deque and the counter one higher; a `spawn_await` whose first
promise is not fulfilled ends with the bound task on the wait-list of that
promise, not on the deque, and the counter one higher all the same. -/
theorem spawn_checks_in_before_scheduling (cfg : Config) (w : Nat) (s : State) (task : task_t)
    (f : Nat) (fin : finish_t) (wr : hc_workerState) (hw : s.workers[w]? = some wr)
    (hcur : wr.current_finish = some f) (hfin : s.finishes[f]? = some (some fin)) :
    (s.setFinish f { fin with counter := fin.counter + 1 }).counter f = some (fin.counter + 1) ∧
    (∀ g, g ≠ f → (s.setFinish f { fin with counter := fin.counter + 1 }).counter g
        = s.counter g) ∧
    spawn cfg w s task =
      (try_schedule_async cfg w (s.setFinish f { fin with counter := fin.counter + 1 })
        { task with current_finish := some f } false).bind
        (fun s2 => .ok (increment_async_counter cfg s2 w)) ∧
    (∀ dl, spawn_await cfg w s task dl =
      (try_schedule_async cfg w (s.setFinish f { fin with counter := fin.counter + 1 })
        { task with current_finish := some f, ddf_list := dl, ddt_index := 0 } false).bind
        (fun s2 => .ok (increment_async_counter cfg s2 w))) ∧
    (∀ pl, spawn_at_hpt cfg w s pl task =
      .ok (increment_async_counter cfg
        (deque_push_place cfg (s.setFinish f { fin with counter := fin.counter + 1 }) pl
          { task with current_finish := some f }).1 w)) ∧
    (task.ddf_list = none → wr.deque.length < cfg.cap →
      ∃ s', spawn cfg w s task = .ok s' ∧ s'.counter f = some (fin.counter + 1) ∧
        s'.deque w = wr.deque ++ [{ task with current_finish := some f }]) ∧
    (∀ p ps d, s.ddfs[p]? = some (some d) → d.datum = none →
      ∃ s', spawn_await cfg w s task (some (p :: ps)) = .ok s' ∧
        s'.counter f = some (fin.counter + 1) ∧
        s'.ddfs[p]? = some (some { d with waiters := d.waiters ++
          [{ task with current_finish := some f, ddf_list := some (p :: ps),
                       ddt_index := 0 }] }) ∧
        s'.deque w = wr.deque) := by
  have hc : s.current_finish w = some f := by rw [current_finish_of_some hw, hcur]
  have hspawn := spawn_eq cfg w s task f fin wr hw hcur hfin
  have hawait := spawn_await_eq cfg w s task f fin wr hw hcur hfin
  have hw1 : (s.setFinish f { fin with counter := fin.counter + 1 }).workers[w]? = some wr := hw
  refine ⟨counter_setFinish_same _ hfin, fun g hg => counter_setFinish_other s _ hg, hspawn,
    hawait, ?_, ?_, ?_⟩
  · intro pl
    simp only [spawn_at_hpt, hc, check_in_finish_live hfin, set_current_finish]
  · intro hd hroom
    rw [hspawn, try_schedule_async_push cfg w _ { task with current_finish := some f } wr hw1 hd
      hroom]
    refine ⟨_, rfl, ?_, ?_⟩
    · rw [increment_async_counter_counter]
      exact counter_setFinish_same _ hfin
    · rw [increment_async_counter_deque]
      simp [State.deque, workers_setWorker_same _ hw1]
  · intro p ps d hp hd
    have hp1 : (s.setFinish f { fin with counter := fin.counter + 1 }).ddfs[p]? = some (some d) :=
      hp
    rw [hawait, try_schedule_async_held cfg w _
      { task with current_finish := some f, ddf_list := some (p :: ps), ddt_index := 0 }
      p ps d rfl rfl hp1 hd]
    refine ⟨_, rfl, ?_, ?_, ?_⟩
    · rw [increment_async_counter_counter]
      exact counter_setFinish_same _ hfin
    · rw [increment_async_counter_ddfs]
      simp [State.setDdf, State.setFinish, getElem?_lt hp]
    · rw [increment_async_counter_deque]
      simp [State.deque, State.setDdf, State.setFinish, hw]

/-- Witness of C8 on `demo_state`: the worker's current scope is scope 1 with
counter 3; a spawn of user function 0 ends with counter 4 and the task, bound
to scope 1, on the deque. -/
theorem spawn_checks_in_before_scheduling_witness :
    demo_state.workers[0]? = some demo_worker ∧
    demo_worker.current_finish = some 1 ∧
    demo_state.finishes[1]? = some (some { counter := 3, parent := some 0, finish_deps := none }) ∧
    (new_task 0).ddf_list = none ∧ demo_worker.deque.length < fiber_cfg.cap ∧
    ∃ s', spawn fiber_cfg 0 demo_state (new_task 0) = .ok s' ∧ s'.counter 1 = some (3 + 1) ∧
      s'.deque 0 = demo_worker.deque ++ [{ new_task 0 with current_finish := some 1 }] :=
  ⟨rfl, rfl, rfl, rfl, by decide,
    (spawn_checks_in_before_scheduling fiber_cfg 0 demo_state (new_task 0) 1
      { counter := 3, parent := some 0, finish_deps := none } demo_worker rfl rfl rfl).2.2.2.2.2.1
      rfl (by decide)⟩

/-- C9: default strategy, deques of capacity 1, two workers, main program
`async(g); async(t)`, where the body of `t` is
`async_escaping(g); async(g); work 7`.  The spawn of `t` finds the deque full
and `execute_task` runs `t` in place: at the entry of the body the current
scope of the worker is the scope of `t` (scope 1).  The escaping spawn of the
body finds the deque full as well and is executed in place by `execute_task`,
which leaves the current scope null.  The `async` the body performs next (the
deque has room by then, worker 1 has stolen the first task) is therefore
registered on no scope: the spawned task is bound to the null scope and the
counter of scope 1 stays at 1.  When the body has returned and `t` has checked
out, the counter of scope 1 is 0 while the task the body spawned is still on
the deque. -/
theorem body_async_after_inline_task_is_unscoped :
    (boot_run inline_escaping_cfg 2 root_zeroed inline_escaping_main
        (inline_escaping_sched.take 2)).get?.map
        (fun s => (s.stack 0, s.current_finish 0, s.counter 1))
      = some ([.user [.async_escaping 1 [], .async 1, .work 7], .execute_task_ret (some 1),
          .user [.work 99]], some 1, some 2) ∧
    (boot_run inline_escaping_cfg 2 root_zeroed inline_escaping_main
        (inline_escaping_sched.take 11)).get?.map
        (fun s => (s.stack 0, s.current_finish 0, s.deque 0, s.counter 1))
      = some ([.user [.async 1, .work 7], .execute_task_ret (some 1), .user [.work 99]],
          none, [], some 1) ∧
    (boot_run inline_escaping_cfg 2 root_zeroed inline_escaping_main
        (inline_escaping_sched.take 12)).get?.map
        (fun s => (s.stack 0, s.current_finish 0, s.deque 0, s.counter 1))
      = some ([.user [.work 7], .execute_task_ret (some 1), .user [.work 99]],
          none, [{ new_task 1 with current_finish := none }], some 1) ∧
    (boot_run inline_escaping_cfg 2 root_zeroed inline_escaping_main
        inline_escaping_sched).get?.map
        (fun s => (s.stack 0, s.deque 0, s.counter 1, s.log))
      = some ([.user [.work 99]], [{ new_task 1 with current_finish := none }], some 0,
          [2, 2, 7]) := by
  refine ⟨?_, ?_, ?_, ?_⟩ <;> rfl

/-- C10: `spawn_escaping` (on live promises) returns a state with the very same
finish scopes, so no counter moved, the current scope of the worker included;
the task it hands on is bound to no scope: held back on the wait-list of its
first unfulfilled promise, or pushed on the deque when it has no promise list,
its scope pointer is null.  Executing such a task leaves the finish scopes
alone and returns to a check-out of the null scope, which is the identity. -/
theorem spawn_escaping_counts_on_no_scope (cfg : Config) (w : Nat) (s : State) (task : task_t)
    (dl : Option (List Nat)) (wr : hc_workerState) (hw : s.workers[w]? = some wr)
    (hlive : ∀ l, dl = some l → ∀ p ∈ l, ∃ d, s.ddfs[p]? = some (some d)) :
    (∃ s', spawn_escaping cfg w s task dl = .ok s' ∧ s'.finishes = s.finishes ∧
        ∀ g, s'.counter g = s.counter g) ∧
    (∀ p ps d, dl = some (p :: ps) → s.ddfs[p]? = some (some d) → d.datum = none →
      ∃ s', spawn_escaping cfg w s task dl = .ok s' ∧
        s'.ddfs[p]? = some (some { d with waiters := d.waiters ++
          [{ task with current_finish := none, ddf_list := dl, ddt_index := 0 }] }) ∧
        s'.deque w = wr.deque ∧ s'.stack w = wr.stack) ∧
    (dl = none → wr.deque.length < cfg.cap →
      ∃ s', spawn_escaping cfg w s task dl = .ok s' ∧
        s'.deque w = wr.deque ++
          [{ task with current_finish := none, ddf_list := none, ddt_index := 0 }]) ∧
    (∀ s0, check_out_finish cfg w s0 none = .ok s0) ∧
    (∀ s0, exec_frame cfg w s0 (.execute_task_ret none) = .ok s0) ∧
    (∀ t : task_t, t.current_finish = none →
      ∃ s', execute_task cfg w s t = .ok s' ∧ s'.finishes = s.finishes ∧
        s'.stack w = call_fp cfg t :: .execute_task_ret none :: wr.stack) := by
  have heq : spawn_escaping cfg w s task dl =
      (try_schedule_async cfg w s
        { task with current_finish := none, ddf_list := dl, ddt_index := 0 } false).bind
        (fun s2 => .ok (increment_async_counter cfg s2 w)) := by
    simp only [spawn_escaping, set_current_finish, set_ddf_list, ddt_init]
    cases try_schedule_async cfg w _ _ false <;> rfl
  refine ⟨?_, ?_, ?_, fun _ => rfl, fun _ => rfl, ?_⟩
  · obtain ⟨s1, h1, h2⟩ := try_schedule_async_frame cfg w s
      { task with current_finish := none, ddf_list := dl, ddt_index := 0 } wr hw hlive
    have h3 : (increment_async_counter cfg s1 w).finishes = s.finishes := by
      rw [increment_async_counter_finishes, h2]
    refine ⟨increment_async_counter cfg s1 w, ?_, h3, ?_⟩
    · rw [heq, h1]; rfl
    · intro g
      simp [State.counter, h3]
  · intro p ps d hdl hp hd
    rw [heq, try_schedule_async_held cfg w s
      { task with current_finish := none, ddf_list := dl, ddt_index := 0 } p ps d hdl rfl hp hd]
    refine ⟨_, rfl, ?_, ?_, ?_⟩
    · rw [increment_async_counter_ddfs]
      simp [State.setDdf, getElem?_lt hp]
    · rw [increment_async_counter_deque]
      simp [State.deque, State.setDdf, hw]
    · rw [increment_async_counter_stack]
      simp [State.stack, State.setDdf, hw]
  · intro hdl hroom
    subst hdl
    rw [heq, try_schedule_async_push cfg w s
      { task with current_finish := none, ddf_list := none, ddt_index := 0 } wr hw rfl hroom]
    refine ⟨_, rfl, ?_⟩
    rw [increment_async_counter_deque, deque_of_some (workers_setWorker_same _ hw)]
  · intro t ht
    refine ⟨_, execute_task_eq cfg w s t wr hw, rfl, ?_⟩
    rw [stack_of_some (workers_setWorker_same _ hw), ht]

/-- Witness of C10 on `demo_state`: an escaping spawn on the unfulfilled
promise 0 leaves every finish scope as it was. -/
theorem spawn_escaping_counts_on_no_scope_witness :
    demo_state.workers[0]? = some demo_worker ∧
    (∀ l, some [0] = some l → ∀ p ∈ l, ∃ d, demo_state.ddfs[p]? = some (some d)) ∧
    ∃ s', spawn_escaping fiber_cfg 0 demo_state (new_task 0) (some [0]) = .ok s' ∧
      s'.finishes = demo_state.finishes ∧ ∀ g, s'.counter g = demo_state.counter g :=
  have h : ∀ l, some [0] = some l → ∀ p ∈ l, ∃ d, demo_state.ddfs[p]? = some (some d) := by
    intro l hl p hp
    cases hl
    simp at hp
    subst hp
    exact ⟨_, rfl⟩
  ⟨rfl, h, (spawn_escaping_counts_on_no_scope fiber_cfg 0 demo_state (new_task 0) (some [0])
    demo_worker rfl h).1⟩

/-- C12: fiber strategy, deques of capacity 1, one worker, main program
`async(g); start_finish(); async(f); work 99`.  The spawn of `f` finds the
deque full and runs `f` in place (the log gets 1, the deque is unchanged), but
the check-out after the body takes the counter of the new scope from 1 to 0
and reads `finish->finish_deps[0]`, never written: undefined behaviour, the
spawn does not return.  With the default strategy the same spawn returns with
the counter back at 0, the deque unchanged and `f` run once before the next
statement. -/
theorem inline_spawn_on_fresh_scope :
    (boot_run tiny_deque_cfg 1 root_zeroed spawn_on_full_deque_main
        (List.replicate 5 0)).get?.map
        (fun s => (s.log, s.counter 2, (s.deque 0).map (fun t => t.fp), s.stack 0))
      = some ([1], some 1, [.user 1], [.execute_task_ret (some 2), .user [.work 99]]) ∧
    boot_run tiny_deque_cfg 1 root_zeroed spawn_on_full_deque_main (List.replicate 6 0)
      = .fault .undefined ∧
    (boot_run { tiny_deque_cfg with litectx := false } 1 root_zeroed spawn_on_full_deque_main
        (List.replicate 2 0)).get?.map
        (fun s => (s.log, s.counter 2, (s.deque 0).map (fun t => t.fp)))
      = some ([], some 0, [.user 1]) ∧
    (boot_run { tiny_deque_cfg with litectx := false } 1 root_zeroed spawn_on_full_deque_main
        (List.replicate 6 0)).get?.map
        (fun s => (s.log, s.counter 2, (s.deque 0).map (fun t => t.fp), s.stack 0))
      = some ([1], some 0, [.user 1], [.user [.work 99]]) := by
  refine ⟨?_, ?_, ?_, ?_⟩ <;> rfl

/-- C13: fiber strategy, three workers.  Worker 0 opens scope 2 under scope 1
and suspends in `end_finish`; worker 1 steals the resume task and continues
`end_finish`.  When `end_finish` has returned and worker 1 is about to run the
next statement of the program, the current scope of worker 1 is null, not the
parent (scope 1): the last assignment of `hclib_end_finish` went to the record
of worker 0, read on entry. -/
theorem end_finish_resumed_elsewhere_sets_stale_worker :
    (boot_run fiber_cfg 3 root_zeroed finish_at_place_main resume_on_thief).get?.map
        (fun s => (s.stack 1, s.current_finish 1, s.current_finish 0, s.stack 0,
          s.finishes[2]?))
      = some ([.user [.work 99]], none, some 1, [.crt_work_loop], some none) ∧
    (boot_run fiber_cfg 3 root_zeroed finish_at_place_main (resume_on_thief.take 3)).get?.map
        (fun s => (s.finishes[2]?.join.map (fun fin => fin.parent), s.current_finish 0))
      = some (some (some 1), some 2) := by
  constructor <;> rfl

/-- C14, amended to `n ≤ 46` (the Fibonacci numbers that are `int`s): in the
fib test, for every such `n` and every schedule of the spawned tasks (an
awaiting task runs only when its two promises are put), no step fails: no
promise is put twice, no unfulfilled promise is read, no addition overflows.
When no task is left, the result promise holds 0 for `n ≤ 0` and the `n`-th
Fibonacci number otherwise, and every promise created is put.  From every
state a schedule reaches, some continuation runs all the tasks. -/
theorem fib_test_puts_fibonacci (n : Int) (hn : n ≤ 46) (sched : List Nat) :
    ∃ st, Fib.fib_test n sched = .ok st ∧
      (st.pool = [] →
        st.ddfs[0]? = some (some (if n ≤ 0 then 0 else (Nat.fib n.toNat : Int))) ∧
          ∀ p, p < st.ddfs.length → ∃ v, st.ddfs[p]? = some (some v)) ∧
      ∃ more st2, Fib.fib_test n (sched ++ more) = .ok st2 ∧ st2.pool = [] := by
  obtain ⟨st1, E1, h1, h2, h3, h4⟩ := Fib.fib_main_spec n (by omega)
  have hk : n.toNat ≤ 46 := by omega
  have hrange : INT_MIN ≤ E1 0 ∧ E1 0 ≤ INT_MAX := by
    rw [h3]
    exact Fib.fib_int _ hk
  rcases Fib.run_spec sched st1 E1 h2 h4 with ⟨st, E, e1, e2, e3, e4⟩ | ⟨-, hf⟩
  · refine ⟨st, by simp [Fib.fib_test, h1, Res.bind, e1], ?_, ?_⟩
    · intro hp
      have hall : ∀ p, p < st.ddfs.length → ∃ v, st.ddfs[p]? = some (some v) := by
        intro p hpl
        apply Fib.of_not_unput hpl
        intro hc
        have := e2.2.1 p
        simp [hp, hc] at this
      refine ⟨?_, hall⟩
      obtain ⟨v, hv⟩ := hall 0 e4
      have hval := (e2.1 0 v hv).1
      rw [hv, hval, e3, h3]
      by_cases h0 : n ≤ 0
      · have : n.toNat = 0 := by omega
        simp [h0, this]
      · simp [h0]
    · obtain ⟨more, st2, m1, m2⟩ := Fib.exists_completion (Fib.todo st) st E (Nat.le_refl _) e2
        (by rw [e3]; exact hrange) e4
      refine ⟨more, st2, ?_, m2⟩
      simp [Fib.fib_test, h1, Res.bind, Fib.fib_run_append, e1, m1]
  · exact absurd hrange hf

/-- C14 at `n = 3`: the schedule `fib3_sched` runs the four tasks and leaves
the result promise with 2; and the general statement at `n = 10` with that
schedule. -/
theorem fib_test_puts_fibonacci_witness :
    Fib.fib_test 3 Fib.fib3_sched
        = .ok { ddfs := [some 2, some 1, some 1, some 1, some 0], pool := [] } ∧
      (10 : Int) ≤ 46 ∧
      ∃ st, Fib.fib_test 10 Fib.fib3_sched = .ok st ∧
        (st.pool = [] →
          st.ddfs[0]? = some (some (if (10 : Int) ≤ 0 then 0 else (Nat.fib (10 : Int).toNat : Int))) ∧
            ∀ p, p < st.ddfs.length → ∃ v, st.ddfs[p]? = some (some v)) ∧
        ∃ more st2, Fib.fib_test 10 (Fib.fib3_sched ++ more) = .ok st2 ∧ st2.pool = [] :=
  ⟨by decide, by decide, fib_test_puts_fibonacci 10 (by decide) Fib.fib3_sched⟩

/-- C14, counterexample: `n = 47`.  The 47th Fibonacci number, 2971215073, is
not an `int`.  On no schedule is the result promise ever put (so the scope
never completes with a result), and on some schedule the awaiting task of the
main call runs and its addition `1836311903 + 1134903170` overflows. -/
theorem fib_47_overflows :
    Nat.fib 47 = 2971215073 ∧ INT_MAX < (Nat.fib 47 : Int) ∧
      (∀ sched st, Fib.fib_test 47 sched = .ok st →
        st.ddfs[0]? = some none ∧ st.pool ≠ []) ∧
      ∃ sched, Fib.fib_test 47 sched = .fault .undefined := by
  obtain ⟨st1, E1, h1, h2, h3, h4⟩ := Fib.fib_main_spec 47 (by omega)
  have h47 : (47 : Int).toNat = 47 := rfl
  rw [h47, Fib.fib_47] at h3
  have hr : ¬ (INT_MIN ≤ E1 0 ∧ E1 0 ≤ INT_MAX) := by
    rw [h3]
    simp only [INT_MAX]
    omega
  refine ⟨Fib.fib_47, by rw [Fib.fib_47]; decide, ?_, ?_⟩
  · intro sched st hst
    rcases Fib.run_spec sched st1 E1 h2 h4 with ⟨st', E, e1, e2, e3, e4⟩ | ⟨hf, -⟩
    · have : Fib.fib_test 47 sched = .ok st' := by simp [Fib.fib_test, h1, Res.bind, e1]
      rw [this] at hst
      cases hst
      exact Fib.unput_of_not_int e2 e4 (by rw [e3]; exact hr)
    · have : Fib.fib_test 47 sched = .fault .undefined := by
        simp [Fib.fib_test, h1, Res.bind, hf]
      rw [this] at hst
      cases hst
  · obtain ⟨more, hm⟩ := Fib.exists_overflow (Fib.todo st1) st1 E1 (Nat.le_refl _) h2 hr h4
    exact ⟨more, by simp [Fib.fib_test, h1, Res.bind, hm]⟩

/-- C15: fiber strategy, one worker, the fib test with `n = 2`.  After 23
steps `end_finish` has left helper mode and passed the `assert` of
`help_finish`: the result promise (handle 0) is not fulfilled and the awaiting
task that puts it is still on the deque; the next step, the parent check-out of
`hclib_end_finish`, is undefined behaviour, so the `ddf_get` that follows is not
ordered after the put.  With the default strategy the run reaches the `ddf_get`
with the result fulfilled. -/
theorem fib_result_unfulfilled_when_finish_is_left :
    (boot_run fib2_cfg 1 root_zeroed fib2_main (List.replicate 23 0)).get?.map
        (fun s => (s.stack 0, (s.deque 0).map (fun t => t.fp),
          s.ddfs[0]?.join.map (fun d => d.datum)))
      = some ([.end_finish_ret 0 2, .user [.ddf_get 0]], [.user 1], some none) ∧
    boot_run fib2_cfg 1 root_zeroed fib2_main (List.replicate 24 0) = .fault .undefined ∧
    (boot_run { fib2_cfg with litectx := false } 1 root_zeroed fib2_main
        (List.replicate 26 0)).get?.map
        (fun s => (s.stack 0, (s.deque 0).map (fun t => t.fp),
          s.ddfs[0]?.join.map (fun d => d.datum)))
      = some ([.user [.ddf_get 0]], [], some (some 1)) ∧
    (boot_run { fib2_cfg with litectx := false } 1 root_zeroed fib2_main
        (List.replicate 27 0)).get?.map (fun s => s.stack 0) = some [.user []] := by
  refine ⟨?_, ?_, ?_, ?_⟩ <;> rfl

/-- C18: the per-worker shutdown flag is monotone.  `hcpp_global_init` sets the
flag of every worker to 1; `hcpp_signal_join(n)` sets the first `n` flags to 0
and leaves the others; a frame of the runtime other than the two that call
`hcpp_signal_join` leaves every flag as it was, so a step of a worker either
keeps all flags or clears all of them; along every run the number of flags is
constant and a flag that is 0 stays 0. -/
theorem shutdown_flag_is_monotone (cfg : Config) :
    (∀ ws : List hc_workerState,
      (hcpp_global_init ws).map (fun wr => wr.done_flag) = List.replicate ws.length 1) ∧
    (∀ (s : State) (n : Nat),
      flags (hcpp_signal_join s n) =
        List.replicate (min n s.workers.length) 0 ++ (flags s).drop n) ∧
    (∀ (w : Nat) (s s1 : State) (fr : Frame),
      fr.signals = false → exec_frame cfg w s fr = .ok s1 → flags s1 = flags s) ∧
    (∀ (w : Nat) (s s1 : State), step cfg w s = .ok s1 →
      flags s1 = flags s ∨ flags s1 = List.replicate (flags s).length 0) ∧
    (∀ (sched : List Nat) (s s1 : State) (i : Nat), run cfg sched s = .ok s1 →
      (flags s1).length = (flags s).length ∧
        ((flags s)[i]? = some 0 → (flags s1)[i]? = some 0)) := by
  refine ⟨hcpp_global_init_flags, flags_hcpp_signal_join, ?_, ?_, ?_⟩
  · intro w s s1 fr hfr h
    exact exec_frame_keeps cfg w s fr hfr s1 h
  · intro w s s1 h
    exact step_lowers cfg w s s1 h
  · intro sched s s1 i h
    exact ⟨(run_zero_stays cfg sched s s1 h).1, (run_zero_stays cfg sched s s1 h).2 i⟩

/-- C18 at a concrete run of the default build (`hclib_finalize` right after
start-up): after `hcpp_signal_join` both
flags are 0, and two steps later (worker 1 leaves its loop, the main thread
frees the root scope) they still are. -/
theorem shutdown_flag_is_monotone_witness :
    boot_run default_cfg 2 root_zeroed [.finalize] [0, 0, 0, 0] = .ok signalled_state ∧
      run default_cfg [1, 0] signalled_state = .ok joined_state ∧
      (flags signalled_state)[1]? = some 0 ∧
      (flags joined_state).length = (flags signalled_state).length ∧
      (flags joined_state)[1]? = some 0 :=
  ⟨rfl, rfl, rfl,
    ((shutdown_flag_is_monotone default_cfg).2.2.2.2 [1, 0] signalled_state joined_state 1 rfl).1,
    ((shutdown_flag_is_monotone default_cfg).2.2.2.2 [1, 0] signalled_state joined_state 1 rfl).2
      rfl⟩

/-- C19: on a call that passes the two `assert`s (the statics at their
initial values), `hclib_init` ends in `exit(1)` after the diagnostic on
standard error exactly when `HCPP_HPT_FILE` is unset; in that case it does not
reach `hcpp_entrypoint` (the outcome holds no runtime state), and when the
variable is set the outcome is the state `hcpp_entrypoint` builds. -/
theorem hclib_init_exits_iff_hpt_file_unset (cfg : Config) (nworkers : Nat) (root : finish_t)
    (main : List Cmd) (env : Environ) (g : Statics)
    (hs : g.hcpp_stats = none) (hb : g.bind_threads = -1) :
    (hclib_init cfg nworkers root main env g = .exit 1 [.hpt_file_must_be_provided] ↔
      env.HCPP_HPT_FILE = none) ∧
    (env.HCPP_HPT_FILE = none →
      ∀ g1 b r, hclib_init cfg nworkers root main env g ≠ .entered g1 b r) ∧
    (env.HCPP_HPT_FILE ≠ none →
      ∃ g1 b, hclib_init cfg nworkers root main env g =
        .entered g1 b (hcpp_entrypoint cfg nworkers root main)) ∧
    (∀ st e, hclib_init cfg nworkers root main env g = .exit st e →
      st = 1 ∧ e = [.hpt_file_must_be_provided] ∧ env.HCPP_HPT_FILE = none) := by
  cases hf : env.HCPP_HPT_FILE with
  | none => simp [hclib_init, hs, hb, hf]
  | some v => simp [hclib_init, hs, hb, hf]

/-- Witness of C19: with nothing in the environment the first call exits with
status 1. -/
theorem hclib_init_exits_iff_hpt_file_unset_witness :
    Statics.initial.hcpp_stats = none ∧ Statics.initial.bind_threads = -1 ∧
    hclib_init fiber_cfg 2 root_zeroed [] env_empty Statics.initial
      = .exit 1 [.hpt_file_must_be_provided] :=
  ⟨rfl, rfl, (hclib_init_exits_iff_hpt_file_unset fiber_cfg 2 root_zeroed [] env_empty
    Statics.initial rfl rfl).1.2 rfl⟩

/-- C20: without the communication worker (`HCPP_COMM_WORKER` not defined)
`spawn_commTask` is `assert(0)` for every state and every task: the result is
the assertion failure, there is no state after it, so no counter was changed
and nothing was enqueued or executed; the same holds for the statement that
calls it. -/
theorem spawn_commTask_asserts_when_disabled (cfg : Config) (w : Nat) (s : State) (task : task_t)
    (h : cfg.comm_worker = false) :
    spawn_commTask cfg w s task = .fault .assert_comm ∧
    ∀ f, exec_cmd cfg w s (.async_comm f) = .fault .assert_comm := by
  constructor
  · simp [spawn_commTask, h]
  · intro f
    simp [exec_cmd, spawn_commTask, h]

/-- Witness of C20 on the default build, which has no communication worker. -/
theorem spawn_commTask_asserts_when_disabled_witness :
    default_cfg.comm_worker = false ∧
    spawn_commTask default_cfg 0 demo_state demo_task = .fault .assert_comm :=
  ⟨rfl, (spawn_commTask_asserts_when_disabled default_cfg 0 demo_state demo_task rfl).1⟩

/-- The loop adds the per-worker counters to its accumulators as long as the
totals stay within `int`. -/
theorem stats_loop_sum :
    ∀ (ws : List hc_workerState) (a b : Int), 0 ≤ a → 0 ≤ b →
      a + ((ws.map (fun wr => wr.total_push_ind)).sum : Nat) ≤ INT_MAX →
      b + ((ws.map (fun wr => wr.total_steals)).sum : Nat) ≤ INT_MAX →
      stats_loop ws a b = .ok (a + ((ws.map (fun wr => wr.total_push_ind)).sum : Nat),
                               b + ((ws.map (fun wr => wr.total_steals)).sum : Nat))
  | [], a, b, _, _, _, _ => by simp [stats_loop]
  | wr :: ws, a, b, ha, hb, h1, h2 => by
    simp only [List.map_cons, List.sum_cons, Nat.cast_add] at h1 h2 ⊢
    have hp : (0 : Int) ≤ ((ws.map (fun wr => wr.total_push_ind)).sum : Nat) := Int.natCast_nonneg _
    have hs : (0 : Int) ≤ ((ws.map (fun wr => wr.total_steals)).sum : Nat) := Int.natCast_nonneg _
    have hp0 : (0 : Int) ≤ (wr.total_push_ind : Nat) := Int.natCast_nonneg _
    have hs0 : (0 : Int) ≤ (wr.total_steals : Nat) := Int.natCast_nonneg _
    have e1 : int_add a wr.total_push_ind = .ok (a + wr.total_push_ind) := by
      unfold int_add INT_MIN
      rw [if_pos]
      constructor <;> omega
    have e2 : int_add b wr.total_steals = .ok (b + wr.total_steals) := by
      unfold int_add INT_MIN
      rw [if_pos]
      constructor <;> omega
    simp only [stats_loop, e1, e2]
    rw [stats_loop_sum ws _ _ (by omega) (by omega) (by omega) (by omega)]
    simp [add_assoc]

/-- C21 (amended): whenever the sum of `total_push_ind` over the workers and
the sum of `total_steals` over the workers fit in a C `int`,
`gather_commWorker_Stats` stores the global communication-push counter, the
first sum and the second sum, and `runtime_statistics` prints the same three
values; in every case the two functions compute the same thing. -/
theorem gather_stats_sums_when_in_range (s : State)
    (hp : ((s.workers.map (fun wr => wr.total_push_ind)).sum : Int) ≤ INT_MAX)
    (hs : ((s.workers.map (fun wr => wr.total_steals)).sum : Int) ≤ INT_MAX) :
    gather_commWorker_Stats s =
      .ok ((s.total_push_outd : Int),
           ((s.workers.map (fun wr => wr.total_push_ind)).sum : Nat),
           ((s.workers.map (fun wr => wr.total_steals)).sum : Nat)) ∧
    runtime_statistics s = gather_commWorker_Stats s := by
  have h := stats_loop_sum s.workers 0 0 (le_refl 0) (le_refl 0) (by simpa using hp)
    (by simpa using hs)
  constructor
  · simp [gather_commWorker_Stats, h]
  · rfl

/-- Witness of C21 (amended) on `small_stats_state`: pushes 3 + 4, steals
5 + 7, one communication push. -/
theorem gather_stats_sums_when_in_range_witness :
    ((small_stats_state.workers.map (fun wr => wr.total_push_ind)).sum : Int) ≤ INT_MAX ∧
    ((small_stats_state.workers.map (fun wr => wr.total_steals)).sum : Int) ≤ INT_MAX ∧
    gather_commWorker_Stats small_stats_state = .ok (1, 7, 12) :=
  ⟨by decide, by decide,
    (gather_stats_sums_when_in_range small_stats_state (by decide) (by decide)).1⟩

/-- C21, counterexample: with two workers that each pushed `2^30` tasks the
sum of `total_push_ind` is `2^31`, which is not an `int`; the addition in the
loop overflows and `gather_commWorker_Stats` returns no such sum. -/
theorem gather_stats_overflows :
    (busy_stats_state.workers.map (fun wr => wr.total_push_ind)).sum = 2147483648 ∧
    gather_commWorker_Stats busy_stats_state = .fault .undefined ∧
    ¬ ∃ outd steals, gather_commWorker_Stats busy_stats_state
        = .ok (outd, ((busy_stats_state.workers.map (fun wr => wr.total_push_ind)).sum : Nat),
               steals) := by
  have h : gather_commWorker_Stats busy_stats_state = .fault .undefined := by decide
  refine ⟨by decide, h, ?_⟩
  rintro ⟨outd, steals, h2⟩
  rw [h] at h2
  cases h2

/-- C22: during `hclib_finalize` the shutdown flags are cleared only after
`hclib_end_finish` of the root scope has returned, in both strategies.  Let
worker `w` enter `hclib_finalize` (default strategy) or `_hclib_finalize_ctx`
(fiber strategy) with current finish `f`, in a state where no other shutdown is
under way and with a program whose functions do not call `hclib_finalize`.
The call leaves the flags as they were, and along every schedule from there:
either the flags are still as they were, or the run passed a step that
executed the last statements of `hclib_end_finish` on `f` (frame
`end_finish_tail`), after which `f` is freed and the flags were still
untouched. -/
theorem flags_cleared_after_root_scope_closed (cfg : Config) (w f : Nat) (s0 s : State)
    (wr : hc_workerState) (hp : cfg.calm) (hq : quiet s0 = true)
    (hw : s0.workers[w]? = some wr) (hcf : wr.current_finish = some f)
    (hcall : (cfg.litectx = false ∧ hclib_finalize cfg w s0 = .ok s) ∨
      (cfg.litectx = true ∧ _hclib_finalize_ctx cfg w s0 = .ok s)) :
    flags s = flags s0 ∧
      ∀ (sched : List Nat) (s1 : State), run cfg sched s = .ok s1 →
        flags s1 = flags s0 ∨
          ∃ pre v post u u1 ws, sched = pre ++ v :: post ∧ run cfg pre s = .ok u ∧
            (u.stack v).head? = some (.end_finish_tail ws f) ∧ step cfg v u = .ok u1 ∧
            flags u1 = flags s0 ∧ u1.finishes[f]? = some none := by
  obtain ⟨hg, hfl⟩ := finalize_entry_safe cfg hq hw hcf hcall
  refine ⟨hfl, fun sched s1 hrun => ?_⟩
  rw [← hfl]
  exact run_guarded hp sched s s1 hg hrun

/-- C22 at `hclib_finalize` right after start-up, in both builds: the call
enters `hclib_end_finish` on scope 1, three steps of the main thread later the
flags are 0, and the step that freed scope 1 came before. -/
theorem flags_cleared_after_root_scope_closed_witness :
    (hclib_finalize default_cfg 0 finalize_entry_default = .ok finalize_called_default ∧
      run default_cfg [0, 0, 0] finalize_called_default = .ok signalled_state ∧
      flags signalled_state = [0, 0] ∧
      (flags signalled_state = flags finalize_entry_default ∨
        ∃ pre v post u u1 ws, [0, 0, 0] = pre ++ v :: post ∧
          run default_cfg pre finalize_called_default = .ok u ∧
          (u.stack v).head? = some (.end_finish_tail ws 1) ∧ step default_cfg v u = .ok u1 ∧
          flags u1 = flags finalize_entry_default ∧ u1.finishes[1]? = some none)) ∧
    (_hclib_finalize_ctx fiber_cfg 0 finalize_entry_fiber = .ok finalize_called_fiber ∧
      run fiber_cfg [0, 0, 0] finalize_called_fiber = .ok finalize_signalled_fiber ∧
      flags finalize_signalled_fiber = [0, 0] ∧
      (flags finalize_signalled_fiber = flags finalize_entry_fiber ∨
        ∃ pre v post u u1 ws, [0, 0, 0] = pre ++ v :: post ∧
          run fiber_cfg pre finalize_called_fiber = .ok u ∧
          (u.stack v).head? = some (.end_finish_tail ws 1) ∧ step fiber_cfg v u = .ok u1 ∧
          flags u1 = flags finalize_entry_fiber ∧ u1.finishes[1]? = some none)) :=
  ⟨⟨rfl, rfl, rfl,
    (flags_cleared_after_root_scope_closed default_cfg 0 1 finalize_entry_default
      finalize_called_default _ (by simp [Config.calm, default_cfg, fiber_cfg]) rfl rfl rfl (Or.inl ⟨rfl, rfl⟩)).2
      [0, 0, 0] signalled_state rfl⟩,
   ⟨rfl, rfl, rfl,
    (flags_cleared_after_root_scope_closed fiber_cfg 0 1 finalize_entry_fiber
      finalize_called_fiber _ (by simp [Config.calm, fiber_cfg]) rfl rfl rfl (Or.inr ⟨rfl, rfl⟩)).2
      [0, 0, 0] finalize_signalled_fiber rfl⟩⟩

/-- C23: `execute_task` on a task `t` whose body only works (it calls nothing
of the runtime, so it leaves the current scope alone).  After the body has
returned, the current scope of the worker is the scope of `t`, whatever it was
before, with only the check-out left to run.  For an escaping task (null
scope) the check-out changes nothing: the caller continues with a null current
scope and the finish scopes untouched, and an `async` it runs next is bound to
no scope and raises no counter.  For a task on a live scope whose check-out
does not reach zero the caller continues with the scope of `t` as current
scope. -/
theorem execute_task_leaves_task_scope_current (cfg : Config) (w : Nat) (s : State)
    (t : task_t) (wr : hc_workerState) (ns : List Nat)
    (hw : s.workers[w]? = some wr) (hbody : call_fp cfg t = .user (ns.map .work)) :
    ∃ s1 s2, execute_task cfg w s t = .ok s1 ∧
      run cfg (List.replicate (ns.length + 1) w) s1 = .ok s2 ∧
      s2.current_finish w = t.current_finish ∧
      s2.stack w = .execute_task_ret t.current_finish :: wr.stack ∧
      s2.finishes = s.finishes ∧ s2.log = s.log ++ ns ∧
      (t.current_finish = none →
        step cfg w s2 = .ok (s2.setWorker w
          { wr with current_finish := none, stack := wr.stack }) ∧
        ∀ g cs rest, wr.stack = .user (.async g :: cs) :: rest → wr.deque.length < cfg.cap →
          ∃ s4, run cfg [w, w] s2 = .ok s4 ∧ s4.finishes = s.finishes ∧
            s4.deque w = wr.deque ++ [{ new_task g with current_finish := none }]) ∧
      (∀ f fin, t.current_finish = some f → s.finishes[f]? = some (some fin) →
        fin.counter ≠ 1 →
        ∃ s3, step cfg w s2 = .ok s3 ∧ s3.current_finish w = some f ∧
          s3.stack w = wr.stack ∧ s3.counter f = some (fin.counter - 1)) := by
  have hwl := getElem?_lt hw
  let wrA : hc_workerState :=
    { wr with current_finish := t.current_finish,
              stack := call_fp cfg t :: .execute_task_ret t.current_finish :: wr.stack }
  let wrB : hc_workerState :=
    { wr with current_finish := t.current_finish,
              stack := .execute_task_ret t.current_finish :: wr.stack }
  let s1 : State := s.setWorker w wrA
  have hw1 : s1.workers[w]? = some wrA := workers_setWorker_same _ hw
  have hstA : wrA.stack = .user (ns.map .work) :: .execute_task_ret t.current_finish :: wr.stack := by
    simp only [wrA, hbody]
  have hrun := run_work_body cfg w ns s1 wrA _ hw1 hstA
  let s2 : State := { s1 with log := s1.log ++ ns }.setWorker w wrB
  have hs2 : ({ s1 with log := s1.log ++ ns }.setWorker w
      { wrA with stack := .execute_task_ret t.current_finish :: wr.stack }) = s2 := rfl
  rw [hs2] at hrun
  have hw2 : s2.workers[w]? = some wrB := by
    simp [s2, s1, State.setWorker, hwl]
  refine ⟨s1, s2, execute_task_eq cfg w s t wr hw, hrun, ?_, ?_, rfl, rfl, ?_, ?_⟩
  · rw [current_finish_of_some hw2]
  · rw [stack_of_some hw2]
  · intro hnone
    have hstep : step cfg w s2 = .ok (s2.setWorker w
        { wr with current_finish := none, stack := wr.stack }) := by
      simp [step, hw2, wrB, hnone, exec_frame, check_out_finish]
    refine ⟨hstep, ?_⟩
    intro g cs rest hst hroom
    let wrC : hc_workerState := { wr with current_finish := none, stack := .user cs :: rest }
    let s3 : State := s2.setWorker w wrC
    have hw3 : s3.workers[w]? = some wrC := workers_setWorker_same _ hw2
    have hstep2 : step cfg w (s2.setWorker w { wr with current_finish := none, stack := wr.stack })
        = spawn cfg w s3 (new_task g) := by
      have hwx : (s2.setWorker w { wr with current_finish := none, stack := wr.stack }).workers[w]?
          = some { wr with current_finish := none, stack := wr.stack } :=
        workers_setWorker_same _ hw2
      simp only [step, hwx, hst, exec_frame, exec_cmd]
      simp [s3, wrC, State.push, State.setWorker, s2, s1, hwl]
    have hsp := spawn_null_push_eq cfg w s3 (new_task g) wrC hw3 rfl rfl hroom
    have hrun2 : run cfg [w, w] s2 = spawn cfg w s3 (new_task g) := by
      simp only [run, hstep, Res.bind, hstep2]
      cases spawn cfg w s3 (new_task g) <;> rfl
    rw [hsp] at hrun2
    refine ⟨_, hrun2, ?_, ?_⟩
    · rw [increment_async_counter_finishes]
      rfl
    · rw [increment_async_counter_deque, deque_of_some (workers_setWorker_same _ hw3)]
  · intro f fin hcf hfin hne
    have hfin2 : (s2.setWorker w { wrB with stack := wr.stack }).finishes[f]? = some (some fin) :=
      hfin
    have hdec : ¬ (fin.counter - 1 = 0) := by omega
    have hstep : step cfg w s2 = .ok ((s2.setWorker w { wrB with stack := wr.stack }).setFinish f
        { fin with counter := fin.counter - 1 }) := by
      simp only [step, hw2]
      simp only [wrB, hcf, exec_frame, check_out_finish]
      have hg : (s2.setWorker w
          { wr with current_finish := some f, stack := wr.stack }).getFinish f = .ok fin :=
        getFinish_of_live hfin
      simp [hg, hc_atomic_dec, hdec]
    refine ⟨_, hstep, ?_, ?_, ?_⟩
    · have hwx : ((s2.setWorker w { wrB with stack := wr.stack }).setFinish f
          { fin with counter := fin.counter - 1 }).workers[w]? =
          some { wrB with stack := wr.stack } := workers_setWorker_same _ hw2
      rw [current_finish_of_some hwx]
      exact hcf
    · have hwx : ((s2.setWorker w { wrB with stack := wr.stack }).setFinish f
          { fin with counter := fin.counter - 1 }).workers[w]? =
          some { wrB with stack := wr.stack } := workers_setWorker_same _ hw2
      rw [stack_of_some hwx]
    · exact counter_setFinish_same _ hfin2

/-- Witness of C23 on `demo_state`, whose worker has scope 1 as current scope:
after an escaping task with body `work 1` the current scope is null.  And a
run: with deques of capacity 1, the main thread (current scope 1, counter 1
after its first `async`) spawns an escaping task on a full deque; the task
runs in place, the current scope of the main thread is null afterwards, and the
task it spawns next leaves the counter of scope 1 at 1. -/
theorem execute_task_leaves_task_scope_current_witness :
    demo_state.workers[0]? = some demo_worker ∧
    demo_worker.current_finish = some 1 ∧
    call_fp fiber_cfg { new_task 0 with current_finish := none } = .user ([1].map .work) ∧
    (∃ s1 s2, execute_task fiber_cfg 0 demo_state { new_task 0 with current_finish := none }
        = .ok s1 ∧
      run fiber_cfg (List.replicate ([1].length + 1) 0) s1 = .ok s2 ∧
      s2.current_finish 0 = none) ∧
    (boot_run tiny_deque_cfg 1 root_zeroed [.async 1, .async_escaping 0 [], .async_at 0 1]
        (List.replicate 6 0)).get?.map
        (fun s => (s.log, s.current_finish 0, s.counter 1, s.stack 0))
      = some ([1], none, some 1, [.user []]) :=
  match execute_task_leaves_task_scope_current fiber_cfg 0 demo_state
      { new_task 0 with current_finish := none } demo_worker [1] rfl rfl with
  | ⟨s1, s2, h1, h2, h3, _⟩ => ⟨rfl, rfl, rfl, ⟨s1, s2, h1, h2, h3⟩, rfl⟩
end Hclib
